import Mathlib

/-! Release reconciliation and release engine of the cluster agent.

A shallow embedding of

* `pkg/controller/c7nhelmrelease/c7nhelmrelease_controller.go` (the reconciler), and
* `pkg/helm/helm.go` (the release engine and the value-placeholder helpers),

followed by theorems about them.

Modelling conventions.

* A Go `string` is a Lean `String`; offsets and lengths count characters, which are
  Go's byte offsets on ASCII text (`gostr.ascii`, `gostr.utf8ByteSize_of_ascii`).  The
  theorems whose statement depends on an offset or a length in a text that may hold
  other characters are stated for ASCII text.
* A Go `error` is an `Option String` holding the error message (`none` is `nil`).
  A pair of results such as `(*Release, error)` is a pair of options, since the code
  returns both at once in places.
* Everything outside the two files (the API server, Tiller, the chart repository, the
  label injector, the JSON and YAML codecs) is a field of `World`.  Every such call is
  recorded, in order, in `Sys.calls`, and the answer of the world may depend on the
  calls made before it.
* A run that stops abnormally (a Go panic, `glog.Fatal`, an unbounded recursion) ends
  in an `Abort`.
-/

/-! ## Go standard library: package `strings` -/

namespace strings

/-- Offset of the first occurrence of `sub` in the text, counted from `i`. -/
def indexFrom (sub : List Char) : List Char → Nat → Option Nat
  | [], i => if sub.isEmpty then some i else none
  | c :: cs, i => if sub.isPrefixOf (c :: cs) then some i else indexFrom sub cs (i + 1)

/-- Go `strings.Index`: offset of the first occurrence of `substr`, or `-1`. -/
def Index (s substr : String) : Int :=
  match indexFrom substr.data s.data 0 with
  | some i => (i : Int)
  | none => -1

/-- Number of offsets of the text at which `sub` occurs; used to state how many
occurrences of the marker a step of `replaceValue` removes. -/
def occurrences (sub : List Char) : List Char → Nat
  | [] => if sub.isEmpty then 1 else 0
  | c :: cs => (if sub.isPrefixOf (c :: cs) then 1 else 0) + occurrences sub cs

/-- Go `strings.Contains`, which is `Index(s, substr) >= 0`. -/
def Contains (s substr : String) : Bool :=
  decide (0 ≤ Index s substr)

/-- Go `strings.HasSuffix`. -/
def HasSuffix (s suffix : String) : Bool :=
  suffix.data.reverse.isPrefixOf s.data.reverse

/-- Replacement of an empty `old`: `new` is inserted before every character and at
the end, at most `n` times when `n` is not negative. -/
def replaceEmpty (new : List Char) : Int → List Char → List Char
  | n, [] => if n = 0 then [] else new
  | n, c :: cs => if n = 0 then c :: cs else new ++ c :: replaceEmpty new (n - 1) cs

/-- Replacement of a non-empty `old`, scanning left to right over non-overlapping
occurrences; `skip` counts the characters of a matched occurrence still to drop. -/
def replaceScan (old new : List Char) : Int → Nat → List Char → List Char
  | _, _, [] => []
  | n, skip + 1, _ :: cs => replaceScan old new n skip cs
  | n, 0, c :: cs =>
    if n ≠ 0 ∧ old.isPrefixOf (c :: cs) then
      new ++ replaceScan old new (n - 1) (old.length - 1) cs
    else
      c :: replaceScan old new n 0 cs

/-- Go `strings.Replace(s, old, new, n)`: the first `n` occurrences, all of them when
`n < 0`. -/
def Replace (s old new : String) (n : Int) : String :=
  if old.data.isEmpty then ⟨replaceEmpty new.data n s.data⟩
  else ⟨replaceScan old.data new.data n 0 s.data⟩

/-- Splitting at a non-empty separator; `cur` is the current piece, reversed. -/
def splitScan (sep : List Char) : Nat → List Char → List Char → List String
  | _, cur, [] => [⟨cur.reverse⟩]
  | skip + 1, cur, _ :: cs => splitScan sep skip cur cs
  | 0, cur, c :: cs =>
    if sep.isPrefixOf (c :: cs) then
      ⟨cur.reverse⟩ :: splitScan sep (sep.length - 1) [] cs
    else
      splitScan sep 0 (c :: cur) cs

/-- Go `strings.Split(s, sep)`. -/
def Split (s sep : String) : List String :=
  if sep.data.isEmpty then s.data.map (fun c => ⟨[c]⟩)
  else splitScan sep.data 0 [] s.data

/-- Go `unicode.IsSpace`. -/
def isSpace (c : Char) : Bool :=
  let n := c.toNat
  n = 9 || n = 10 || n = 11 || n = 12 || n = 13 || n = 32 || n = 0x85 || n = 0xA0 ||
  n = 0x1680 || (0x2000 ≤ n && n ≤ 0x200a) || n = 0x2028 || n = 0x2029 || n = 0x202f ||
  n = 0x205f || n = 0x3000

/-- Go `strings.TrimSpace`. -/
def TrimSpace (s : String) : String :=
  ⟨((s.data.dropWhile isSpace).reverse.dropWhile isSpace).reverse⟩

end strings

/-! ## Go standard library: package `strconv` -/

namespace strconv

/-- One digit of `"0123456789abcdef"`. -/
def lowerhex (n : Nat) : Char :=
  if n < 10 then Char.ofNat (48 + n) else Char.ofNat (87 + n)

/-- The `k` lowest hexadecimal digits of `r`, most significant first. -/
def hexDigits (r : Nat) : Nat → List Char
  | 0 => []
  | k + 1 => lowerhex ((r / 16 ^ k) % 16) :: hexDigits r k

/-- Go `appendEscapedRune` for the double quote, neither ASCII-only nor graphic-only.
The printable characters (`unicode.IsPrint`, a table) are a parameter. -/
def escapeRune (IsPrint : Char → Bool) (r : Char) : List Char :=
  if r = '"' ∨ r = '\\' then ['\\', r]
  else if IsPrint r then [r]
  else if r = '\x07' then ['\\', 'a']
  else if r = '\x08' then ['\\', 'b']
  else if r = '\x0c' then ['\\', 'f']
  else if r = '\n' then ['\\', 'n']
  else if r = '\r' then ['\\', 'r']
  else if r = '\t' then ['\\', 't']
  else if r = '\x0b' then ['\\', 'v']
  else if r.toNat < 32 ∨ r.toNat = 127 then '\\' :: 'x' :: hexDigits r.toNat 2
  else if r.toNat < 65536 then '\\' :: 'u' :: hexDigits r.toNat 4
  else '\\' :: 'U' :: hexDigits r.toNat 8

/-- Go `strconv.Quote`, the text that the verb `%q` prints for a string. -/
def Quote (IsPrint : Char → Bool) (s : String) : String :=
  ⟨'"' :: (s.data.flatMap (escapeRune IsPrint) ++ ['"'])⟩

/-- Go `strconv.Atoi` on a 64-bit platform: an optional sign and decimal digits, in
the range of `int`; `none` is the syntax or range error. -/
def Atoi (s : String) : Option Int :=
  let body : Bool × List Char :=
    match s.data with
    | '-' :: r => (true, r)
    | '+' :: r => (false, r)
    | r => (false, r)
  if body.2.isEmpty || !body.2.all Char.isDigit then none
  else
    let n : Nat := body.2.foldl (fun a c => 10 * a + (c.toNat - 48)) 0
    let v : Int := if body.1 then -(n : Int) else (n : Int)
    if -(2 : Int) ^ 63 ≤ v ∧ v < (2 : Int) ^ 63 then some v else none

/-- Go `strconv.Itoa`. -/
def Itoa (n : Int) : String :=
  toString n

end strconv

/-! ## Go maps with string keys -/

namespace gomap

/-- Go `m[k]` on a `map[string]string`: the value stored under `k`, or `""`. -/
def get (m : List (String × String)) (k : String) : String :=
  match m with
  | [] => ""
  | (k1, v) :: rest => if k1 = k then v else get rest k

/-- Go `delete(m, k)`. -/
def delete (m : List (String × String)) (k : String) : List (String × String) :=
  m.filter (fun e => e.1 ≠ k)

/-- Go `m[k] = v`: the entry under `k` is replaced, a new key is added. -/
def set (m : List (String × String)) (k v : String) : List (String × String) :=
  match m with
  | [] => [(k, v)]
  | (k1, v1) :: rest => if k1 = k then (k, v) :: rest else (k1, v1) :: set rest k v

end gomap

/-! ## Data model -/

namespace model

/-- The packet types the reconciler uses (constants of package `model`). -/
inductive PacketType where
  | HelmReleasePreInstall
  | HelmReleasePreUpgrade
  | HelmReleaseDelete
  | HelmReleaseSyncedFailed
  | HelmReleaseSynced
  deriving DecidableEq, Repr

/-- The envelope `model.Packet`. -/
structure Packet where
  Key : String
  Type_ : PacketType
  Payload : String
  deriving DecidableEq, Repr

end model

namespace v1

/-- Kubernetes `v1.LocalObjectReference`. -/
structure LocalObjectReference where
  Name : String
  deriving DecidableEq, Repr

end v1

namespace choerodonv1alpha1

/-- The `Spec` of a `C7NHelmRelease`. -/
structure C7NHelmReleaseSpec where
  RepoURL : String
  ChartName : String
  ChartVersion : String
  Values : String
  ImagePullSecrets : List v1.LocalObjectReference
  deriving DecidableEq, Repr

/-- The custom resource `C7NHelmRelease`; `Annotations = none` is the nil map. -/
structure C7NHelmRelease where
  Name : String
  Namespace : String
  Annotations : Option (List (String × String))
  Spec : C7NHelmReleaseSpec
  deriving DecidableEq, Repr

/-- The zero value `&C7NHelmRelease{}` that `Reconcile` allocates before the fetch. -/
def C7NHelmRelease.zero : C7NHelmRelease :=
  { Name := "", Namespace := "", Annotations := none,
    Spec := { RepoURL := "", ChartName := "", ChartVersion := "", Values := "",
              ImagePullSecrets := [] } }

/-- Go `instance.Annotations[key]`; a lookup in the nil map gives `""`. -/
def C7NHelmRelease.annotation (cr : C7NHelmRelease) (key : String) : String :=
  match cr.Annotations with
  | none => ""
  | some m => gomap.get m key

end choerodonv1alpha1

namespace chart

/-- Tiller `chart.Metadata` (the fields the engine reads). -/
structure Metadata where
  Name : String
  Version : String
  Engine : String
  deriving DecidableEq, Repr

/-- Tiller `chart.Template`. -/
structure Template where
  Name : String
  Data : String
  deriving DecidableEq, Repr

/-- Tiller `chart.Config`. -/
structure Config where
  Raw : String
  deriving DecidableEq, Repr

/-- Tiller `chart.Chart`. -/
inductive Chart where
  | mk (Metadata : Metadata) (Templates : List Template) (Dependencies : List Chart)
      (Values : Config)

/-- Field `Metadata`. -/
def Chart.Metadata : Chart → Metadata
  | .mk m _ _ _ => m

/-- Field `Templates`. -/
def Chart.Templates : Chart → List Template
  | .mk _ t _ _ => t

/-- Field `Dependencies`. -/
def Chart.Dependencies : Chart → List Chart
  | .mk _ _ d _ => d

/-- Field `Values`. -/
def Chart.Values : Chart → Config
  | .mk _ _ _ v => v

end chart

namespace release

/-- Tiller `release.Hook` (the fields the engine reads). -/
structure Hook where
  Name : String
  Kind : String
  Manifest : String
  Weight : Int
  deriving DecidableEq, Repr

/-- Tiller `release.Release`; `Status` is `Info.Status.Code.String()`. -/
structure Release where
  Name : String
  Version : Int
  Namespace : String
  Status : String
  Chart : chart.Chart
  Config : chart.Config
  Manifest : String
  Hooks : List Hook

end release

namespace helm

/-- The engine's `ReleaseHook`. -/
structure ReleaseHook where
  Name : String
  Manifest : String
  Weight : Int
  Kind : String
  ReleaseName : String
  deriving DecidableEq, Repr

/-- The engine's `ReleaseResource`. -/
structure ReleaseResource where
  Group : String
  Version : String
  Kind : String
  Name : String
  ResourceVersion : String
  Object : String
  deriving DecidableEq, Repr

/-- The engine's `Release`. -/
structure Release where
  Name : String
  Revision : Int
  Namespace : String
  Status : String
  ChartName : String
  ChartVersion : String
  Manifest : String
  Hooks : List ReleaseHook
  Resources : List ReleaseResource
  Config : String
  Commit : String
  deriving DecidableEq, Repr

/-- Request of `InstallRelease` and `PreInstallRelease`. -/
structure InstallReleaseRequest where
  RepoURL : String
  ChartName : String
  ChartVersion : String
  Values : String
  ReleaseName : String
  Commit : String
  Namespace : String
  ImagePullSecrets : List v1.LocalObjectReference
  deriving DecidableEq, Repr

/-- Request of `UpgradeRelease` and `PreUpgradeRelease`. -/
structure UpgradeReleaseRequest where
  RepoURL : String
  ChartName : String
  ChartVersion : String
  Values : String
  ReleaseName : String
  Commit : String
  Namespace : String
  ImagePullSecrets : List v1.LocalObjectReference
  deriving DecidableEq, Repr

/-- Request of `DeleteRelease`. -/
structure DeleteReleaseRequest where
  ReleaseName : String
  deriving DecidableEq, Repr

/-- Request of `GetRelease` and `GetReleaseContent`. -/
structure GetReleaseContentRequest where
  ReleaseName : String
  Version : Int
  deriving DecidableEq, Repr

end helm

namespace yaml

/-- A decoded YAML value, as Go holds it in an `interface{}`. -/
inductive Value where
  | null
  | bool (b : Bool)
  | int (n : Int)
  | float (text : String)
  | str (s : String)
  | seq (xs : List Value)
  | ifaceMap (m : List (Value × Value))
  | strMap (m : List (String × Value))

/-- The value at a path of keys that leads through string-keyed maps; used to state
properties of `removeValues`. -/
def Value.atPath : Value → List String → Option Value
  | v, [] => some v
  | v, key :: rest =>
    match v with
    | .strMap m =>
      match m.find? (fun kv => kv.1 == key) with
      | some kv => Value.atPath kv.2 rest
      | none => none
    | _ => none

end yaml

namespace tiller

/-- Tiller `Manifest`: one rendered non-hook document. -/
structure Manifest where
  Name : String
  Content : String
  deriving DecidableEq, Repr

end tiller

/-- An error of the Kubernetes API client; `notFound` is `errors.IsNotFound(err)`. -/
structure ApiError where
  notFound : Bool
  msg : String
  deriving DecidableEq, Repr

/-! ## The outside world -/

/-- A call that leaves the two files, with its arguments. -/
inductive Call where
  | GetC7NHelmRelease (ns name : String)
  | GetCustomResourceDefinition (ns name : String)
  | ReleaseContent (name : String) (version : Int)
  | getChart (repoURL name version : String)
  | GetDiscoveryClient
  | Render (c : chart.Chart) (ns name values : String) (revision : Int)
  | sortManifests (files : List (String × String))
  | LabelObjects (ns : String) (secrets : List v1.LocalObjectReference)
      (manifest releaseName chartName chartVersion : String)
  | InstallReleaseFromChart (c : chart.Chart) (ns values name : String)
  | DeleteRelease (name : String) (purge : Bool)
  | BuildUnstructured (ns manifest : String)
  | LookPath (file : String)
  | ApplySingleObj (ns data : String)
  | ListReleases (ns : String)
  | UpdateReleaseFromChart (name : String) (c : chart.Chart) (values : String)

/-- Whether the call changes the release store. -/
def Call.isStoreMutation : Call → Bool
  | .InstallReleaseFromChart _ _ _ _ => true
  | .DeleteRelease _ _ => true
  | .UpdateReleaseFromChart _ _ _ => true
  | _ => false

/-- Whether the call is a delete with purge. -/
def Call.isDeletePurge : Call → Bool
  | .DeleteRelease _ purge => purge
  | _ => false

/-- Whether the call loads a chart. -/
def Call.isChartLoad : Call → Bool
  | .getChart _ _ _ => true
  | _ => false

/-- Whether the call is a call of the label injector. -/
def Call.isLabelInjection : Call → Bool
  | .LabelObjects _ _ _ _ _ _ => true
  | _ => false

/-- Whether the call is a query of the release store. -/
def Call.isReleaseQuery : Call → Bool
  | .ReleaseContent _ _ => true
  | _ => false

/-- Everything the two files call into.  A field that takes a `List Call` is an
external call: it is given the calls made before it and is recorded in `Sys.calls`.
The other fields are constants and pure library functions.

* `CommitLabel` is the constant `model.CommitLabel`.
* `IsPrint` is the table `unicode.IsPrint`.
* `jsonInstallRequest`, `jsonUpgradeRequest`, `jsonDeleteRequest` are `json.Marshal`
  on the three request types (their declarations carry the field tags).
* `yamlUnmarshal`, `yamlMarshal` are `yaml.Unmarshal` into a `map[string]interface{}`
  and `yaml.Marshal` of one.
* `executeIssuerTemplate` executes the template `model.CertManagerClusterIssuer`
  with the given `ACME_EMAIL`.
* `ProcessRequirementsEnabled` is the chart as `chartutil.ProcessRequirementsEnabled`
  leaves it.
* `Render` is `capabilities`, `chartutil.ToRenderValuesCaps` and the render engine.
* `BuildUnstructured` is `kubeClient.BuildUnstructured` followed by the lookups that
  `GetResources` makes for every object it returns (`info.Get`,
  `GetSelectRelationPod`, `json.Marshal`); its answer is the resource list that this
  loop assembles.
* In a pair `(response, error)` of Tiller the response stands for the release that
  it carries, and the response of `ListReleases` for its list of releases.
* `ListReleases` is called with the option `helm.ReleaseListNamespace`. -/
structure World where
  CommitLabel : String
  IsPrint : Char → Bool
  jsonInstallRequest : helm.InstallReleaseRequest → Except String String
  jsonUpgradeRequest : helm.UpgradeReleaseRequest → Except String String
  jsonDeleteRequest : helm.DeleteReleaseRequest → Except String String
  yamlUnmarshal : String → Except String (List (String × yaml.Value))
  yamlMarshal : List (String × yaml.Value) → Except String String
  Getenv : String → String
  executeIssuerTemplate : String → String
  ProcessRequirementsEnabled : chart.Chart → chart.Config → chart.Chart
  GetC7NHelmRelease : List Call → String → String →
    Except ApiError choerodonv1alpha1.C7NHelmRelease
  GetCustomResourceDefinition : List Call → String → String → Option ApiError
  ReleaseContent : List Call → String → Int → Option release.Release × Option String
  getChart : List Call → String → String → String → Except String chart.Chart
  GetDiscoveryClient : List Call → Option String
  Render : List Call → chart.Chart → String → String → String → Int →
    Except String (List (String × String))
  sortManifests : List Call → List (String × String) →
    Except String (List release.Hook × List tiller.Manifest)
  LabelObjects : List Call → String → List v1.LocalObjectReference → String → String →
    String → String → Except String String
  InstallReleaseFromChart : List Call → chart.Chart → String → String → String →
    Option release.Release × Option String
  DeleteRelease : List Call → String → Bool → Option release.Release × Option String
  BuildUnstructured : List Call → String → String →
    Except String (List helm.ReleaseResource)
  LookPath : List Call → String → Except String String
  ApplySingleObj : List Call → String → String → Option String
  ListReleases : List Call → String → Option (List release.Release) × Option String
  UpdateReleaseFromChart : List Call → String → chart.Chart → String →
    Option release.Release × Option String

/-- An abnormal end of a run. -/
inductive Abort where
  | panic (msg : String)
  | fatal (msg : String)
  | diverge
  deriving DecidableEq, Repr

/-- What a run has done so far: the external calls and the packets sent on the two
channels, oldest first. -/
structure Sys where
  calls : List Call
  commandChan : List model.Packet
  responseChan : List model.Packet

/-- A computation that makes external calls and sends packets, and may abort. -/
def Op (α : Type) : Type :=
  Sys → Except Abort α × Sys

namespace Op

/-- Return a value. -/
def ret {α : Type} (a : α) : Op α :=
  fun s => (.ok a, s)

/-- Sequencing; an abort ends the run. -/
def andThen {α β : Type} (m : Op α) (f : α → Op β) : Op β :=
  fun s =>
    match m s with
    | (.ok a, s1) => f a s1
    | (.error e, s1) => (.error e, s1)

instance : Monad Op where
  pure := ret
  bind := andThen

/-- An external call: the world answers from the calls made so far, and the call is
recorded. -/
def call {α : Type} (c : Call) (answer : List Call → α) : Op α :=
  fun s => (.ok (answer s.calls), { s with calls := s.calls ++ [c] })

/-- Abort the run. -/
def abort {α : Type} (e : Abort) : Op α :=
  fun s => (.error e, s)

/-- Lift a pure computation that may abort. -/
def lift {α : Type} (r : Except Abort α) : Op α :=
  fun s => (r, s)

/-- Send on the command channel. -/
def sendCommand (p : model.Packet) : Op Unit :=
  fun s => (.ok (), { s with commandChan := s.commandChan ++ [p] })

/-- Send on the response channel. -/
def sendResponse (p : model.Packet) : Op Unit :=
  fun s => (.ok (), { s with responseChan := s.responseChan ++ [p] })

end Op

/-- The state before anything has happened. -/
def Sys.init : Sys :=
  { calls := [], commandChan := [], responseChan := [] }

/-! ## Go slices of strings -/

namespace gostr

/-- Go `s[lo:hi]`; out-of-range bounds panic. -/
def slice (s : String) (lo hi : Int) : Except Abort String :=
  if 0 ≤ lo ∧ lo ≤ hi ∧ hi ≤ (s.length : Int) then
    .ok ⟨(s.data.take hi.toNat).drop lo.toNat⟩
  else
    .error (.panic "slice bounds out of range")

/-- Go `s[lo:]`. -/
def sliceFrom (s : String) (lo : Int) : Except Abort String :=
  slice s lo s.length

/-- Go `s[:hi]`. -/
def sliceTo (s : String) (hi : Int) : Except Abort String :=
  slice s 0 hi

/-- Go `key[len(key)-5:]`, where the guard `len(key) >= 5` keeps it in range. -/
def last5 (key : String) : String :=
  ⟨key.data.drop (key.length - 5)⟩

/-- Whether a text is ASCII.  Go counts the offsets and the lengths of a string in
bytes, the definitions here count characters; on an ASCII text every character is one
byte and the two agree. -/
def ascii (s : String) : Bool :=
  s.data.all (fun c => c.toNat < 128)

end gostr

/-! ## `pkg/helm/helm.go`: the value-placeholder helpers -/

namespace helm

open chart

/-- Constant `notesFileSuffix`. -/
def notesFileSuffix : String := "NOTES.txt"

/-- Constant `tmpMagicStr`, the marker. -/
def tmpMagicStr : String := "crockitwoodzZ: heihei"

/-- The message of `ErrReleaseNotFound(release)`, that is
`fmt.Errorf("release: %q not found", release)`. -/
def ErrReleaseNotFound (w : World) (release : String) : String :=
  "release: " ++ strconv.Quote w.IsPrint release ++ " not found"

/-- Function `mergeConfigMap`: every round of the loop assigns `"\n---\n" + cm` to
`result`. -/
def mergeConfigMap (cms : List String) : String :=
  cms.foldl (fun _ cm => "\n---\n" ++ cm) ""

/-- One round of the loop of `labelChartsConfigMap` over `chart.Templates`. -/
def labelChartsConfigMap.template (results : List String) (tmp : Template) : List String :=
  let tmpContent := tmp.Data
  if strings.Contains tmpContent "ConfigMap" then
    if strings.Contains tmpContent "---\n" then
      results ++ (strings.Split tmpContent "---\n").filter
        (fun resource => strings.Contains resource "ConfigMap")
    else
      results ++ [tmpContent]
  else
    results

mutual
/-- Function `labelChartsConfigMap`; `results` is the slice behind the pointer.  The
Go function returns an error that is always nil. -/
def labelChartsConfigMap : Chart → List String → List String
  | .mk _ templates dependencies _, results =>
    labelChartsConfigMap.dependencies dependencies
      (templates.foldl labelChartsConfigMap.template results)
/-- The loop of `labelChartsConfigMap` over `chart.Dependencies`. -/
def labelChartsConfigMap.dependencies : List Chart → List String → List String
  | [], results => results
  | dependentChart :: rest, results =>
    labelChartsConfigMap.dependencies rest (labelChartsConfigMap dependentChart results)
end

/-- Function `cmForChart`. -/
def cmForChart (c : Chart) : String × Option String :=
  (mergeConfigMap (labelChartsConfigMap c []), none)

/-- Function `getValuesMap`, with the recursion depth bounded by `fuel`.  The length of
the key and its last five are counted in characters, which are the bytes of Go when the
text before the expression is ASCII (`gostr.ascii`). -/
def getValuesMap.go : Nat → String → List (String × String) →
    Except Abort (List (String × String))
  | 0, _, _ => .error .diverge
  | fuel + 1, cms, vMap =>
    let keyIndex := strings.Index cms "\x7b\x7b"
    if keyIndex = -1 then .ok vMap
    else
      let valueIndex := strings.Index cms "\x7d\x7d"
      match gostr.slice cms keyIndex (valueIndex + 2) with
      | .error e => .error e
      | .ok value =>
        match gostr.sliceTo cms keyIndex with
        | .error e => .error e
        | .ok key0 =>
          let key := strings.Replace (strings.Replace key0 " " "" (-1)) "\n" "" (-1)
          let vMap1 :=
            if key.length ≥ 5 then gomap.set vMap (gostr.last5 key) value else vMap
          match gostr.sliceFrom cms (valueIndex + 2) with
          | .error e => .error e
          | .ok newCms => getValuesMap.go fuel newCms vMap1

/-- Function `getValuesMap`.  Every recursive call is on a shorter text, so the
depth `len(cms) + 1` is never exceeded. -/
def getValuesMap (cms : String) (vMap : List (String × String)) :
    Except Abort (List (String × String)) :=
  getValuesMap.go (cms.length + 1) cms vMap

/-- Whether, at every step of `getValuesMap` on the text, the first `}}` of the
remaining text lies after its first `{{`; `fuel` bounds the number of steps.  Used to
state when `getValuesMap` makes no slice out of range. -/
def getValuesMap.inOrder : Nat → String → Bool
  | 0, _ => true
  | fuel + 1, cms =>
    let keyIndex := strings.Index cms "\x7b\x7b"
    if keyIndex = -1 then true
    else
      let valueIndex := strings.Index cms "\x7d\x7d"
      decide (keyIndex < valueIndex) &&
        getValuesMap.inOrder fuel ⟨cms.data.drop (valueIndex + 2).toNat⟩

/-- Whether `}}` occurs in the text before the first newline. -/
def closesOnLine : List Char → Bool
  | [] => false
  | c :: cs =>
    if c = '\n' then false
    else (c = '}' && (match cs with | d :: _ => d = '}' | [] => false)) || closesOnLine cs

/-- The match `regexp.MatchString(".*{{.*}}.*", valued)`: a `{{` followed by a `}}`
with no newline between them (the dot of Go does not match a newline). -/
def matchesTemplating : List Char → Bool
  | [] => false
  | c :: cs =>
    (c = '{' && (match cs with | d :: r => d = '{' && closesOnLine r | [] => false))
      || matchesTemplating cs

mutual
/-- Function `removeValues` on a `map[string]interface{}`. -/
def removeValues : List (String × yaml.Value) → List (String × yaml.Value)
  | [] => []
  | (key, value) :: rest => (key, removeValues.value value) :: removeValues rest
/-- One round of the loop of `removeValues`: the type switch on the value. -/
def removeValues.value : yaml.Value → yaml.Value
  | .str valued => if matchesTemplating valued.data then .str tmpMagicStr else .str valued
  | .strMap valued => .strMap (removeValues valued)
  | value => value
end

/-- Function `calculateIndent`.  The slice `tmpStr[idx+6:]` is in range, since
`"indent"` occurs at `idx`; `strs[0]` exists, since `Split` returns a piece. -/
def calculateIndent (tmpStr : String) : Int :=
  let idx := strings.Index tmpStr "indent"
  if idx = -1 then -1
  else
    let rest : String := ⟨tmpStr.data.drop (idx + 6).toNat⟩
    let str := strings.TrimSpace rest
    let strs := strings.Split str " "
    let count := strs.headD ""
    match strconv.Atoi count with
    | none => -1
    | some b => b

/-- Function `replaceValue`, with the recursion depth bounded by `fuel`; the result
carries the map as the calls leave it, since `delete` changes the caller's map.  The
offset of the marker, the length of the key, its last five and the cut of the indent
are counted in characters, which are the bytes of Go when the text before the marker
is ASCII (`gostr.ascii`). -/
def replaceValue : Nat → String → List (String × String) →
    Except Abort (String × List (String × String))
  | 0, _, _ => .error .diverge
  | fuel + 1, manifest, valueMap =>
    let index := strings.Index manifest tmpMagicStr
    if index ≠ -1 ∧ index ≥ 8 then
      match gostr.slice manifest 0 index with
      | .error e => .error e
      | .ok key0 =>
        let key := strings.Replace (strings.Replace key0 " " "" (-1)) "\n" "" (-1)
        let replaceTo := "test: test"
        if key.length ≥ 5 ∧ gomap.get valueMap (gostr.last5 key) ≠ "" then
          let value := gomap.get valueMap (gostr.last5 key)
          let indent := calculateIndent value
          let cut : Except Abort String :=
            if indent ≠ -1 then
              match gostr.sliceTo manifest (index - indent) with
              | .error e => .error e
              | .ok head =>
                match gostr.sliceFrom manifest index with
                | .error e => .error e
                | .ok tail => .ok (head ++ tail)
            else .ok manifest
          match cut with
          | .error e => .error e
          | .ok manifest1 =>
            replaceValue fuel
              (strings.Replace manifest1 tmpMagicStr (gomap.get valueMap (gostr.last5 key)) 1)
              (gomap.delete valueMap key)
        else
          replaceValue fuel (strings.Replace manifest tmpMagicStr replaceTo 1) valueMap
    else
      .ok (manifest, valueMap)

/-- One pass of the body of `replaceValue`: `none` where the function returns the
manifest, the manifest and the map of the recursive call where it calls itself. -/
def replaceValue.step (manifest : String) (valueMap : List (String × String)) :
    Except Abort (Option (String × List (String × String))) :=
  let index := strings.Index manifest tmpMagicStr
  if index ≠ -1 ∧ index ≥ 8 then
    match gostr.slice manifest 0 index with
    | .error e => .error e
    | .ok key0 =>
      let key := strings.Replace (strings.Replace key0 " " "" (-1)) "\n" "" (-1)
      let replaceTo := "test: test"
      if key.length ≥ 5 ∧ gomap.get valueMap (gostr.last5 key) ≠ "" then
        let value := gomap.get valueMap (gostr.last5 key)
        let indent := calculateIndent value
        let cut : Except Abort String :=
          if indent ≠ -1 then
            match gostr.sliceTo manifest (index - indent) with
            | .error e => .error e
            | .ok head =>
              match gostr.sliceFrom manifest index with
              | .error e => .error e
              | .ok tail => .ok (head ++ tail)
          else .ok manifest
        match cut with
        | .error e => .error e
        | .ok manifest1 =>
          .ok (some
            (strings.Replace manifest1 tmpMagicStr (gomap.get valueMap (gostr.last5 key)) 1,
             gomap.delete valueMap key))
      else
        .ok (some (strings.Replace manifest tmpMagicStr replaceTo 1, valueMap))
  else
    .ok none

/-- Whether, at the first marker of the manifest, the indent is in range: when the
marker is at an offset of 8 or more and the map has a non-empty expression under the
key of the text before it, the indent of that expression is `-1` or lies between 0 and
the offset of the marker. -/
def replaceValue.indentInRange (manifest : String) (valueMap : List (String × String)) :
    Bool :=
  let index := strings.Index manifest tmpMagicStr
  match gostr.slice manifest 0 index with
  | .error _ => true
  | .ok key0 =>
    let key := strings.Replace (strings.Replace key0 " " "" (-1)) "\n" "" (-1)
    let indent := calculateIndent (gomap.get valueMap (gostr.last5 key))
    decide (index ≥ 8 → key.length ≥ 5 → gomap.get valueMap (gostr.last5 key) ≠ "" →
      indent = -1 ∨ (0 ≤ indent ∧ indent ≤ index))

/-- Whether the indent is in range at every marker that the run of `replaceValue` on the
manifest replaces; `fuel` bounds the number of passes.  Used to state when
`replaceValue` makes no slice out of range. -/
def replaceValue.inRange : Nat → String → List (String × String) → Bool
  | 0, _, _ => true
  | fuel + 1, manifest, valueMap =>
    replaceValue.indentInRange manifest valueMap &&
      match replaceValue.step manifest valueMap with
      | .ok (some (manifest1, valueMap1)) => replaceValue.inRange fuel manifest1 valueMap1
      | _ => true

/-- Function `removeStringValues`; the result is Go's pair `(error, string)`. -/
def removeStringValues (w : World) (values : String) : Option String × String :=
  match w.yamlUnmarshal values with
  | .error e => (some ("unmarshal values err: " ++ e), "")
  | .ok mapValues =>
    match w.yamlMarshal (removeValues mapValues) with
    | .error e => (some ("marshal map values err: " ++ e), "")
    | .ok bytesValues => (none, bytesValues)

end helm

/-! ## `pkg/helm/helm.go`: the release engine -/

namespace helm

open chart

/-- The chart with `Values.Raw` assigned. -/
def setValuesRaw (c : Chart) (raw : String) : Chart :=
  .mk c.Metadata c.Templates c.Dependencies { Raw := raw }

/-- Method `renderManifests`; the result is Go's triple `(hooks, buffer, error)`.
The rendered files are a Go map; the list holds them in the order in which the map is
ranged over. -/
def renderManifests (w : World) (namespace_ : String) (chartRequested : Chart)
    (releaseName values : String) (revision : Int) :
    Op (List release.Hook × Option String × Option String) := do
  let discoveryErr ← Op.call .GetDiscoveryClient w.GetDiscoveryClient
  if discoveryErr.isSome then
    return ([], none, discoveryErr)
  let rendered ← Op.call (.Render chartRequested namespace_ releaseName values revision)
    (fun h => w.Render h chartRequested namespace_ releaseName values revision)
  match rendered with
  | .error e => return ([], none, some e)
  | .ok allFiles =>
    let files := allFiles.filter (fun kv => !strings.HasSuffix kv.1 notesFileSuffix)
    let sorted ← Op.call (.sortManifests files) (fun h => w.sortManifests h files)
    match sorted with
    | .error e =>
      let b := files.foldl
        (fun b kv =>
          if (strings.TrimSpace kv.2).length = 0 then b
          else b ++ ("\n---\n# Source: " ++ kv.1 ++ "\n") ++ kv.2) ""
      return ([], some b, some e)
    | .ok (hooks, manifests) =>
      let b := manifests.foldl
        (fun b m => b ++ ("\n---\n# Source: " ++ m.Name ++ "\n") ++ m.Content) ""
      return (hooks, some b, none)

/-- Method `GetResources`. -/
def GetResources (w : World) (namespace_ manifest : String) :
    Op (Option (List ReleaseResource) × Option String) := do
  let result ← Op.call (.BuildUnstructured namespace_ manifest)
    (fun h => w.BuildUnstructured h namespace_ manifest)
  match result with
  | .error e => return (none, some ("build unstructured: " ++ e))
  | .ok resources => return (some resources, none)

/-- The hooks that `getHelmRelease` and `getHelmReleaseNoResource` build: name and
kind only. -/
def releaseHooksOf (rel : release.Release) : List ReleaseHook :=
  rel.Hooks.map (fun rlsHook =>
    { Name := rlsHook.Name, Kind := rlsHook.Kind, Manifest := "", Weight := 0,
      ReleaseName := "" })

/-- Method `getHelmRelease`; a nil release is dereferenced at once. -/
def getHelmRelease (w : World) (rel : Option release.Release) :
    Op (Option Release × Option String) :=
  match rel with
  | none => Op.abort (.panic "nil pointer dereference")
  | some rel => do
    let (resources, err) ← GetResources w rel.Namespace rel.Manifest
    match err with
    | some e => return (none, some ("get resource: " ++ e))
    | none =>
      return (some
        { Name := rel.Name, Revision := rel.Version, Namespace := rel.Namespace,
          Status := rel.Status, ChartName := rel.Chart.Metadata.Name,
          ChartVersion := rel.Chart.Metadata.Version, Manifest := rel.Manifest,
          Hooks := releaseHooksOf rel, Resources := resources.getD [],
          Config := rel.Config.Raw, Commit := "" }, none)

/-- Method `getHelmReleaseNoResource`. -/
def getHelmReleaseNoResource (rel : release.Release) : Option Release × Option String :=
  (some
    { Name := rel.Name, Revision := rel.Version, Namespace := rel.Namespace,
      Status := rel.Status, ChartName := rel.Chart.Metadata.Name,
      ChartVersion := rel.Chart.Metadata.Version, Manifest := rel.Manifest,
      Hooks := releaseHooksOf rel, Resources := [],
      Config := rel.Config.Raw, Commit := "" }, none)

/-- Method `DeleteRelease`. -/
def DeleteRelease (w : World) (request : DeleteReleaseRequest) :
    Op (Option Release × Option String) := do
  let (deleteReleaseResp, err) ← Op.call (.DeleteRelease request.ReleaseName true)
    (fun h => w.DeleteRelease h request.ReleaseName true)
  match err with
  | some e => return (none, some ("delete release " ++ request.ReleaseName ++ ": " ++ e))
  | none =>
    let (rls, err) ← getHelmRelease w deleteReleaseResp
    if err.isSome then
      return (none, err)
    return (rls, none)

/-- Method `GetRelease`. -/
def GetRelease (w : World) (request : GetReleaseContentRequest) :
    Op (Option Release × Option String) := do
  let (releaseContentResp, err) ← Op.call (.ReleaseContent request.ReleaseName request.Version)
    (fun h => w.ReleaseContent h request.ReleaseName request.Version)
  if err.any (fun e => !strings.Contains e (ErrReleaseNotFound w request.ReleaseName)) then
    return (none, err)
  match releaseContentResp with
  | none => return (none, some ("release " ++ request.ReleaseName ++ " not exist"))
  | some rel =>
    let (rls, err) := getHelmReleaseNoResource rel
    if err.isSome then
      return (none, err)
    return (rls, none)

/-- Function `getCertManagerIssuerData`. -/
def getCertManagerIssuerData (w : World) : String :=
  let email := w.Getenv "ACME_EMAIL"
  w.executeIssuerTemplate (if email = "" then "change_it@choerodon.io" else email)

/-- The loop of `InstallRelease` over `manifestDocs`: label injection and
placeholder restoration of every document.  The result is the error that the loop
returns with, or `newTemplates`. -/
def InstallRelease.label (w : World) (fuel : Nat) (request : InstallReleaseRequest) :
    Nat → List String → List (String × String) → List Template →
    Op (Except String (List Template))
  | _, [], _, newTemplates => pure (.ok newTemplates)
  | index, manifestToInsert :: rest, valuesMap, newTemplates => do
    let labeled ← Op.call
      (.LabelObjects request.Namespace request.ImagePullSecrets manifestToInsert
        request.ReleaseName request.ChartName request.ChartVersion)
      (fun h => w.LabelObjects h request.Namespace request.ImagePullSecrets manifestToInsert
        request.ReleaseName request.ChartName request.ChartVersion)
    match labeled with
    | .error e => return .error ("label objects: " ++ e)
    | .ok newManifestBuf =>
      let (manifestBytes, valuesMap1) ← Op.lift (replaceValue fuel newManifestBuf valuesMap)
      let newTemplate : Template :=
        if index = 0 then { Name := request.ReleaseName, Data := manifestBytes }
        else { Name := "hook" ++ strconv.Itoa index, Data := manifestBytes }
      InstallRelease.label w fuel request (index + 1) rest valuesMap1
        (newTemplates ++ [newTemplate])

/-- Method `InstallRelease`; `fuel` bounds the recursion depth of `replaceValue`. -/
def InstallRelease (w : World) (fuel : Nat) (request : InstallReleaseRequest) :
    Op (Option Release × Option String) := do
  let (releaseContentResp, err) ← Op.call (.ReleaseContent request.ReleaseName 0)
    (fun h => w.ReleaseContent h request.ReleaseName 0)
  if err.any (fun e => !strings.Contains e (ErrReleaseNotFound w request.ReleaseName)) then
    return (none, err)
  if releaseContentResp.isSome then
    return (none, some ("release " ++ request.ReleaseName ++ " already exist"))
  let loaded ← Op.call (.getChart request.RepoURL request.ChartName request.ChartVersion)
    (fun h => w.getChart h request.RepoURL request.ChartName request.ChartVersion)
  match loaded with
  | .error e => return (none, some ("load chart: " ++ e))
  | .ok chartLoaded =>
    let chartRequested := w.ProcessRequirementsEnabled chartLoaded { Raw := request.Values }
    let (cm, err) := cmForChart chartRequested
    if let some e := err then
      return (none, some ("install chart error: " ++ e))
    let valuesMap ← Op.lift (getValuesMap cm [])
    let oldValues := chartRequested.Values.Raw
    let (err, newChartValues) := removeStringValues w chartRequested.Values.Raw
    if err.isSome then
      return (none, err)
    let (err, newValues) := removeStringValues w request.Values
    if err.isSome then
      return (none, err)
    let chartRequested := setValuesRaw chartRequested newChartValues
    let (hooks, manifestDoc, err) ←
      renderManifests w request.Namespace chartRequested request.ReleaseName newValues 1
    if err.isSome then
      return (none, err)
    let manifestDocs := manifestDoc.toList ++ hooks.map (fun hook => hook.Manifest)
    let labeled ← InstallRelease.label w fuel request 0 manifestDocs valuesMap []
    match labeled with
    | .error e => return (none, some e)
    | .ok newTemplates =>
      let chartRequested : Chart := .mk chartRequested.Metadata newTemplates [] { Raw := oldValues }
      let (installReleaseResp, err) ← Op.call
        (.InstallReleaseFromChart chartRequested request.Namespace request.Values
          request.ReleaseName)
        (fun h => w.InstallReleaseFromChart h chartRequested request.Namespace request.Values
          request.ReleaseName)
      match err with
      | some e =>
        let newError := "install release " ++ request.ReleaseName ++ ": " ++ e
        if installReleaseResp.isSome then
          let (rls, err) ← getHelmRelease w installReleaseResp
          if err.isSome then
            let _ ← DeleteRelease w { ReleaseName := request.ReleaseName }
            return (none, err)
          return (rls, some newError)
        let _ ← DeleteRelease w { ReleaseName := request.ReleaseName }
        return (none, some newError)
      | none =>
        let (rls, err) ← getHelmRelease w installReleaseResp
        match rls with
        | none => Op.abort (.panic "nil pointer dereference")
        | some rls0 =>
          let rls : Release := { rls0 with Commit := request.Commit }
          if err.isSome then
            return (none, err)
          if rls.Name = "choerodon-cert-manager" then
            let kubectlPath ← Op.call (.LookPath "kubectl") (fun h => w.LookPath h "kubectl")
            match kubectlPath with
            | .error e => Op.abort (.fatal e)
            | .ok _ =>
              let data := getCertManagerIssuerData w
              let _ ← Op.call (.ApplySingleObj "kube-system" data)
                (fun h => w.ApplySingleObj h "kube-system" data)
              return (some rls, err)
          else
            return (some rls, err)

/-- The part of `InstallRelease` before the call of the store's install.  The result
is the pair with which `InstallRelease` returns early, or the chart that it hands to
the store. -/
def InstallRelease.prepare (w : World) (fuel : Nat) (request : InstallReleaseRequest) :
    Op (Except (Option Release × Option String) Chart) := do
  let (releaseContentResp, err) ← Op.call (.ReleaseContent request.ReleaseName 0)
    (fun h => w.ReleaseContent h request.ReleaseName 0)
  if err.any (fun e => !strings.Contains e (ErrReleaseNotFound w request.ReleaseName)) then
    return .error (none, err)
  if releaseContentResp.isSome then
    return .error (none, some ("release " ++ request.ReleaseName ++ " already exist"))
  let loaded ← Op.call (.getChart request.RepoURL request.ChartName request.ChartVersion)
    (fun h => w.getChart h request.RepoURL request.ChartName request.ChartVersion)
  match loaded with
  | .error e => return .error (none, some ("load chart: " ++ e))
  | .ok chartLoaded =>
    let chartRequested := w.ProcessRequirementsEnabled chartLoaded { Raw := request.Values }
    let (cm, err) := cmForChart chartRequested
    if let some e := err then
      return .error (none, some ("install chart error: " ++ e))
    let valuesMap ← Op.lift (getValuesMap cm [])
    let oldValues := chartRequested.Values.Raw
    let (err, newChartValues) := removeStringValues w chartRequested.Values.Raw
    if err.isSome then
      return .error (none, err)
    let (err, newValues) := removeStringValues w request.Values
    if err.isSome then
      return .error (none, err)
    let chartRequested := setValuesRaw chartRequested newChartValues
    let (hooks, manifestDoc, err) ←
      renderManifests w request.Namespace chartRequested request.ReleaseName newValues 1
    if err.isSome then
      return .error (none, err)
    let manifestDocs := manifestDoc.toList ++ hooks.map (fun hook => hook.Manifest)
    let labeled ← InstallRelease.label w fuel request 0 manifestDocs valuesMap []
    match labeled with
    | .error e => return .error (none, some e)
    | .ok newTemplates =>
      return .ok (.mk chartRequested.Metadata newTemplates [] { Raw := oldValues })

/-- The part of `InstallRelease` from the call of the store's install on. -/
def InstallRelease.store (w : World) (request : InstallReleaseRequest)
    (chartRequested : Chart) : Op (Option Release × Option String) := do
  let (installReleaseResp, err) ← Op.call
    (.InstallReleaseFromChart chartRequested request.Namespace request.Values
      request.ReleaseName)
    (fun h => w.InstallReleaseFromChart h chartRequested request.Namespace request.Values
      request.ReleaseName)
  match err with
  | some e =>
    let newError := "install release " ++ request.ReleaseName ++ ": " ++ e
    if installReleaseResp.isSome then
      let (rls, err) ← getHelmRelease w installReleaseResp
      if err.isSome then
        let _ ← DeleteRelease w { ReleaseName := request.ReleaseName }
        return (none, err)
      return (rls, some newError)
    let _ ← DeleteRelease w { ReleaseName := request.ReleaseName }
    return (none, some newError)
  | none =>
    let (rls, err) ← getHelmRelease w installReleaseResp
    match rls with
    | none => Op.abort (.panic "nil pointer dereference")
    | some rls0 =>
      let rls : Release := { rls0 with Commit := request.Commit }
      if err.isSome then
        return (none, err)
      if rls.Name = "choerodon-cert-manager" then
        let kubectlPath ← Op.call (.LookPath "kubectl") (fun h => w.LookPath h "kubectl")
        match kubectlPath with
        | .error e => Op.abort (.fatal e)
        | .ok _ =>
          let data := getCertManagerIssuerData w
          let _ ← Op.call (.ApplySingleObj "kube-system" data)
            (fun h => w.ApplySingleObj h "kube-system" data)
          return (some rls, err)
      else
        return (some rls, err)

/-- Go's conversion to `int32`: the value modulo `2 ^ 32`, in the signed range. -/
def int32 (n : Int) : Int :=
  (n + 2 ^ 31) % 2 ^ 32 - 2 ^ 31

/-- The loop of `PreInstallRelease` and `PreUpgradeRelease` over the rendered hooks. -/
def releaseHooksFor (releaseName : String) (rlsHooks : List release.Hook) :
    List ReleaseHook :=
  rlsHooks.map (fun hook =>
    { Name := hook.Name, Manifest := hook.Manifest, Weight := hook.Weight,
      Kind := hook.Kind, ReleaseName := releaseName })

/-- Method `ListRelease`; ranging over `hlr.Releases` dereferences the response. -/
def ListRelease (w : World) (namespace_ : String) : Op (List Release × Option String) := do
  let (hlr, _) ← Op.call (.ListReleases namespace_) (fun h => w.ListReleases h namespace_)
  match hlr with
  | none => Op.abort (.panic "nil pointer dereference")
  | some hlrReleases =>
    let releases : List Release := hlrReleases.map (fun hr =>
      { Namespace := namespace_, Name := hr.Name, Revision := hr.Version,
        Status := hr.Status, ChartName := hr.Chart.Metadata.Name,
        ChartVersion := hr.Chart.Metadata.Version, Config := hr.Config.Raw,
        Manifest := "", Hooks := [], Resources := [], Commit := "" })
    return (releases, none)

/-- Method `PreInstallRelease`. -/
def PreInstallRelease (w : World) (request : InstallReleaseRequest) :
    Op (List ReleaseHook × Option String) := do
  let (releaseContentResp, err) ← Op.call (.ReleaseContent request.ReleaseName 0)
    (fun h => w.ReleaseContent h request.ReleaseName 0)
  if err.any (fun e => !strings.Contains e (ErrReleaseNotFound w request.ReleaseName)) then
    return ([], err)
  if releaseContentResp.isSome then
    return ([], some ("release " ++ request.ReleaseName ++ " already exist"))
  let loaded ← Op.call (.getChart request.RepoURL request.ChartName request.ChartVersion)
    (fun h => w.getChart h request.RepoURL request.ChartName request.ChartVersion)
  match loaded with
  | .error e => return ([], some ("load chart: " ++ e))
  | .ok chartRequested =>
    let (rlsHooks, _, err) ←
      renderManifests w request.Namespace chartRequested request.ReleaseName request.Values 1
    if err.isSome then
      return ([], err)
    return (releaseHooksFor request.ReleaseName rlsHooks, none)

/-- Method `PreUpgradeRelease`. -/
def PreUpgradeRelease (w : World) (request : UpgradeReleaseRequest) :
    Op (List ReleaseHook × Option String) := do
  let (releaseContentResp, err) ← Op.call (.ReleaseContent request.ReleaseName 0)
    (fun h => w.ReleaseContent h request.ReleaseName 0)
  if err.any (fun e => !strings.Contains e (ErrReleaseNotFound w request.ReleaseName)) then
    return ([], err)
  match releaseContentResp with
  | none =>
    let installReq : InstallReleaseRequest :=
      { RepoURL := request.RepoURL
        ChartName := request.ChartName
        ChartVersion := request.ChartVersion
        Values := request.Values
        ReleaseName := request.ReleaseName
        Namespace := request.Namespace
        ImagePullSecrets := request.ImagePullSecrets
        Commit := "" }
    PreInstallRelease w installReq
  | some rel =>
    let loaded ← Op.call (.getChart request.RepoURL request.ChartName request.ChartVersion)
      (fun h => w.getChart h request.RepoURL request.ChartName request.ChartVersion)
    match loaded with
    | .error e => return ([], some ("load chart: " ++ e))
    | .ok chartRequested =>
      let revision := int32 (rel.Version + 1)
      let (rlsHooks, _, err) ←
        renderManifests w request.Namespace chartRequested request.ReleaseName request.Values
          revision
      if err.isSome then
        return ([], err)
      return (releaseHooksFor request.ReleaseName rlsHooks, none)

/-- The loop of `UpgradeRelease` over `manifestDocs`: label injection of every
document.  The result is the error that the loop returns with, or `newTemplates`. -/
def UpgradeRelease.label (w : World) (request : UpgradeReleaseRequest) :
    Nat → List String → List Template → Op (Except String (List Template))
  | _, [], newTemplates => pure (.ok newTemplates)
  | index, manifestToInsert :: rest, newTemplates => do
    let labeled ← Op.call
      (.LabelObjects request.Namespace request.ImagePullSecrets manifestToInsert
        request.ReleaseName request.ChartName request.ChartVersion)
      (fun h => w.LabelObjects h request.Namespace request.ImagePullSecrets manifestToInsert
        request.ReleaseName request.ChartName request.ChartVersion)
    match labeled with
    | .error e => return .error ("label objects: " ++ e)
    | .ok newManifestBuf =>
      let newTemplate : Template :=
        if index = 0 then { Name := request.ReleaseName, Data := newManifestBuf }
        else { Name := "hook" ++ strconv.Itoa index, Data := newManifestBuf }
      UpgradeRelease.label w request (index + 1) rest (newTemplates ++ [newTemplate])

/-- Method `UpgradeRelease`; `fuel` is passed on to `InstallRelease`. -/
def UpgradeRelease (w : World) (fuel : Nat) (request : UpgradeReleaseRequest) :
    Op (Option Release × Option String) := do
  let (releaseContentResp, err) ← Op.call (.ReleaseContent request.ReleaseName 0)
    (fun h => w.ReleaseContent h request.ReleaseName 0)
  if err.any (fun e => !strings.Contains e (ErrReleaseNotFound w request.ReleaseName)) then
    return (none, err)
  match releaseContentResp with
  | none =>
    let installReq : InstallReleaseRequest :=
      { RepoURL := request.RepoURL
        ChartName := request.ChartName
        ChartVersion := request.ChartVersion
        Values := request.Values
        ReleaseName := request.ReleaseName
        Namespace := request.Namespace
        ImagePullSecrets := request.ImagePullSecrets
        Commit := "" }
    let (installResp, err) ← InstallRelease w fuel installReq
    if err.isSome then
      return (none, err)
    return (installResp, none)
  | some _ =>
    let loaded ← Op.call (.getChart request.RepoURL request.ChartName request.ChartVersion)
      (fun h => w.getChart h request.RepoURL request.ChartName request.ChartVersion)
    match loaded with
    | .error e => return (none, some ("load chart: " ++ e))
    | .ok chartLoaded =>
      let chartRequested := w.ProcessRequirementsEnabled chartLoaded { Raw := request.Values }
      let (hooks, manifestDoc, err) ←
        renderManifests w request.Namespace chartRequested request.ReleaseName request.Values 1
      if err.isSome then
        return (none, err)
      let manifestDocs := manifestDoc.toList ++ hooks.map (fun hook => hook.Manifest)
      let labeled ←
        if request.ChartName ≠ "choerodon-cluster-agent" then do
          let newTemplates ← UpgradeRelease.label w request 0 manifestDocs []
          match newTemplates with
          | .error e => pure (Except.error e)
          | .ok newTemplates =>
            pure (Except.ok (Chart.mk chartRequested.Metadata newTemplates [] chartRequested.Values))
        else
          pure (Except.ok chartRequested)
      match labeled with
      | .error e => return (none, some e)
      | .ok chartRequested =>
        let (updateReleaseResp, err) ← Op.call
          (.UpdateReleaseFromChart request.ReleaseName chartRequested request.Values)
          (fun h => w.UpdateReleaseFromChart h request.ReleaseName chartRequested
            request.Values)
        match err with
        | some e =>
          let newErr := "update release " ++ request.ReleaseName ++ ": " ++ e
          if updateReleaseResp.isSome then
            let (rls, err) ← getHelmRelease w updateReleaseResp
            if err.isSome then
              return (none, err)
            return (rls, some newErr)
          return (none, some newErr)
        | none =>
          let (rls, err) ← getHelmRelease w updateReleaseResp
          if err.isSome then
            return (none, err)
          match rls with
          | none => Op.abort (.panic "nil pointer dereference")
          | some rls => return (some { rls with Commit := request.Commit }, none)

/-- The loop of `DeleteNamespaceReleases`: one delete with purge for every release,
whatever the deletions answer. -/
def DeleteNamespaceReleases.loop (w : World) : List release.Release → Op Unit
  | [] => pure ()
  | rls :: rest => do
    let _ ← Op.call (.DeleteRelease rls.Name true) (fun h => w.DeleteRelease h rls.Name true)
    DeleteNamespaceReleases.loop w rest

/-- Method `DeleteNamespaceReleases`; the result is the returned error. -/
def DeleteNamespaceReleases (w : World) (namespaces : String) : Op (Option String) := do
  let (rlss, err) ← Op.call (.ListReleases namespaces) (fun h => w.ListReleases h namespaces)
  if err.isSome then
    return err
  match rlss with
  | none => Op.abort (.panic "nil pointer dereference")
  | some releases =>
    DeleteNamespaceReleases.loop w releases
    return none

end helm

/-! ## `pkg/controller/c7nhelmrelease/c7nhelmrelease_controller.go`: the reconciler -/

namespace c7nhelmrelease

open choerodonv1alpha1 model

/-- The request `reconcile.Request`, a namespaced name. -/
structure Request where
  Namespace : String
  Name : String
  deriving DecidableEq, Repr

/-- The result `reconcile.Result`. -/
structure Result where
  Requeue : Bool := false
  RequeueAfter : Nat := 0
  deriving DecidableEq, Repr

/-- Function `installHelmReleaseCmd`; `none` is the nil packet of an encoding error. -/
def installHelmReleaseCmd (w : World) (instance_ : C7NHelmRelease) : Option Packet :=
  let req : helm.InstallReleaseRequest :=
    { RepoURL := instance_.Spec.RepoURL
      ChartName := instance_.Spec.ChartName
      ChartVersion := instance_.Spec.ChartVersion
      Values := instance_.Spec.Values
      ReleaseName := instance_.Name
      Commit := instance_.annotation w.CommitLabel
      Namespace := instance_.Namespace
      ImagePullSecrets := instance_.Spec.ImagePullSecrets }
  match w.jsonInstallRequest req with
  | .error _ => none
  | .ok reqBytes =>
    some { Key := "env:" ++ instance_.Namespace ++ ".release:" ++ instance_.Name
           Type_ := .HelmReleasePreInstall
           Payload := reqBytes }

/-- Function `updateHelmReleaseCmd`. -/
def updateHelmReleaseCmd (w : World) (instance_ : C7NHelmRelease) : Option Packet :=
  let req : helm.UpgradeReleaseRequest :=
    { RepoURL := instance_.Spec.RepoURL
      ChartName := instance_.Spec.ChartName
      ChartVersion := instance_.Spec.ChartVersion
      Values := instance_.Spec.Values
      ReleaseName := instance_.Name
      Commit := instance_.annotation w.CommitLabel
      Namespace := instance_.Namespace
      ImagePullSecrets := instance_.Spec.ImagePullSecrets }
  match w.jsonUpgradeRequest req with
  | .error _ => none
  | .ok reqBytes =>
    some { Key := "env:" ++ instance_.Namespace ++ ".release:" ++ instance_.Name
           Type_ := .HelmReleasePreUpgrade
           Payload := reqBytes }

/-- Function `newReleaseSyncFailRep`. -/
def newReleaseSyncFailRep (w : World) (instance_ : C7NHelmRelease) (msg : String) : Packet :=
  { Key := "env:" ++ instance_.Namespace ++ ".release:" ++ instance_.Name ++ ".commit:" ++
      instance_.annotation w.CommitLabel
    Type_ := .HelmReleaseSyncedFailed
    Payload := msg }

/-- Function `newReleaseSyncRep`. -/
def newReleaseSyncRep (w : World) (instance_ : C7NHelmRelease) : Packet :=
  { Key := "env:" ++ instance_.Namespace ++ ".release:" ++ instance_.Name ++ ".commit:" ++
      instance_.annotation w.CommitLabel
    Type_ := .HelmReleaseSynced
    Payload := "" }

/-- Function `deleteHelmReleaseCmd`. -/
def deleteHelmReleaseCmd (w : World) (namespace_ name : String) : Option Packet :=
  let req : helm.DeleteReleaseRequest := { ReleaseName := name }
  match w.jsonDeleteRequest req with
  | .error _ => none
  | .ok reqBytes =>
    some { Key := "env:" ++ namespace_ ++ ".release:" ++ name
           Type_ := .HelmReleaseDelete
           Payload := reqBytes }

/-- Function `newC7NHelmCRDForCr`: the namespace and the name of the definition. -/
def newC7NHelmCRDForCr (cr : C7NHelmRelease) : String × String :=
  (cr.Namespace, "c7nhelmreleases")

/-- Method `checkCrdDeleted`. -/
def checkCrdDeleted (w : World) (instance_ : C7NHelmRelease) : Op Bool := do
  let c7nHelmCrd := newC7NHelmCRDForCr instance_
  let err ← Op.call (.GetCustomResourceDefinition c7nHelmCrd.1 c7nHelmCrd.2)
    (fun h => w.GetCustomResourceDefinition h c7nHelmCrd.1 c7nHelmCrd.2)
  match err with
  | some e => if e.notFound then return true else return false
  | none => return false

/-- Method `Reconcile`; the result is Go's pair `(reconcile.Result, error)`. -/
def Reconcile (w : World) (request : Request) : Op (Result × Option String) := do
  let namespace_ := request.Namespace
  let name := request.Name
  let result : Result := {}
  let fetched ← Op.call (.GetC7NHelmRelease request.Namespace request.Name)
    (fun h => w.GetC7NHelmRelease h request.Namespace request.Name)
  match fetched with
  | .error err =>
    if err.notFound then
      if !(← checkCrdDeleted w C7NHelmRelease.zero) then
        match deleteHelmReleaseCmd w namespace_ name with
        | some cmd => Op.sendCommand cmd
        | none => pure ()
      return (result, none)
    return (result, some err.msg)
  | .ok instance_ =>
    if instance_.Annotations.isNone || instance_.annotation w.CommitLabel = "" then
      return (result, some "c7nhelmrelease has no commit annotations")
    let (rls, err) ← helm.GetRelease w { ReleaseName := name, Version := 0 }
    match err with
    | some e =>
      if !strings.Contains e (helm.ErrReleaseNotFound w name) then
        match installHelmReleaseCmd w instance_ with
        | some cmd => Op.sendCommand cmd
        | none => pure ()
        return ({}, none)
      else
        Op.sendResponse (newReleaseSyncFailRep w instance_
          "helm release query failed ,please check tiller server.")
        return (result, some ("get release content: " ++ e))
    | none =>
      match rls with
      | none => Op.abort (.panic "nil pointer dereference")
      | some rls =>
        if instance_.Namespace ≠ rls.Namespace then
          Op.sendResponse (newReleaseSyncFailRep w instance_ "release already in other namespace!")
        if instance_.Spec.ChartName = rls.ChartName ∧
            instance_.Spec.ChartVersion = rls.ChartVersion ∧
            instance_.Spec.Values = rls.Config then
          Op.sendResponse (newReleaseSyncRep w instance_)
          return (result, none)
        match updateHelmReleaseCmd w instance_ with
        | some cmd => Op.sendCommand cmd
        | none => pure ()
        return ({}, none)

end c7nhelmrelease


/-! ## Example worlds

The desired state of the scenarios: release `app` in namespace `proj`, chart
`web@1.0.0`, values `replicas: 1`. -/

namespace scenario

open choerodonv1alpha1

/-- The printable characters of ASCII. -/
def printable (c : Char) : Bool :=
  decide (32 ≤ c.toNat) && decide (c.toNat < 127)

/-- The custom resource of the scenarios, at commit `c1`. -/
def cr : C7NHelmRelease :=
  { Name := "app", Namespace := "proj", Annotations := some [("commit", "c1")],
    Spec := { RepoURL := "http://charts.example", ChartName := "web", ChartVersion := "1.0.0",
              Values := "replicas: 1", ImagePullSecrets := [] } }

/-- The same custom resource without annotations. -/
def crNoAnnotations : C7NHelmRelease :=
  { cr with Annotations := none }

/-- The reconcile request for it. -/
def request : c7nhelmrelease.Request :=
  { Namespace := "proj", Name := "app" }

/-- The install request for the desired state. -/
def installRequest : helm.InstallReleaseRequest :=
  { RepoURL := "http://charts.example", ChartName := "web", ChartVersion := "1.0.0",
    Values := "replicas: 1", ReleaseName := "app", Commit := "c1", Namespace := "proj",
    ImagePullSecrets := [] }

/-- A stored release `app` of chart `web@1.0.0`, in the given namespace and with the
given values. -/
def stored (namespace_ values : String) : release.Release :=
  { Name := "app", Version := 1, Namespace := namespace_, Status := "DEPLOYED",
    Chart := .mk { Name := "web", Version := "1.0.0", Engine := "" } [] [] { Raw := "" },
    Config := { Raw := values }, Manifest := "", Hooks := [] }

/-- The stored release as `GetRelease` returns it. -/
def found (namespace_ values : String) : helm.Release :=
  { Name := "app", Revision := 1, Namespace := namespace_, Status := "DEPLOYED",
    ChartName := "web", ChartVersion := "1.0.0", Manifest := "", Hooks := [],
    Resources := [], Config := values, Commit := "" }

/-- A world in which the custom resource exists and the release store is empty:
Tiller answers every query with its not-found error. -/
def absent : World :=
  { CommitLabel := "commit"
    IsPrint := printable
    jsonInstallRequest := fun r =>
      .ok ("install " ++ r.ReleaseName ++ " " ++ r.ChartName ++ "@" ++ r.ChartVersion)
    jsonUpgradeRequest := fun r =>
      .ok ("upgrade " ++ r.ReleaseName ++ " " ++ r.ChartName ++ "@" ++ r.ChartVersion)
    jsonDeleteRequest := fun r => .ok ("delete " ++ r.ReleaseName)
    yamlUnmarshal := fun _ => .ok []
    yamlMarshal := fun _ => .ok ""
    Getenv := fun _ => ""
    executeIssuerTemplate := fun email => email
    ProcessRequirementsEnabled := fun c _ => c
    GetC7NHelmRelease := fun _ _ _ => .ok cr
    GetCustomResourceDefinition := fun _ _ _ => none
    ReleaseContent := fun _ name _ =>
      (none, some ("release: " ++ strconv.Quote printable name ++ " not found"))
    getChart := fun _ _ _ _ => .error "no such chart"
    GetDiscoveryClient := fun _ => none
    Render := fun _ _ _ _ _ _ => .ok []
    sortManifests := fun _ _ => .ok ([], [])
    LabelObjects := fun _ _ _ manifest _ _ _ => .ok manifest
    InstallReleaseFromChart := fun _ _ _ _ _ => (none, some "unavailable")
    DeleteRelease := fun _ _ _ => (none, some "unavailable")
    BuildUnstructured := fun _ _ _ => .ok []
    LookPath := fun _ _ => .error "not found"
    ApplySingleObj := fun _ _ _ => none
    ListReleases := fun _ _ => (none, none)
    UpdateReleaseFromChart := fun _ _ _ _ => (none, some "unavailable") }

/-- A world whose store holds the release in the given namespace with the given
values. -/
def holding (namespace_ values : String) : World :=
  { absent with ReleaseContent := fun _ _ _ => (some (stored namespace_ values), none) }

/-- A world in which Tiller cannot be reached. -/
def unreachable : World :=
  { absent with ReleaseContent := fun _ _ _ => (none, some "context deadline exceeded") }

/-- A world in which the custom resource has no annotations. -/
def unannotated : World :=
  { absent with GetC7NHelmRelease := fun _ _ _ => .ok crNoAnnotations }

/-- A world in which the custom resource is gone and its definition still exists. -/
def deleted : World :=
  { absent with GetC7NHelmRelease := fun _ _ _ => .error { notFound := true, msg := "not found" } }

/-- A world in which the custom resource and its definition are both gone. -/
def undefined : World :=
  { deleted with
    GetCustomResourceDefinition := fun _ _ _ => some { notFound := true, msg := "not found" } }

/-- The upgrade request for the desired state. -/
def upgradeRequest : helm.UpgradeReleaseRequest :=
  { RepoURL := "http://charts.example", ChartName := "web", ChartVersion := "1.0.0",
    Values := "replicas: 1", ReleaseName := "app", Commit := "c1", Namespace := "proj",
    ImagePullSecrets := [] }

/-- The chart `web@1.0.0`. -/
def webChart : chart.Chart :=
  .mk { Name := "web", Version := "1.0.0", Engine := "" }
    [{ Name := "templates/deployment.yaml", Data := "kind: Deployment" }] []
    { Raw := "replicas: 1" }

/-- The hook that the chart renders. -/
def migrate : release.Hook :=
  { Name := "migrate", Kind := "Job", Manifest := "kind: Job", Weight := 5 }

/-- The release that the store makes of a chart. -/
def installed (c : chart.Chart) (namespace_ values name : String) : release.Release :=
  { Name := name, Version := 1, Namespace := namespace_, Status := "DEPLOYED", Chart := c,
    Config := { Raw := values }, Manifest := "kind: Deployment", Hooks := [migrate] }

/-- A world with an empty release store in which an install goes through: the
repository has the chart, rendering gives one manifest and one hook, the label
injector appends a comment, and the store installs what it is given. -/
def ready : World :=
  { absent with
    getChart := fun _ _ _ _ => .ok webChart
    Render := fun _ _ _ _ _ _ => .ok [("web/templates/deployment.yaml", "kind: Deployment")]
    sortManifests := fun _ files =>
      .ok ([migrate], files.map (fun f => { Name := f.1, Content := f.2 }))
    LabelObjects := fun _ _ _ manifest releaseName _ _ =>
      .ok (manifest ++ "\n# release: " ++ releaseName)
    InstallReleaseFromChart := fun _ c namespace_ values name =>
      (some (installed c namespace_ values name), none) }

/-- The world `ready` with a store that fails the install and answers nothing. -/
def refusing : World :=
  { ready with InstallReleaseFromChart := fun _ _ _ _ _ => (none, some "timeout") }

/-- The world `ready` with a store that fails the install and answers with the
release it has made so far. -/
def halfway : World :=
  { ready with
    InstallReleaseFromChart := fun _ c namespace_ values name =>
      (some (installed c namespace_ values name), some "timeout") }

/-- The world `halfway` in which the resources of a release cannot be looked up. -/
def halfwayBlind : World :=
  { halfway with BuildUnstructured := fun _ _ _ => .error "no cluster" }

/-- The world `ready` whose store holds the release already and updates it with what
it is given. -/
def upgradable : World :=
  { ready with
    ReleaseContent := fun _ _ _ => (some (stored "proj" "replicas: 1"), none)
    UpdateReleaseFromChart := fun _ name c values =>
      (some { installed c "proj" values name with Version := 2 }, none) }

/-- A world in which the store lists two releases and refuses every deletion. -/
def listing : World :=
  { absent with
    ListReleases := fun _ namespace_ =>
      (some [stored namespace_ "replicas: 1",
             { stored namespace_ "replicas: 3" with Name := "db" }], none) }

/-- A world in which the store cannot list. -/
def unlistable : World :=
  { absent with ListReleases := fun _ _ => (none, some "connection refused") }

/-- The chart that `InstallRelease` hands to the store in the world `ready`. -/
def labeledChart : chart.Chart :=
  .mk { Name := "web", Version := "1.0.0", Engine := "" }
    [{ Name := "app",
       Data := "\n---\n# Source: web/templates/deployment.yaml\nkind: Deployment\n# release: app" },
     { Name := "hook1", Data := "kind: Job\n# release: app" }]
    [] { Raw := "replicas: 1" }

/-- The calls that `InstallRelease` makes in the world `ready` before it calls the
store's install. -/
def preparedCalls : List Call :=
  [Call.ReleaseContent "app" 0,
   Call.getChart "http://charts.example" "web" "1.0.0",
   Call.GetDiscoveryClient,
   Call.Render (helm.setValuesRaw webChart "") "proj" "app" "" 1,
   Call.sortManifests [("web/templates/deployment.yaml", "kind: Deployment")],
   Call.LabelObjects "proj" []
     "\n---\n# Source: web/templates/deployment.yaml\nkind: Deployment" "app" "web" "1.0.0",
   Call.LabelObjects "proj" [] "kind: Job" "app" "web" "1.0.0"]

/-- The chart of the agent itself, with one dependency. -/
def agentChart : chart.Chart :=
  .mk { Name := "choerodon-cluster-agent", Version := "1.0.0", Engine := "" }
    [{ Name := "templates/deployment.yaml", Data := "kind: Deployment" }]
    [.mk { Name := "common", Version := "0.1.0", Engine := "" } [] [] { Raw := "" }]
    { Raw := "replicas: 1" }

/-- The upgrade request for the agent's own chart. -/
def agentRequest : helm.UpgradeReleaseRequest :=
  { upgradeRequest with ChartName := "choerodon-cluster-agent" }

/-- The world `upgradable` whose repository has the agent's chart. -/
def selfUpgrade : World :=
  { upgradable with getChart := fun _ _ _ _ => .ok agentChart }

/-- The calls that `UpgradeRelease` makes in the world `upgradable` up to the end of
rendering, for a chart of the given name. -/
def renderedCalls (chartName : String) (c : chart.Chart) : List Call :=
  [Call.ReleaseContent "app" 0,
   Call.getChart "http://charts.example" chartName "1.0.0",
   Call.GetDiscoveryClient,
   Call.Render c "proj" "app" "replicas: 1" 1,
   Call.sortManifests [("web/templates/deployment.yaml", "kind: Deployment")]]

/-- A chart `web@1.0.0` whose only template is a ConfigMap with a templated entry. -/
def configChart : chart.Chart :=
  .mk { Name := "web", Version := "1.0.0", Engine := "" }
    [{ Name := "templates/configmap.yaml",
       Data := "kind: ConfigMap\ndata:\n  name: \x7b\x7b .Values.name \x7d\x7d" }]
    [] { Raw := "name: web" }

/-- Values whose entry `name` is a templating expression. -/
def templatedValues : String :=
  "name: \x7b\x7b .Release.Name \x7d\x7d"

/-- The install request of the release `app` with the templated values. -/
def templatedInstall : helm.InstallReleaseRequest :=
  { installRequest with Values := templatedValues }

/-- The upgrade request of the release `app` with the templated values. -/
def templatedUpgrade : helm.UpgradeReleaseRequest :=
  { upgradeRequest with Values := templatedValues }

/-- The world `ready` with the chart `configChart`, a YAML library for documents of
one line `key: text`, and an engine that renders the ConfigMap with the entry of the
values it is given; the label injector changes nothing. -/
def templated : World :=
  { ready with
    yamlUnmarshal := fun text =>
      match strings.Split text ": " with
      | [key, value] => .ok [(key, .str value)]
      | _ => .error "not a line"
    yamlMarshal := fun m =>
      .ok (String.intercalate "\n" (m.map (fun kv =>
        match kv.2 with
        | .str value => kv.1 ++ ": " ++ value
        | _ => kv.1 ++ ":")))
    getChart := fun _ _ _ _ => .ok configChart
    Render := fun _ _ _ _ values _ =>
      .ok [("web/templates/configmap.yaml", "kind: ConfigMap\ndata:\n  " ++ values)]
    sortManifests := fun _ files =>
      .ok ([], files.map (fun f => { Name := f.1, Content := f.2 }))
    LabelObjects := fun _ _ _ manifest _ _ _ => .ok manifest }

/-- A values document with a templated entry, a number, a list that holds a templated
text, and a string-keyed map with a templated and a plain entry. -/
def nestedValues : List (String × yaml.Value) :=
  [("name", .str "\x7b\x7b .Release.Name \x7d\x7d"),
   ("replicas", .int 1),
   ("hosts", .seq [.str "\x7b\x7b .Values.host \x7d\x7d"]),
   ("image", .strMap [("tag", .str "\x7b\x7b .Values.tag \x7d\x7d"), ("repo", .str "nginx")])]

/-- A scalar as text. -/
def showScalar : yaml.Value → String
  | .str s => s
  | .int n => strconv.Itoa n
  | _ => "?"

/-- A value of at most one level as text, in flow style. -/
def showValue : yaml.Value → String
  | .seq xs => "[" ++ ", ".intercalate (xs.map showScalar) ++ "]"
  | .strMap m =>
    "(" ++ ", ".intercalate (m.map (fun kv => kv.1 ++ ": " ++ showScalar kv.2)) ++ ")"
  | v => showScalar v

/-- The world `absent` with a YAML library that reads the text `nested` as the document
`nestedValues`, reads no other text, and writes a document in flow style. -/
def nested : World :=
  { absent with
    yamlUnmarshal := fun text =>
      if text = "nested" then .ok nestedValues else .error "cannot parse"
    yamlMarshal := fun m =>
      .ok ("; ".intercalate (m.map (fun kv => kv.1 ++ ": " ++ showValue kv.2))) }

/-- The world `templated` whose store holds the release already and updates it with
what it is given. -/
def templatedHolding : World :=
  { templated with
    ReleaseContent := fun _ _ _ => (some (stored "proj" "name: web"), none)
    UpdateReleaseFromChart := fun _ name c values =>
      (some { installed c "proj" values name with Version := 2 }, none) }

/-- The world `ready` in which the resources of a release cannot be looked up. -/
def blind : World :=
  { ready with BuildUnstructured := fun _ _ _ => .error "no cluster" }

/-- A chart with two ConfigMap templates, each with one templated entry. -/
def twoConfigChart : chart.Chart :=
  .mk { Name := "web", Version := "1.0.0", Engine := "" }
    [{ Name := "templates/names.yaml",
       Data := "kind: ConfigMap\ndata:\n  name: \x7b\x7b .Values.name \x7d\x7d" },
     { Name := "templates/hosts.yaml",
       Data := "kind: ConfigMap\ndata:\n  host: \x7b\x7b .Values.host \x7d\x7d" }]
    [] { Raw := "" }

end scenario

/-! ## Lemmas on the string functions -/

theorem strings.indexFrom_length_le (sub : List Char) :
    ∀ (l : List Char) (i j : Nat), strings.indexFrom sub l i = some j → sub.length ≤ l.length
  | [], i, j, h => by
    unfold strings.indexFrom at h
    split_ifs at h with he
    simp [List.isEmpty_iff] at he
    simp [he]
  | c :: cs, i, j, h => by
    unfold strings.indexFrom at h
    split_ifs at h with hp
    · exact (List.isPrefixOf_iff_prefix.mp hp).length_le
    · have := strings.indexFrom_length_le sub cs (i + 1) j h
      simp only [List.length_cons]
      omega

theorem strings.Contains_length_le (s sub : String)
    (h : strings.Contains s sub = true) : sub.length ≤ s.length := by
  unfold strings.Contains strings.Index at h
  cases hi : strings.indexFrom sub.data s.data 0 with
  | none => simp [hi] at h
  | some j => exact strings.indexFrom_length_le _ _ _ _ hi

theorem List.one_le_length_ite {α : Type} (c : Prop) [Decidable c] (a b : List α)
    (ha : 1 ≤ a.length) (hb : 1 ≤ b.length) : 1 ≤ (if c then a else b).length := by
  split <;> assumption

theorem strconv.escapeRune_length_pos (p : Char → Bool) (r : Char) :
    1 ≤ (strconv.escapeRune p r).length := by
  unfold strconv.escapeRune
  repeat (first
    | exact Nat.succ_le_succ (Nat.zero_le _)
    | apply List.one_le_length_ite)

theorem strconv.flatMap_escapeRune_length (p : Char → Bool) :
    ∀ l : List Char, l.length ≤ (l.flatMap (strconv.escapeRune p)).length
  | [] => by simp
  | c :: cs => by
    have h1 := strconv.escapeRune_length_pos p c
    have h2 := strconv.flatMap_escapeRune_length p cs
    simp only [List.flatMap_cons, List.length_append, List.length_cons]
    omega

theorem strconv.Quote_length (p : Char → Bool) (s : String) :
    s.length + 2 ≤ (strconv.Quote p s).length := by
  have h := strconv.flatMap_escapeRune_length p s.data
  unfold strconv.Quote
  simp only [String.length, List.length_cons, List.length_append, List.length_nil] at *
  omega

theorem helm.notExist_not_notFound (w : World) (name : String) :
    strings.Contains ("release " ++ name ++ " not exist") (helm.ErrReleaseNotFound w name)
      = false := by
  by_contra hc
  have hc1 : strings.Contains ("release " ++ name ++ " not exist")
      (helm.ErrReleaseNotFound w name) = true := by simpa using hc
  have hlen := strings.Contains_length_le _ _ hc1
  have hq := strconv.Quote_length w.IsPrint name
  unfold helm.ErrReleaseNotFound at hlen
  simp only [String.length_append] at hlen
  have e1 : "release ".length = 8 := by decide
  have e2 : " not exist".length = 10 := by decide
  have e3 : "release: ".length = 9 := by decide
  have e4 : " not found".length = 10 := by decide
  omega

/-! ## Lemmas on runs -/

theorem Op.bind_eq {α β : Type} (m : Op α) (f : α → Op β) : (m >>= f) = Op.andThen m f := rfl

theorem Op.pure_eq {α : Type} (a : α) : (pure a : Op α) = Op.ret a := rfl

theorem Op.call_andThen {α β : Type} (c : Call) (ans : List Call → α) (f : α → Op β)
    (s : Sys) :
    Op.andThen (Op.call c ans) f s = f (ans s.calls) { s with calls := s.calls ++ [c] } := rfl

theorem Op.ret_andThen {α β : Type} (a : α) (f : α → Op β) :
    Op.andThen (Op.ret a) f = f a := rfl

theorem Op.andThen_assoc {α β γ : Type} (m : Op α) (f : α → Op β) (g : β → Op γ) :
    Op.andThen (Op.andThen m f) g = Op.andThen m (fun a => Op.andThen (f a) g) := by
  funext s
  unfold Op.andThen
  rcases m s with ⟨r, s1⟩
  cases r <;> rfl

theorem Op.andThen_of_eq {α β : Type} (m : Op α) (f : α → Op β) (s s1 : Sys) (a : α)
    (h : m s = (.ok a, s1)) : Op.andThen m f s = f a s1 := by
  simp [Op.andThen, h]

theorem Op.sendCommand_andThen {β : Type} (p : model.Packet) (f : Unit → Op β) (s : Sys) :
    Op.andThen (Op.sendCommand p) f s =
      f () { s with commandChan := s.commandChan ++ [p] } := rfl

theorem Op.sendResponse_andThen {β : Type} (p : model.Packet) (f : Unit → Op β) (s : Sys) :
    Op.andThen (Op.sendResponse p) f s =
      f () { s with responseChan := s.responseChan ++ [p] } := rfl

/-- The state after `GetRelease`: one query of the release store was added. -/
theorem helm.GetRelease_state (w : World) (req : helm.GetReleaseContentRequest) (s : Sys) :
    (helm.GetRelease w req s).2 =
      { s with calls := s.calls ++ [Call.ReleaseContent req.ReleaseName req.Version] } := by
  unfold helm.GetRelease
  simp only [Op.bind_eq, Op.call_andThen]
  rcases h : w.ReleaseContent s.calls req.ReleaseName req.Version with ⟨resp, err⟩
  simp only [Op.pure_eq]
  split
  · rfl
  · cases resp <;> rfl

/-- The result of `GetRelease`: never an abort; an error never carries the text of
`ErrReleaseNotFound`; without an error there is a release. -/
theorem helm.GetRelease_result (w : World) (req : helm.GetReleaseContentRequest) (s : Sys) :
    (∃ e, (helm.GetRelease w req s).1 = .ok (none, some e) ∧
        strings.Contains e (helm.ErrReleaseNotFound w req.ReleaseName) = false) ∨
    (∃ rls, (helm.GetRelease w req s).1 = .ok (some rls, none)) := by
  unfold helm.GetRelease
  simp only [Op.bind_eq, Op.call_andThen]
  rcases h : w.ReleaseContent s.calls req.ReleaseName req.Version with ⟨resp, err⟩
  simp only [Op.pure_eq]
  split
  · rename_i hany
    cases err with
    | none => simp at hany
    | some e =>
      left
      refine ⟨e, rfl, ?_⟩
      simpa using hany
  · cases resp with
    | none =>
      left
      exact ⟨_, rfl, helm.notExist_not_notFound w req.ReleaseName⟩
    | some rel =>
      right
      exact ⟨_, rfl⟩

theorem helm.GetRelease_eq (w : World) (req : helm.GetReleaseContentRequest) (s : Sys)
    (r : Except Abort (Option helm.Release × Option String))
    (h : (helm.GetRelease w req s).1 = r) :
    helm.GetRelease w req s =
      (r, { s with calls := s.calls ++ [Call.ReleaseContent req.ReleaseName req.Version] }) :=
  Prod.ext h (helm.GetRelease_state w req s)

namespace c7nhelmrelease
open choerodonv1alpha1 model

/-- A resource with a non-empty annotation value has annotations. -/
theorem annotation_ne_empty_isSome (cr : C7NHelmRelease) (key : String)
    (h : cr.annotation key ≠ "") : cr.Annotations.isNone = false := by
  cases ha : cr.Annotations with
  | none => simp [C7NHelmRelease.annotation, ha] at h
  | some m => rfl

/-- The pass for a resource with a commit annotation when the query of the release
engine fails: an install command, whatever the error is. -/
theorem Reconcile_of_query_error (w : World) (request : Request) (s : Sys)
    (cr : C7NHelmRelease) (rls : Option helm.Release) (e : String)
    (hfetch : w.GetC7NHelmRelease s.calls request.Namespace request.Name = .ok cr)
    (hcommit : cr.annotation w.CommitLabel ≠ "")
    (hrel : (helm.GetRelease w { ReleaseName := request.Name, Version := 0 }
        { s with calls := s.calls ++ [Call.GetC7NHelmRelease request.Namespace request.Name] }).1
        = .ok (rls, some e)) :
    Reconcile w request s =
      (.ok ({}, none),
       { calls := s.calls ++ [Call.GetC7NHelmRelease request.Namespace request.Name,
           Call.ReleaseContent request.Name 0],
         commandChan := s.commandChan ++ (installHelmReleaseCmd w cr).toList,
         responseChan := s.responseChan }) := by
  have hG := helm.GetRelease_eq _ _ _ _ hrel
  have hnf : strings.Contains e (helm.ErrReleaseNotFound w request.Name) = false := by
    rcases helm.GetRelease_result w { ReleaseName := request.Name, Version := 0 }
      { s with calls := s.calls ++ [Call.GetC7NHelmRelease request.Namespace request.Name] }
      with ⟨e1, h1, h2⟩ | ⟨r1, h1⟩
    · rw [hrel] at h1
      injection h1 with h1
      injection h1 with _ h1
      injection h1 with h1
      rw [h1]
      exact h2
    · rw [hrel] at h1
      injection h1 with h1
      injection h1 with _ h1
      cases h1
  have hsome := annotation_ne_empty_isSome cr _ hcommit
  unfold Reconcile
  simp only [Op.bind_eq, Op.call_andThen, hfetch, hsome, hcommit, Op.pure_eq, Op.ret_andThen]
  simp only [Bool.false_or, decide_False, Bool.false_eq_true, if_false, Op.ret_andThen]
  rw [Op.andThen_of_eq _ _ _ _ _ hG]
  simp only [hnf]
  cases installHelmReleaseCmd w cr with
  | none => simp [Op.ret_andThen, Op.ret]
  | some cmd => simp [Op.sendCommand_andThen, Op.ret]

/-- The pass for a resource with a commit annotation whose release exists. -/
theorem Reconcile_of_release (w : World) (request : Request) (s : Sys)
    (cr : C7NHelmRelease) (rls : helm.Release)
    (hfetch : w.GetC7NHelmRelease s.calls request.Namespace request.Name = .ok cr)
    (hcommit : cr.annotation w.CommitLabel ≠ "")
    (hrel : (helm.GetRelease w { ReleaseName := request.Name, Version := 0 }
        { s with calls := s.calls ++ [Call.GetC7NHelmRelease request.Namespace request.Name] }).1
        = .ok (some rls, none)) :
    Reconcile w request s =
      (.ok ({}, none),
       { calls := s.calls ++ [Call.GetC7NHelmRelease request.Namespace request.Name,
           Call.ReleaseContent request.Name 0],
         commandChan := s.commandChan ++
           (if cr.Spec.ChartName = rls.ChartName ∧ cr.Spec.ChartVersion = rls.ChartVersion ∧
               cr.Spec.Values = rls.Config then []
            else (updateHelmReleaseCmd w cr).toList),
         responseChan := s.responseChan ++
           (if cr.Namespace ≠ rls.Namespace then
              [newReleaseSyncFailRep w cr "release already in other namespace!"] else []) ++
           (if cr.Spec.ChartName = rls.ChartName ∧ cr.Spec.ChartVersion = rls.ChartVersion ∧
               cr.Spec.Values = rls.Config then [newReleaseSyncRep w cr]
            else []) }) := by
  have hG := helm.GetRelease_eq _ _ _ _ hrel
  have hsome := annotation_ne_empty_isSome cr _ hcommit
  unfold Reconcile
  simp only [Op.bind_eq, Op.call_andThen, hfetch, hsome, hcommit, Op.pure_eq, Op.ret_andThen]
  simp only [Bool.false_or, decide_False, Bool.false_eq_true, if_false, Op.ret_andThen]
  rw [Op.andThen_of_eq _ _ _ _ _ hG]
  by_cases hns : cr.Namespace = rls.Namespace <;>
  by_cases hsame : cr.Spec.ChartName = rls.ChartName ∧ cr.Spec.ChartVersion = rls.ChartVersion ∧
      cr.Spec.Values = rls.Config
  all_goals simp only [hns, hsame, ne_eq, not_true_eq_false, not_false_eq_true, if_true, if_false,
    Op.ret_andThen, Op.sendResponse_andThen, List.append_nil]
  all_goals cases updateHelmReleaseCmd w cr <;>
    simp [Op.ret_andThen, Op.sendCommand_andThen, Op.sendResponse_andThen, Op.ret]

/-- A packet of `updateHelmReleaseCmd` is an upgrade command. -/
theorem updateHelmReleaseCmd_type (w : World) (cr : C7NHelmRelease) (p : Packet)
    (h : p ∈ (updateHelmReleaseCmd w cr).toList) : p.Type_ = .HelmReleasePreUpgrade := by
  unfold updateHelmReleaseCmd at h
  dsimp only at h
  split at h
  · simp at h
  · simp only [Option.toList, List.mem_singleton] at h
    rw [h]

/-- The pass for a resource that is found without a commit annotation. -/
theorem Reconcile_of_missing_commit (w : World) (request : Request) (s : Sys)
    (cr : C7NHelmRelease)
    (hfetch : w.GetC7NHelmRelease s.calls request.Namespace request.Name = .ok cr)
    (hmissing : (cr.Annotations.isNone || decide (cr.annotation w.CommitLabel = "")) = true) :
    Reconcile w request s =
      (.ok ({}, some "c7nhelmrelease has no commit annotations"),
       { s with calls := s.calls ++ [Call.GetC7NHelmRelease request.Namespace request.Name] }) := by
  unfold Reconcile
  simp only [Op.bind_eq, Op.call_andThen, hfetch, hmissing, if_true, Op.pure_eq]
  rfl

/-- The pass whose fetch fails with an error other than not-found. -/
theorem Reconcile_of_fetch_failure (w : World) (request : Request) (s : Sys) (err : ApiError)
    (hfetch : w.GetC7NHelmRelease s.calls request.Namespace request.Name = .error err)
    (hother : err.notFound = false) :
    Reconcile w request s =
      (.ok ({}, some err.msg),
       { s with calls := s.calls ++ [Call.GetC7NHelmRelease request.Namespace request.Name] }) := by
  unfold Reconcile
  simp only [Op.bind_eq, Op.call_andThen, hfetch, hother, Bool.false_eq_true, if_false,
    Op.pure_eq]
  rfl

/-- The pass whose fetch reports not-found: a delete command, unless the lookup of the
definition reports not-found too. -/
theorem Reconcile_of_not_found (w : World) (request : Request) (s : Sys) (err : ApiError)
    (hfetch : w.GetC7NHelmRelease s.calls request.Namespace request.Name = .error err)
    (hnotFound : err.notFound = true) :
    Reconcile w request s =
      (.ok ({}, none),
       { calls := s.calls ++ [Call.GetC7NHelmRelease request.Namespace request.Name,
           Call.GetCustomResourceDefinition "" "c7nhelmreleases"],
         commandChan := s.commandChan ++
           (match w.GetCustomResourceDefinition
               (s.calls ++ [Call.GetC7NHelmRelease request.Namespace request.Name])
               "" "c7nhelmreleases" with
            | some crdErr =>
              if crdErr.notFound then []
              else (deleteHelmReleaseCmd w request.Namespace request.Name).toList
            | none => (deleteHelmReleaseCmd w request.Namespace request.Name).toList),
         responseChan := s.responseChan }) := by
  unfold Reconcile
  simp only [Op.bind_eq, Op.call_andThen, hfetch, hnotFound, checkCrdDeleted,
    newC7NHelmCRDForCr, C7NHelmRelease.zero, Op.pure_eq, Op.ret_andThen, if_true,
    Op.andThen_assoc]
  cases hcrd : w.GetCustomResourceDefinition
      (s.calls ++ [Call.GetC7NHelmRelease request.Namespace request.Name])
      "" "c7nhelmreleases" with
  | none =>
    cases deleteHelmReleaseCmd w request.Namespace request.Name <;>
      simp [Op.ret_andThen, Op.sendCommand_andThen, Op.ret]
  | some crdErr =>
    cases hgone : crdErr.notFound
    · cases deleteHelmReleaseCmd w request.Namespace request.Name <;>
        simp [hgone, Op.ret_andThen, Op.sendCommand_andThen, Op.ret]
    · simp [hgone, Op.ret_andThen, Op.ret]

/-! ## The reconciler: claims C1 to C9 -/

/-- C1: for a custom resource that is found, carries a non-empty commit annotation and
whose release does not exist (`GetRelease` fails with `release <name> not exist`),
`Reconcile` returns a nil error, sends exactly one packet on the command channel and
none on the response channel; the packet has the key `env:<namespace>.release:<name>`,
the type `HelmReleasePreInstall` and, as payload, the JSON encoding of the install
request built from the resource's spec, name, namespace and commit annotation. -/
theorem Reconcile_installs_absent_release (w : World) (request : Request) (s : Sys)
    (cr : C7NHelmRelease) (payload : String)
    (hfetch : w.GetC7NHelmRelease s.calls request.Namespace request.Name = .ok cr)
    (hcommit : cr.annotation w.CommitLabel ≠ "")
    (hrel : (helm.GetRelease w { ReleaseName := request.Name, Version := 0 }
        { s with calls := s.calls ++ [Call.GetC7NHelmRelease request.Namespace request.Name] }).1
        = .ok (none, some ("release " ++ request.Name ++ " not exist")))
    (hjson : w.jsonInstallRequest
        { RepoURL := cr.Spec.RepoURL, ChartName := cr.Spec.ChartName,
          ChartVersion := cr.Spec.ChartVersion, Values := cr.Spec.Values,
          ReleaseName := cr.Name, Commit := cr.annotation w.CommitLabel,
          Namespace := cr.Namespace, ImagePullSecrets := cr.Spec.ImagePullSecrets }
        = .ok payload) :
    (Reconcile w request s).1 = .ok ({}, none) ∧
    (Reconcile w request s).2.commandChan = s.commandChan ++
      [{ Key := "env:" ++ cr.Namespace ++ ".release:" ++ cr.Name,
         Type_ := .HelmReleasePreInstall, Payload := payload }] ∧
    (Reconcile w request s).2.responseChan = s.responseChan := by
  rw [Reconcile_of_query_error w request s cr none _ hfetch hcommit hrel]
  simp [installHelmReleaseCmd, hjson]

/-- Witness of C1: the scenario with an empty release store. -/
theorem Reconcile_installs_absent_release_witness :
    (Reconcile scenario.absent scenario.request Sys.init).1 = .ok ({}, none) ∧
    (Reconcile scenario.absent scenario.request Sys.init).2.commandChan =
      [{ Key := "env:proj.release:app", Type_ := .HelmReleasePreInstall,
         Payload := "install app web@1.0.0" }] ∧
    (Reconcile scenario.absent scenario.request Sys.init).2.responseChan = [] :=
  Reconcile_installs_absent_release scenario.absent scenario.request Sys.init scenario.cr
    "install app web@1.0.0" rfl (by decide) rfl rfl

/-- C2: for a custom resource with a commit annotation whose existing release has the
same chart name, chart version and values text, `Reconcile` returns a nil error, sends
no command, and sends exactly one `HelmReleaseSynced` response, with the key
`env:<namespace>.release:<name>.commit:<commit>` and an empty payload (after the
failure response, when the namespaces differ). -/
theorem Reconcile_reports_synced (w : World) (request : Request) (s : Sys)
    (cr : C7NHelmRelease) (rls : helm.Release)
    (hfetch : w.GetC7NHelmRelease s.calls request.Namespace request.Name = .ok cr)
    (hcommit : cr.annotation w.CommitLabel ≠ "")
    (hrel : (helm.GetRelease w { ReleaseName := request.Name, Version := 0 }
        { s with calls := s.calls ++ [Call.GetC7NHelmRelease request.Namespace request.Name] }).1
        = .ok (some rls, none))
    (hname : cr.Spec.ChartName = rls.ChartName)
    (hversion : cr.Spec.ChartVersion = rls.ChartVersion)
    (hvalues : cr.Spec.Values = rls.Config) :
    (Reconcile w request s).1 = .ok ({}, none) ∧
    (Reconcile w request s).2.commandChan = s.commandChan ∧
    ∃ failures : List Packet,
      (Reconcile w request s).2.responseChan = s.responseChan ++ failures ++
        [{ Key := "env:" ++ cr.Namespace ++ ".release:" ++ cr.Name ++ ".commit:" ++
             cr.annotation w.CommitLabel,
           Type_ := .HelmReleaseSynced, Payload := "" }] ∧
      (∀ p ∈ failures, p.Type_ = .HelmReleaseSyncedFailed) ∧
      (cr.Namespace = rls.Namespace → failures = []) := by
  rw [Reconcile_of_release w request s cr rls hfetch hcommit hrel]
  have hsame : cr.Spec.ChartName = rls.ChartName ∧ cr.Spec.ChartVersion = rls.ChartVersion ∧
      cr.Spec.Values = rls.Config := ⟨hname, hversion, hvalues⟩
  refine ⟨rfl, by simp [hsame], ?_⟩
  by_cases hns : cr.Namespace = rls.Namespace
  · exact ⟨[], by simp [hsame, hns, newReleaseSyncRep], by simp, fun _ => rfl⟩
  · exact ⟨[newReleaseSyncFailRep w cr "release already in other namespace!"],
      by simp [hsame, hns, newReleaseSyncRep], by simp [newReleaseSyncFailRep],
      fun h => absurd h hns⟩

/-- Witness of C2: the scenario with the release stored as desired. -/
theorem Reconcile_reports_synced_witness :
    (Reconcile (scenario.holding "proj" "replicas: 1") scenario.request Sys.init).1
      = .ok ({}, none) ∧
    (Reconcile (scenario.holding "proj" "replicas: 1") scenario.request Sys.init).2.commandChan
      = [] ∧
    ∃ failures : List Packet,
      (Reconcile (scenario.holding "proj" "replicas: 1") scenario.request
          Sys.init).2.responseChan = [] ++ failures ++
        [{ Key := "env:" ++ "proj" ++ ".release:" ++ "app" ++ ".commit:" ++ "c1",
           Type_ := .HelmReleaseSynced, Payload := "" }] ∧
      (∀ p ∈ failures, p.Type_ = .HelmReleaseSyncedFailed) ∧
      ("proj" = "proj" → failures = []) :=
  Reconcile_reports_synced (scenario.holding "proj" "replicas: 1") scenario.request Sys.init
    scenario.cr (scenario.found "proj" "replicas: 1")
    rfl (by decide) rfl rfl rfl rfl

/-- C3: for a custom resource with a commit annotation whose existing release differs
in chart name, chart version or values text (compared as texts), `Reconcile` sends
exactly one command, with the key `env:<namespace>.release:<name>`, the type
`HelmReleasePreUpgrade` and the JSON encoding of the upgrade request as payload, and
sends no `HelmReleaseSynced` response. -/
theorem Reconcile_upgrades_drifted_release (w : World) (request : Request) (s : Sys)
    (cr : C7NHelmRelease) (rls : helm.Release) (payload : String)
    (hfetch : w.GetC7NHelmRelease s.calls request.Namespace request.Name = .ok cr)
    (hcommit : cr.annotation w.CommitLabel ≠ "")
    (hrel : (helm.GetRelease w { ReleaseName := request.Name, Version := 0 }
        { s with calls := s.calls ++ [Call.GetC7NHelmRelease request.Namespace request.Name] }).1
        = .ok (some rls, none))
    (hdiff : cr.Spec.ChartName ≠ rls.ChartName ∨ cr.Spec.ChartVersion ≠ rls.ChartVersion ∨
      cr.Spec.Values ≠ rls.Config)
    (hjson : w.jsonUpgradeRequest
        { RepoURL := cr.Spec.RepoURL, ChartName := cr.Spec.ChartName,
          ChartVersion := cr.Spec.ChartVersion, Values := cr.Spec.Values,
          ReleaseName := cr.Name, Commit := cr.annotation w.CommitLabel,
          Namespace := cr.Namespace, ImagePullSecrets := cr.Spec.ImagePullSecrets }
        = .ok payload) :
    (Reconcile w request s).2.commandChan = s.commandChan ++
      [{ Key := "env:" ++ cr.Namespace ++ ".release:" ++ cr.Name,
         Type_ := .HelmReleasePreUpgrade, Payload := payload }] ∧
    ∃ responses : List Packet,
      (Reconcile w request s).2.responseChan = s.responseChan ++ responses ∧
      ∀ p ∈ responses, p.Type_ ≠ .HelmReleaseSynced := by
  rw [Reconcile_of_release w request s cr rls hfetch hcommit hrel]
  have hsame : ¬(cr.Spec.ChartName = rls.ChartName ∧ cr.Spec.ChartVersion = rls.ChartVersion ∧
      cr.Spec.Values = rls.Config) := by
    rintro ⟨h1, h2, h3⟩
    rcases hdiff with h | h | h
    · exact h h1
    · exact h h2
    · exact h h3
  refine ⟨by simp [hsame, updateHelmReleaseCmd, hjson], ?_⟩
  by_cases hns : cr.Namespace = rls.Namespace
  · exact ⟨[], by simp [hsame, hns], by simp⟩
  · exact ⟨[newReleaseSyncFailRep w cr "release already in other namespace!"],
      by simp [hsame, hns], by simp [newReleaseSyncFailRep]⟩

/-- Witness of C3: the stored values differ from the desired ones by one space. -/
theorem Reconcile_upgrades_drifted_release_witness :
    (Reconcile (scenario.holding "proj" "replicas:  1") scenario.request Sys.init).2.commandChan
      = [] ++ [{ Key := "env:" ++ "proj" ++ ".release:" ++ "app",
                 Type_ := .HelmReleasePreUpgrade, Payload := "upgrade app web@1.0.0" }] ∧
    ∃ responses : List Packet,
      (Reconcile (scenario.holding "proj" "replicas:  1") scenario.request
          Sys.init).2.responseChan = [] ++ responses ∧
      ∀ p ∈ responses, p.Type_ ≠ .HelmReleaseSynced :=
  Reconcile_upgrades_drifted_release (scenario.holding "proj" "replicas:  1") scenario.request
    Sys.init scenario.cr (scenario.found "proj" "replicas:  1") "upgrade app web@1.0.0"
    rfl (by decide) rfl (by decide) rfl

/-- C4: when the fetch of the custom resource reports not-found, `Reconcile` returns a
nil error and sends no response; if the lookup of the resource definition succeeds it
sends exactly one command, with the key `env:<request namespace>.release:<request name>`,
the type `HelmReleaseDelete` and the encoding of the delete request for the request's
name; if that lookup reports not-found it sends no packet. -/
theorem Reconcile_deleted_resource (w : World) (request : Request) (s : Sys) (err : ApiError)
    (hfetch : w.GetC7NHelmRelease s.calls request.Namespace request.Name = .error err)
    (hnotFound : err.notFound = true) :
    (∀ payload : String,
      w.GetCustomResourceDefinition
        (s.calls ++ [Call.GetC7NHelmRelease request.Namespace request.Name])
        "" "c7nhelmreleases" = none →
      w.jsonDeleteRequest { ReleaseName := request.Name } = .ok payload →
      (Reconcile w request s).1 = .ok ({}, none) ∧
      (Reconcile w request s).2.commandChan = s.commandChan ++
        [{ Key := "env:" ++ request.Namespace ++ ".release:" ++ request.Name,
           Type_ := .HelmReleaseDelete, Payload := payload }] ∧
      (Reconcile w request s).2.responseChan = s.responseChan) ∧
    (∀ crdErr : ApiError,
      w.GetCustomResourceDefinition
        (s.calls ++ [Call.GetC7NHelmRelease request.Namespace request.Name])
        "" "c7nhelmreleases" = some crdErr →
      crdErr.notFound = true →
      (Reconcile w request s).1 = .ok ({}, none) ∧
      (Reconcile w request s).2.commandChan = s.commandChan ∧
      (Reconcile w request s).2.responseChan = s.responseChan) := by
  rw [Reconcile_of_not_found w request s err hfetch hnotFound]
  constructor
  · intro payload hcrd hjson
    simp [hcrd, deleteHelmReleaseCmd, hjson]
  · intro crdErr hcrd hgone
    simp [hcrd, hgone]

/-- Witness of C4: the resource is gone, with its definition present and with its
definition gone. -/
theorem Reconcile_deleted_resource_witness :
    ((Reconcile scenario.deleted scenario.request Sys.init).1 = .ok ({}, none) ∧
      (Reconcile scenario.deleted scenario.request Sys.init).2.commandChan = [] ++
        [{ Key := "env:" ++ "proj" ++ ".release:" ++ "app",
           Type_ := .HelmReleaseDelete, Payload := "delete app" }] ∧
      (Reconcile scenario.deleted scenario.request Sys.init).2.responseChan = []) ∧
    ((Reconcile scenario.undefined scenario.request Sys.init).1 = .ok ({}, none) ∧
      (Reconcile scenario.undefined scenario.request Sys.init).2.commandChan = [] ∧
      (Reconcile scenario.undefined scenario.request Sys.init).2.responseChan = []) :=
  ⟨(Reconcile_deleted_resource scenario.deleted scenario.request Sys.init
      { notFound := true, msg := "not found" } rfl rfl).1 "delete app" rfl rfl,
   (Reconcile_deleted_resource scenario.undefined scenario.request Sys.init
      { notFound := true, msg := "not found" } rfl rfl).2
      { notFound := true, msg := "not found" } rfl rfl⟩

/-- C5: for a custom resource that is found but has no annotations or an empty commit
annotation, `Reconcile` returns a non-nil error, sends no packet on either channel,
and makes no call after the fetch, so the release engine is not queried. -/
theorem Reconcile_rejects_missing_commit (w : World) (request : Request) (s : Sys)
    (cr : C7NHelmRelease)
    (hfetch : w.GetC7NHelmRelease s.calls request.Namespace request.Name = .ok cr)
    (hmissing : cr.Annotations = none ∨ cr.annotation w.CommitLabel = "") :
    (Reconcile w request s).1 = .ok ({}, some "c7nhelmrelease has no commit annotations") ∧
    (Reconcile w request s).2.commandChan = s.commandChan ∧
    (Reconcile w request s).2.responseChan = s.responseChan ∧
    (Reconcile w request s).2.calls =
      s.calls ++ [Call.GetC7NHelmRelease request.Namespace request.Name] := by
  have hcond : (cr.Annotations.isNone || decide (cr.annotation w.CommitLabel = "")) = true := by
    rcases hmissing with h | h
    · simp [h]
    · simp [h]
  rw [Reconcile_of_missing_commit w request s cr hfetch hcond]
  exact ⟨rfl, rfl, rfl, rfl⟩

/-- Witness of C5: the scenario with a resource without annotations. -/
theorem Reconcile_rejects_missing_commit_witness :
    (Reconcile scenario.unannotated scenario.request Sys.init).1
      = .ok ({}, some "c7nhelmrelease has no commit annotations") ∧
    (Reconcile scenario.unannotated scenario.request Sys.init).2.commandChan = [] ∧
    (Reconcile scenario.unannotated scenario.request Sys.init).2.responseChan = [] ∧
    (Reconcile scenario.unannotated scenario.request Sys.init).2.calls =
      [] ++ [Call.GetC7NHelmRelease "proj" "app"] :=
  Reconcile_rejects_missing_commit scenario.unannotated scenario.request Sys.init
    scenario.crNoAnnotations rfl (Or.inl rfl)

/-- C6 (the code at the failing input): the custom resource carries a commit annotation
and Tiller answers the query with the transport error `context deadline exceeded`;
`GetRelease` returns that error, and `Reconcile` sends the install command, sends no
response and returns a nil error. -/
theorem Reconcile_installs_on_transport_error :
    (helm.GetRelease scenario.unreachable { ReleaseName := "app", Version := 0 }
        { Sys.init with calls := [Call.GetC7NHelmRelease "proj" "app"] }).1
      = .ok (none, some "context deadline exceeded") ∧
    (Reconcile scenario.unreachable scenario.request Sys.init).1 = .ok ({}, none) ∧
    (Reconcile scenario.unreachable scenario.request Sys.init).2.commandChan =
      [{ Key := "env:proj.release:app", Type_ := .HelmReleasePreInstall,
         Payload := "install app web@1.0.0" }] ∧
    (Reconcile scenario.unreachable scenario.request Sys.init).2.responseChan = [] :=
  ⟨rfl, rfl, by decide, by decide⟩

/-- C7: when the existing release's namespace differs from the custom resource's,
`Reconcile` sends one `HelmReleaseSyncedFailed` response with the key
`env:<namespace>.release:<name>.commit:<commit>`, returns a nil error, and otherwise
does what it does in a world `w2` that differs only in that the release is in the
resource's namespace: the same result, the same commands, and the same responses
after the failure response. -/
theorem Reconcile_foreign_namespace_continues (w w2 : World) (request : Request) (s : Sys)
    (cr : C7NHelmRelease) (rls : helm.Release)
    (hlabel : w2.CommitLabel = w.CommitLabel)
    (hjson : w2.jsonUpgradeRequest = w.jsonUpgradeRequest)
    (hfetch : w.GetC7NHelmRelease s.calls request.Namespace request.Name = .ok cr)
    (hfetch2 : w2.GetC7NHelmRelease s.calls request.Namespace request.Name = .ok cr)
    (hcommit : cr.annotation w.CommitLabel ≠ "")
    (hrel : (helm.GetRelease w { ReleaseName := request.Name, Version := 0 }
        { s with calls := s.calls ++ [Call.GetC7NHelmRelease request.Namespace request.Name] }).1
        = .ok (some rls, none))
    (hrel2 : (helm.GetRelease w2 { ReleaseName := request.Name, Version := 0 }
        { s with calls := s.calls ++ [Call.GetC7NHelmRelease request.Namespace request.Name] }).1
        = .ok (some { rls with Namespace := cr.Namespace }, none))
    (hforeign : cr.Namespace ≠ rls.Namespace) :
    (Reconcile w request s).1 = .ok ({}, none) ∧
    (Reconcile w request s).1 = (Reconcile w2 request s).1 ∧
    (Reconcile w request s).2.commandChan = (Reconcile w2 request s).2.commandChan ∧
    ∃ rest : List Packet,
      (Reconcile w2 request s).2.responseChan = s.responseChan ++ rest ∧
      (Reconcile w request s).2.responseChan = s.responseChan ++
        { Key := "env:" ++ cr.Namespace ++ ".release:" ++ cr.Name ++ ".commit:" ++
            cr.annotation w.CommitLabel,
          Type_ := .HelmReleaseSyncedFailed,
          Payload := "release already in other namespace!" } :: rest := by
  have hcommit2 : cr.annotation w2.CommitLabel ≠ "" := by rw [hlabel]; exact hcommit
  rw [Reconcile_of_release w request s cr rls hfetch hcommit hrel,
    Reconcile_of_release w2 request s cr _ hfetch2 hcommit2 hrel2]
  have hcmd : updateHelmReleaseCmd w2 cr = updateHelmReleaseCmd w cr := by
    simp [updateHelmReleaseCmd, hlabel, hjson]
  have hrep : newReleaseSyncRep w2 cr = newReleaseSyncRep w cr := by
    simp [newReleaseSyncRep, hlabel]
  refine ⟨rfl, rfl, by simp [hcmd], ?_⟩
  refine ⟨if cr.Spec.ChartName = rls.ChartName ∧ cr.Spec.ChartVersion = rls.ChartVersion ∧
      cr.Spec.Values = rls.Config then [newReleaseSyncRep w cr] else [], ?_, ?_⟩
  · simp [hrep]
  · simp [hforeign, newReleaseSyncFailRep]

/-- Witness of C7: the release is stored in namespace `other`, with other values. -/
theorem Reconcile_foreign_namespace_continues_witness :
    (Reconcile (scenario.holding "other" "replicas: 2") scenario.request Sys.init).1
      = .ok ({}, none) ∧
    (Reconcile (scenario.holding "other" "replicas: 2") scenario.request Sys.init).1 =
      (Reconcile (scenario.holding "proj" "replicas: 2") scenario.request Sys.init).1 ∧
    (Reconcile (scenario.holding "other" "replicas: 2") scenario.request Sys.init).2.commandChan =
      (Reconcile (scenario.holding "proj" "replicas: 2") scenario.request
        Sys.init).2.commandChan ∧
    ∃ rest : List Packet,
      (Reconcile (scenario.holding "proj" "replicas: 2") scenario.request
          Sys.init).2.responseChan = [] ++ rest ∧
      (Reconcile (scenario.holding "other" "replicas: 2") scenario.request
          Sys.init).2.responseChan = [] ++
        { Key := "env:" ++ "proj" ++ ".release:" ++ "app" ++ ".commit:" ++ "c1",
          Type_ := .HelmReleaseSyncedFailed,
          Payload := "release already in other namespace!" } :: rest :=
  Reconcile_foreign_namespace_continues (scenario.holding "other" "replicas: 2")
    (scenario.holding "proj" "replicas: 2") scenario.request Sys.init scenario.cr
    (scenario.found "other" "replicas: 2") rfl rfl rfl rfl (by decide) rfl rfl (by decide)

/-- C8 (counterexample): the release `app` is stored in namespace `other` with values
that differ from the desired ones; `Reconcile` for the resource in namespace `proj`
sends an upgrade command. -/
theorem Reconcile_foreign_release_upgraded :
    (scenario.found "other" "replicas: 2").Namespace ≠ scenario.cr.Namespace ∧
    (helm.GetRelease (scenario.holding "other" "replicas: 2")
        { ReleaseName := "app", Version := 0 }
        { Sys.init with calls := [Call.GetC7NHelmRelease "proj" "app"] }).1
      = .ok (some (scenario.found "other" "replicas: 2"), none) ∧
    (Reconcile (scenario.holding "other" "replicas: 2") scenario.request Sys.init).2.commandChan
      = [{ Key := "env:proj.release:app", Type_ := .HelmReleasePreUpgrade,
           Payload := "upgrade app web@1.0.0" }] :=
  ⟨by decide, rfl, by decide⟩

/-- C8 (amended): when a release with the resource's name exists in another namespace,
`Reconcile` sends the failure response first and sends neither an install nor a delete
command: it sends no command when chart name, chart version and values equal the
release's, and otherwise only the upgrade command (exactly that one when the upgrade
request encodes). -/
theorem Reconcile_foreign_release_commands (w : World) (request : Request) (s : Sys)
    (cr : C7NHelmRelease) (rls : helm.Release)
    (hfetch : w.GetC7NHelmRelease s.calls request.Namespace request.Name = .ok cr)
    (hcommit : cr.annotation w.CommitLabel ≠ "")
    (hrel : (helm.GetRelease w { ReleaseName := request.Name, Version := 0 }
        { s with calls := s.calls ++ [Call.GetC7NHelmRelease request.Namespace request.Name] }).1
        = .ok (some rls, none))
    (hforeign : cr.Namespace ≠ rls.Namespace) :
    ∃ (commands rest : List Packet),
      (Reconcile w request s).2.commandChan = s.commandChan ++ commands ∧
      (Reconcile w request s).2.responseChan = s.responseChan ++
        { Key := "env:" ++ cr.Namespace ++ ".release:" ++ cr.Name ++ ".commit:" ++
            cr.annotation w.CommitLabel,
          Type_ := .HelmReleaseSyncedFailed,
          Payload := "release already in other namespace!" } :: rest ∧
      (∀ p ∈ commands, p.Type_ = .HelmReleasePreUpgrade) ∧
      (cr.Spec.ChartName = rls.ChartName ∧ cr.Spec.ChartVersion = rls.ChartVersion ∧
          cr.Spec.Values = rls.Config → commands = []) ∧
      (∀ payload : String,
        ¬(cr.Spec.ChartName = rls.ChartName ∧ cr.Spec.ChartVersion = rls.ChartVersion ∧
          cr.Spec.Values = rls.Config) →
        w.jsonUpgradeRequest
          { RepoURL := cr.Spec.RepoURL, ChartName := cr.Spec.ChartName,
            ChartVersion := cr.Spec.ChartVersion, Values := cr.Spec.Values,
            ReleaseName := cr.Name, Commit := cr.annotation w.CommitLabel,
            Namespace := cr.Namespace, ImagePullSecrets := cr.Spec.ImagePullSecrets }
          = .ok payload →
        commands = [{ Key := "env:" ++ cr.Namespace ++ ".release:" ++ cr.Name,
                      Type_ := .HelmReleasePreUpgrade, Payload := payload }]) := by
  rw [Reconcile_of_release w request s cr rls hfetch hcommit hrel]
  refine ⟨if cr.Spec.ChartName = rls.ChartName ∧ cr.Spec.ChartVersion = rls.ChartVersion ∧
      cr.Spec.Values = rls.Config then [] else (updateHelmReleaseCmd w cr).toList,
    if cr.Spec.ChartName = rls.ChartName ∧ cr.Spec.ChartVersion = rls.ChartVersion ∧
      cr.Spec.Values = rls.Config then [newReleaseSyncRep w cr] else [], rfl, ?_, ?_, ?_, ?_⟩
  · simp only [ne_eq, hforeign, not_false_eq_true, if_true, List.append_assoc,
      List.singleton_append, newReleaseSyncFailRep]
  · intro p hp
    split at hp
    · simp at hp
    · exact updateHelmReleaseCmd_type w cr p hp
  · intro hsame
    simp [hsame]
  · intro payload hdiff hjson
    simp [hdiff, updateHelmReleaseCmd, hjson]

/-- Witness of C8 (amended): the release is stored in namespace `other`. -/
theorem Reconcile_foreign_release_commands_witness :
    ∃ (commands rest : List Packet),
      (Reconcile (scenario.holding "other" "replicas: 1") scenario.request
        Sys.init).2.commandChan = [] ++ commands ∧
      (Reconcile (scenario.holding "other" "replicas: 1") scenario.request
        Sys.init).2.responseChan = [] ++
        { Key := "env:" ++ "proj" ++ ".release:" ++ "app" ++ ".commit:" ++ "c1",
          Type_ := .HelmReleaseSyncedFailed,
          Payload := "release already in other namespace!" } :: rest ∧
      (∀ p ∈ commands, p.Type_ = .HelmReleasePreUpgrade) ∧
      ("web" = "web" ∧ "1.0.0" = "1.0.0" ∧ "replicas: 1" = "replicas: 1" → commands = []) ∧
      (∀ payload : String,
        ¬("web" = "web" ∧ "1.0.0" = "1.0.0" ∧ "replicas: 1" = "replicas: 1") →
        scenario.absent.jsonUpgradeRequest
          { RepoURL := "http://charts.example", ChartName := "web",
            ChartVersion := "1.0.0", Values := "replicas: 1",
            ReleaseName := "app", Commit := "c1",
            Namespace := "proj", ImagePullSecrets := [] }
          = .ok payload →
        commands = [{ Key := "env:" ++ "proj" ++ ".release:" ++ "app",
                      Type_ := .HelmReleasePreUpgrade, Payload := payload }]) :=
  Reconcile_foreign_release_commands (scenario.holding "other" "replicas: 1") scenario.request
    Sys.init scenario.cr (scenario.found "other" "replicas: 1") rfl (by decide) rfl (by decide)

/-- C9 (counterexample): the custom resource has no annotations and the release store
is empty, so no namespace differs; the pass sends no packet at all, not one. -/
theorem Reconcile_unannotated_sends_nothing :
    (scenario.unannotated.ReleaseContent [Call.GetC7NHelmRelease "proj" "app"] "app" 0).1
      = none ∧
    (Reconcile scenario.unannotated scenario.request Sys.init).2.commandChan.length +
      (Reconcile scenario.unannotated scenario.request Sys.init).2.responseChan.length = 0 ∧
    ¬((Reconcile scenario.unannotated scenario.request Sys.init).2.commandChan.length +
      (Reconcile scenario.unannotated scenario.request Sys.init).2.responseChan.length = 1) :=
  ⟨rfl, by decide, by decide⟩

/-- C9 (amended): when the request payloads encode, a `Reconcile` pass sends exactly
one packet in total over the two channels, with these exceptions: a pass in which the
release exists in another namespace sends the failure response first and one more
packet (two in total), and a pass sends no packet when the resource is found without a
commit annotation, when its fetch fails with an error other than not-found, or when
the fetch and the lookup of the definition both report not-found. -/
theorem Reconcile_packet_count (w : World) (request : Request) (s : Sys)
    (hinstall : ∀ r, ∃ payload, w.jsonInstallRequest r = .ok payload)
    (hupgrade : ∀ r, ∃ payload, w.jsonUpgradeRequest r = .ok payload)
    (hdelete : ∀ r, ∃ payload, w.jsonDeleteRequest r = .ok payload) :
    ∃ (commands responses : List Packet),
      (Reconcile w request s).2.commandChan = s.commandChan ++ commands ∧
      (Reconcile w request s).2.responseChan = s.responseChan ++ responses ∧
      commands.length + responses.length =
        (match w.GetC7NHelmRelease s.calls request.Namespace request.Name with
         | .error err =>
           if err.notFound then
             match w.GetCustomResourceDefinition
                 (s.calls ++ [Call.GetC7NHelmRelease request.Namespace request.Name])
                 "" "c7nhelmreleases" with
             | some crdErr => if crdErr.notFound then 0 else 1
             | none => 1
           else 0
         | .ok cr =>
           if cr.Annotations = none ∨ cr.annotation w.CommitLabel = "" then 0
           else
             match (helm.GetRelease w { ReleaseName := request.Name, Version := 0 }
                 { s with calls := s.calls ++
                     [Call.GetC7NHelmRelease request.Namespace request.Name] }).1 with
             | .ok (some rls, none) => if cr.Namespace ≠ rls.Namespace then 2 else 1
             | _ => 1) ∧
      ∀ (cr : C7NHelmRelease) (rls : helm.Release),
        w.GetC7NHelmRelease s.calls request.Namespace request.Name = .ok cr →
        cr.annotation w.CommitLabel ≠ "" →
        (helm.GetRelease w { ReleaseName := request.Name, Version := 0 }
            { s with calls := s.calls ++
                [Call.GetC7NHelmRelease request.Namespace request.Name] }).1
          = .ok (some rls, none) →
        cr.Namespace ≠ rls.Namespace →
        responses.head? = some
          { Key := "env:" ++ cr.Namespace ++ ".release:" ++ cr.Name ++ ".commit:" ++
              cr.annotation w.CommitLabel,
            Type_ := .HelmReleaseSyncedFailed,
            Payload := "release already in other namespace!" } := by
  cases hfetch : w.GetC7NHelmRelease s.calls request.Namespace request.Name with
  | error err =>
    cases hnf : err.notFound
    · rw [Reconcile_of_fetch_failure w request s err hfetch hnf]
      exact ⟨[], [], by simp, by simp, by simp [hnf], by intro cr rls h; cases h⟩
    · rw [Reconcile_of_not_found w request s err hfetch hnf]
      obtain ⟨payload, hp⟩ := hdelete { ReleaseName := request.Name }
      refine ⟨_, [], rfl, by simp, ?_, by intro cr rls h; cases h⟩
      cases hcrd : w.GetCustomResourceDefinition
          (s.calls ++ [Call.GetC7NHelmRelease request.Namespace request.Name])
          "" "c7nhelmreleases" with
      | none => simp [hnf, deleteHelmReleaseCmd, hp]
      | some crdErr =>
        cases hgone : crdErr.notFound <;> simp [hnf, hgone, deleteHelmReleaseCmd, hp]
  | ok cr =>
    by_cases hmissing : cr.Annotations = none ∨ cr.annotation w.CommitLabel = ""
    · have hcond : (cr.Annotations.isNone ||
          decide (cr.annotation w.CommitLabel = "")) = true := by
        rcases hmissing with h | h
        · simp [h]
        · simp [h]
      rw [Reconcile_of_missing_commit w request s cr hfetch hcond]
      refine ⟨[], [], by simp, by simp, by simp [hmissing], ?_⟩
      intro cr1 rls h hc
      injection h with h
      subst h
      rcases hmissing with hm | hm
      · exact absurd (by simp [C7NHelmRelease.annotation, hm]) hc
      · exact absurd hm hc
    · have hcommit : cr.annotation w.CommitLabel ≠ "" := fun h => hmissing (Or.inr h)
      obtain ⟨installPayload, hi⟩ := hinstall
        { RepoURL := cr.Spec.RepoURL, ChartName := cr.Spec.ChartName,
          ChartVersion := cr.Spec.ChartVersion, Values := cr.Spec.Values,
          ReleaseName := cr.Name, Commit := cr.annotation w.CommitLabel,
          Namespace := cr.Namespace, ImagePullSecrets := cr.Spec.ImagePullSecrets }
      obtain ⟨upgradePayload, hu⟩ := hupgrade
        { RepoURL := cr.Spec.RepoURL, ChartName := cr.Spec.ChartName,
          ChartVersion := cr.Spec.ChartVersion, Values := cr.Spec.Values,
          ReleaseName := cr.Name, Commit := cr.annotation w.CommitLabel,
          Namespace := cr.Namespace, ImagePullSecrets := cr.Spec.ImagePullSecrets }
      have hcmd : (updateHelmReleaseCmd w cr).toList.length = 1 := by
        simp [updateHelmReleaseCmd, hu]
      rcases helm.GetRelease_result w { ReleaseName := request.Name, Version := 0 }
          { s with calls := s.calls ++
              [Call.GetC7NHelmRelease request.Namespace request.Name] }
        with ⟨e, he, _⟩ | ⟨rls, hr⟩
      · rw [Reconcile_of_query_error w request s cr none e hfetch hcommit he]
        refine ⟨_, [], rfl, by simp, ?_, ?_⟩
        · simp [hmissing, he, installHelmReleaseCmd, hi]
        · intro cr1 rls _ _ h
          rw [he] at h
          injection h with h
          injection h with h _
          cases h
      · rw [Reconcile_of_release w request s cr rls hfetch hcommit hr]
        refine ⟨_, (if cr.Namespace ≠ rls.Namespace then
            [newReleaseSyncFailRep w cr "release already in other namespace!"] else []) ++
          (if cr.Spec.ChartName = rls.ChartName ∧ cr.Spec.ChartVersion = rls.ChartVersion ∧
            cr.Spec.Values = rls.Config then [newReleaseSyncRep w cr] else []), rfl,
          by simp, ?_, ?_⟩
        · by_cases hns : cr.Namespace = rls.Namespace <;>
          by_cases hsame : cr.Spec.ChartName = rls.ChartName ∧
              cr.Spec.ChartVersion = rls.ChartVersion ∧ cr.Spec.Values = rls.Config <;>
          simp [hmissing, hr, hns, hsame, hcmd]
        · intro cr1 rls1 h1 _ h2 hne
          injection h1 with h1
          subst h1
          rw [hr] at h2
          injection h2 with h2
          injection h2 with h2 _
          injection h2 with h2
          subst h2
          simp [hne, newReleaseSyncFailRep]

/-- Witness of C9 (amended): the scenario with an empty release store sends one
packet. -/
theorem Reconcile_packet_count_witness :
    ∃ (commands responses : List Packet),
      (Reconcile scenario.absent scenario.request Sys.init).2.commandChan = [] ++ commands ∧
      (Reconcile scenario.absent scenario.request Sys.init).2.responseChan = [] ++ responses ∧
      commands.length + responses.length = 1 ∧
      ∀ (cr : C7NHelmRelease) (rls : helm.Release),
        scenario.absent.GetC7NHelmRelease [] "proj" "app" = .ok cr →
        cr.annotation "commit" ≠ "" →
        (helm.GetRelease scenario.absent { ReleaseName := "app", Version := 0 }
            { Sys.init with calls := [] ++ [Call.GetC7NHelmRelease "proj" "app"] }).1
          = .ok (some rls, none) →
        cr.Namespace ≠ rls.Namespace →
        responses.head? = some
          { Key := "env:" ++ cr.Namespace ++ ".release:" ++ cr.Name ++ ".commit:" ++
              cr.annotation "commit",
            Type_ := .HelmReleaseSyncedFailed,
            Payload := "release already in other namespace!" } :=
  Reconcile_packet_count scenario.absent scenario.request Sys.init
    (fun _ => ⟨_, rfl⟩) (fun _ => ⟨_, rfl⟩) (fun _ => ⟨_, rfl⟩)

end c7nhelmrelease

/-! ## The release engine: claim C10 -/

namespace helm

/-- C10: if the release store holds a release with the requested name, `InstallRelease`
returns no release and the error `release <name> already exist`, and the only call it
has made is the query of the store: it has not loaded the chart, has not called the
label injector and has not changed the store. -/
theorem InstallRelease_conflict (w : World) (fuel : Nat) (request : InstallReleaseRequest)
    (s : Sys) (rel : release.Release)
    (hstore : w.ReleaseContent s.calls request.ReleaseName 0 = (some rel, none)) :
    (InstallRelease w fuel request s).1 =
      .ok (none, some ("release " ++ request.ReleaseName ++ " already exist")) ∧
    (InstallRelease w fuel request s).2.calls =
      s.calls ++ [Call.ReleaseContent request.ReleaseName 0] ∧
    ∀ c ∈ (InstallRelease w fuel request s).2.calls.drop s.calls.length,
      c.isChartLoad = false ∧ c.isLabelInjection = false ∧ c.isStoreMutation = false := by
  have hrun : InstallRelease w fuel request s =
      (.ok (none, some ("release " ++ request.ReleaseName ++ " already exist")),
       { s with calls := s.calls ++ [Call.ReleaseContent request.ReleaseName 0] }) := by
    unfold InstallRelease
    simp only [Op.bind_eq, Op.call_andThen, hstore]
    simp [Op.pure_eq]
    rfl
  rw [hrun]
  refine ⟨rfl, rfl, ?_⟩
  intro c hc
  simp only [List.drop_left, List.mem_singleton] at hc
  rw [hc]
  exact ⟨rfl, rfl, rfl⟩

/-- Witness of C10: the store holds the release `app` at revision 1. -/
theorem InstallRelease_conflict_witness :
    (InstallRelease (scenario.holding "proj" "replicas: 1") 0 scenario.installRequest
        Sys.init).1 = .ok (none, some ("release " ++ "app" ++ " already exist")) ∧
    (InstallRelease (scenario.holding "proj" "replicas: 1") 0 scenario.installRequest
        Sys.init).2.calls = [] ++ [Call.ReleaseContent "app" 0] ∧
    ∀ c ∈ (InstallRelease (scenario.holding "proj" "replicas: 1") 0 scenario.installRequest
        Sys.init).2.calls.drop 0,
      c.isChartLoad = false ∧ c.isLabelInjection = false ∧ c.isStoreMutation = false :=
  InstallRelease_conflict (scenario.holding "proj" "replicas: 1") 0 scenario.installRequest
    Sys.init (scenario.stored "proj" "replicas: 1") rfl

end helm

/-! ## The release engine: lemmas on runs -/

namespace helm

open chart

theorem Op.ite_andThen {α β : Type} (c : Prop) [Decidable c] (a b : Op α) (g : α → Op β) :
    Op.andThen (if c then a else b) g = if c then Op.andThen a g else Op.andThen b g := by
  split <;> rfl

theorem Op.andThen_congr_run {α β : Type} (m : Op α) (f g : α → Op β) (s : Sys)
    (h : ∀ a s1, m s = (.ok a, s1) → f a s1 = g a s1) :
    Op.andThen m f s = Op.andThen m g s := by
  unfold Op.andThen
  rcases hm : m s with ⟨r, s1⟩
  cases r with
  | error e => rfl
  | ok a => exact h a s1 hm

/-- The method `InstallRelease` is its part before the store's install followed by its
part from the store's install on. -/
theorem InstallRelease_eq_prepare_store (w : World) (fuel : Nat)
    (request : InstallReleaseRequest) :
    InstallRelease w fuel request =
      Op.andThen (InstallRelease.prepare w fuel request) (fun r =>
        match r with
        | .error early => Op.ret early
        | .ok chartRequested => InstallRelease.store w request chartRequested) := by
  funext s
  unfold InstallRelease InstallRelease.prepare InstallRelease.store
  simp only [Op.bind_eq, Op.pure_eq, Op.andThen_assoc, Op.ret_andThen, Op.call_andThen,
    Op.ite_andThen, cmForChart]
  split
  · rfl
  split
  · rfl
  apply Op.andThen_congr_run
  intro loaded s1 _
  cases loaded with
  | error e => rfl
  | ok chartLoaded =>
    simp only [Op.andThen_assoc, Op.ite_andThen, Op.ret_andThen]
    apply Op.andThen_congr_run
    intro valuesMap s2 _
    split
    · rfl
    split
    · rfl
    apply Op.andThen_congr_run
    intro rendered s3 _
    split
    · rfl
    apply Op.andThen_congr_run
    intro labeled s4 _
    cases labeled with
    | error e => rfl
    | ok newTemplates => rfl

/-- The loop of `DeleteNamespaceReleases` makes one delete call for every release, in
order, and nothing else. -/
theorem DeleteNamespaceReleases_loop_run (w : World) :
    ∀ (releases : List release.Release) (s : Sys),
      DeleteNamespaceReleases.loop w releases s =
        (.ok (), { s with calls := (s.calls ++
            releases.map (fun rls => Call.DeleteRelease rls.Name true)) })
  | [], s => by
    simp [DeleteNamespaceReleases.loop, Op.pure_eq, Op.ret]
  | rls :: rest, s => by
    unfold DeleteNamespaceReleases.loop
    simp only [Op.bind_eq, Op.call_andThen]
    rw [DeleteNamespaceReleases_loop_run w rest]
    simp

/-- A successful run of `renderManifests`: the three calls it has made, the answers
they got, and the buffer it returns. -/
theorem renderManifests_success (w : World) (namespace_ : String) (c : Chart)
    (releaseName values : String) (revision : Int) (s s1 : Sys)
    (hooks : List release.Hook) (doc : Option String)
    (h : renderManifests w namespace_ c releaseName values revision s =
      (.ok (hooks, doc, none), s1)) :
    ∃ (allFiles : List (String × String)) (manifests : List tiller.Manifest),
      w.GetDiscoveryClient s.calls = none ∧
      w.Render (s.calls ++ [Call.GetDiscoveryClient]) c namespace_ releaseName values revision
        = .ok allFiles ∧
      w.sortManifests
        (s.calls ++ [Call.GetDiscoveryClient,
          Call.Render c namespace_ releaseName values revision])
        (allFiles.filter (fun kv => !strings.HasSuffix kv.1 notesFileSuffix))
        = .ok (hooks, manifests) ∧
      doc = some (manifests.foldl
        (fun b m => b ++ ("\n---\n# Source: " ++ m.Name ++ "\n") ++ m.Content) "") ∧
      s1 = { s with calls := (s.calls ++ [Call.GetDiscoveryClient,
        Call.Render c namespace_ releaseName values revision,
        Call.sortManifests
          (allFiles.filter (fun kv => !strings.HasSuffix kv.1 notesFileSuffix))]) } := by
  unfold renderManifests at h
  simp only [Op.bind_eq, Op.pure_eq, Op.call_andThen] at h
  cases hd : w.GetDiscoveryClient s.calls with
  | some e =>
    simp only [hd, Option.isSome_some, if_true, Op.ret] at h
    injection h with h1 _
    injection h1 with h1
    injection h1 with _ h1
    injection h1 with _ h1
    cases h1
  | none =>
    simp only [hd, Option.isSome_none, Bool.false_eq_true, if_false, Op.ret_andThen,
      Op.call_andThen] at h
    cases hr : w.Render (s.calls ++ [Call.GetDiscoveryClient]) c namespace_ releaseName values
        revision with
    | error e =>
      simp only [hr, Op.ret] at h
      injection h with h1 _
      injection h1 with h1
      injection h1 with _ h1
      injection h1 with _ h1
      cases h1
    | ok allFiles =>
      simp only [hr, Op.call_andThen, List.append_assoc, List.singleton_append] at h
      cases hs : w.sortManifests
          (s.calls ++ [Call.GetDiscoveryClient,
            Call.Render c namespace_ releaseName values revision])
          (allFiles.filter (fun kv => !strings.HasSuffix kv.1 notesFileSuffix)) with
      | error e =>
        simp only [hs, Op.ret] at h
        injection h with h1 _
        injection h1 with h1
        injection h1 with _ h1
        injection h1 with _ h1
        cases h1
      | ok sorted =>
        rcases sorted with ⟨hooks1, manifests⟩
        simp only [hs, Op.ret] at h
        injection h with h1 h2
        injection h1 with h1
        injection h1 with h3 h1
        injection h1 with h4 _
        refine ⟨allFiles, manifests, rfl, rfl, ?_, h4.symm, ?_⟩
        · subst h3
          exact hs
        · rw [← h2]
          simp

/-- The conversion `int32` leaves a value of the range unchanged. -/
theorem int32_of_range (n : Int) (h1 : -2 ^ 31 ≤ n) (h2 : n < 2 ^ 31) : int32 n = n := by
  unfold int32
  omega

/-- A run of `getHelmRelease` on a release: one lookup of its resources. -/
theorem getHelmRelease_some (w : World) (rel : release.Release) (s : Sys) :
    getHelmRelease w (some rel) s =
      (.ok (match w.BuildUnstructured s.calls rel.Namespace rel.Manifest with
            | .error b => (none, some ("get resource: " ++ ("build unstructured: " ++ b)))
            | .ok resources =>
              (some
                { Name := rel.Name, Revision := rel.Version, Namespace := rel.Namespace,
                  Status := rel.Status, ChartName := rel.Chart.Metadata.Name,
                  ChartVersion := rel.Chart.Metadata.Version, Manifest := rel.Manifest,
                  Hooks := releaseHooksOf rel, Resources := resources,
                  Config := rel.Config.Raw, Commit := "" }, none)),
       { s with calls := s.calls ++ [Call.BuildUnstructured rel.Namespace rel.Manifest] }) := by
  unfold getHelmRelease GetResources
  simp only [Op.bind_eq, Op.pure_eq, Op.andThen_assoc, Op.call_andThen]
  cases w.BuildUnstructured s.calls rel.Namespace rel.Manifest <;> rfl

/-- A run of `DeleteRelease`: its first call is the delete with purge, it makes no
second one, and it aborts only when the store answers neither a response nor an
error. -/
theorem DeleteRelease_run (w : World) (request : DeleteReleaseRequest) (s : Sys) :
    ∃ rest : List Call,
      (DeleteRelease w request s).2 =
        { s with calls := (s.calls ++ Call.DeleteRelease request.ReleaseName true :: rest) } ∧
      (∀ c ∈ rest, c.isDeletePurge = false) ∧
      (w.DeleteRelease s.calls request.ReleaseName true ≠ (none, none) →
        ∃ r, (DeleteRelease w request s).1 = .ok r) := by
  unfold DeleteRelease
  simp only [Op.bind_eq, Op.pure_eq, Op.call_andThen]
  rcases hd : w.DeleteRelease s.calls request.ReleaseName true with ⟨resp, err⟩
  cases err with
  | some e => exact ⟨[], rfl, by simp, fun _ => ⟨_, rfl⟩⟩
  | none =>
    cases resp with
    | none => exact ⟨[], rfl, by simp, fun h => absurd rfl h⟩
    | some rel =>
      simp only []
      rw [Op.andThen_of_eq _ _ _ _ _ (getHelmRelease_some w rel _)]
      refine ⟨[Call.BuildUnstructured rel.Namespace rel.Manifest], ?_, ?_, fun _ => ?_⟩
      · split <;> simp [Op.ret, Op.ret_andThen]
      · intro c hc
        simp only [List.mem_singleton] at hc
        rw [hc]
        rfl
      · split <;> exact ⟨_, rfl⟩

/-- When the preparation reaches the store, `InstallRelease` goes on with the part
from the store's install on. -/
theorem InstallRelease_of_prepared (w : World) (fuel : Nat) (request : InstallReleaseRequest)
    (s s1 : Sys) (chartRequested : Chart)
    (hprep : InstallRelease.prepare w fuel request s = (.ok (.ok chartRequested), s1)) :
    InstallRelease w fuel request s = InstallRelease.store w request chartRequested s1 := by
  rw [InstallRelease_eq_prepare_store, Op.andThen_of_eq _ _ _ _ _ hprep]

/-- A sequence that ends normally: its first part has ended normally. -/
theorem Op.andThen_ok_inv {α β : Type} (m : Op α) (f : α → Op β) (s s2 : Sys) (b : β)
    (h : Op.andThen m f s = (.ok b, s2)) :
    ∃ a s1, m s = (.ok a, s1) ∧ f a s1 = (.ok b, s2) := by
  unfold Op.andThen at h
  rcases hm : m s with ⟨r, s1⟩
  rw [hm] at h
  cases r with
  | error e =>
    simp only at h
    injection h with h _
    cases h
  | ok a => exact ⟨a, s1, rfl, h⟩

/-- The state after the loop of `InstallRelease` over the documents, when it ends
with templates: one label call per document, in order; one new template per
document, named by its position, that holds the output of its label call as
`replaceValue` restores it with the map that the documents before it have left. -/
theorem InstallRelease_label_ok (w : World) (fuel : Nat) (request : InstallReleaseRequest) :
    ∀ (docs : List String) (index : Nat) (valuesMap : List (String × String))
      (acc : List Template) (s s1 : Sys) (templates : List Template),
      InstallRelease.label w fuel request index docs valuesMap acc s =
        (.ok (.ok templates), s1) →
      s1 = { s with calls := (s.calls ++ docs.map (fun d =>
        Call.LabelObjects request.Namespace request.ImagePullSecrets d request.ReleaseName
          request.ChartName request.ChartVersion)) } ∧
      ∃ (new : List Template) (maps : List (List (String × String))),
        templates = acc ++ new ∧ new.length = docs.length ∧
        maps[0]? = some valuesMap ∧
        ∀ (i : Nat) (d : String), docs[i]? = some d →
          ∃ (t : Template) (labeled : String) (vm vm1 : List (String × String)),
            new[i]? = some t ∧ maps[i]? = some vm ∧ maps[i + 1]? = some vm1 ∧
            t.Name = (if index + i = 0 then request.ReleaseName
              else "hook" ++ strconv.Itoa ((index + i : Nat) : Int)) ∧
            w.LabelObjects
              (s.calls ++ (docs.take i).map (fun d =>
                Call.LabelObjects request.Namespace request.ImagePullSecrets d
                  request.ReleaseName request.ChartName request.ChartVersion))
              request.Namespace request.ImagePullSecrets d request.ReleaseName
              request.ChartName request.ChartVersion = .ok labeled ∧
            replaceValue fuel labeled vm = .ok (t.Data, vm1)
  | [], index, valuesMap, acc, s, s1, templates, h => by
    unfold InstallRelease.label at h
    simp only [Op.pure_eq, Op.ret] at h
    injection h with h1 h2
    injection h1 with h1
    injection h1 with h1
    refine ⟨by simp [← h2], [], [valuesMap], by simp [h1], rfl, rfl, ?_⟩
    intro i d hd
    simp at hd
  | d :: rest, index, valuesMap, acc, s, s1, templates, h => by
    unfold InstallRelease.label at h
    simp only [Op.bind_eq, Op.pure_eq, Op.call_andThen] at h
    cases hl : w.LabelObjects s.calls request.Namespace request.ImagePullSecrets d
        request.ReleaseName request.ChartName request.ChartVersion with
    | error e =>
      simp only [hl, Op.ret] at h
      injection h with h1 _
      injection h1 with h1
      cases h1
    | ok labeled =>
      simp only [hl] at h
      obtain ⟨restored, s2, hlift, hrec⟩ := Op.andThen_ok_inv _ _ _ _ _ h
      cases hrv : replaceValue fuel labeled valuesMap with
      | error a =>
        simp only [hrv, Op.lift] at hlift
        injection hlift with h1 _
        cases h1
      | ok pair =>
        simp only [hrv, Op.lift] at hlift
        injection hlift with h1 h2
        injection h1 with h1
        subst h1
        subst h2
        generalize ht0 : (if index = 0 then
            ({ Name := request.ReleaseName, Data := pair.1 } : Template)
          else { Name := "hook" ++ strconv.Itoa (index : Int), Data := pair.1 }) = t0 at hrec
        obtain ⟨hs1, new, maps, hnew, hlen, hmaps, hall⟩ :=
          InstallRelease_label_ok w fuel request rest (index + 1) _ _ _ _ _ hrec
        refine ⟨by simp [hs1], t0 :: new, valuesMap :: maps, by simp [hnew], by simp [hlen],
          by simp, ?_⟩
        intro i d1 hd1
        cases i with
        | zero =>
          simp only [List.getElem?_cons_zero, Option.some.injEq] at hd1
          subst hd1
          refine ⟨t0, labeled, valuesMap, pair.2, by simp, by simp, by simpa using hmaps, ?_,
            by simpa using hl, ?_⟩
          · subst ht0
            by_cases h0 : index = 0 <;> simp [h0]
          · subst ht0
            by_cases h0 : index = 0 <;> simp [h0, hrv]
        | succ j =>
          simp only [List.getElem?_cons_succ] at hd1
          obtain ⟨t, labeled1, vm, vm1, ht, hvm, hvm1, hname, hlab, hrest⟩ := hall j d1 hd1
          refine ⟨t, labeled1, vm, vm1, by simpa using ht, by simpa using hvm,
            by simpa using hvm1, ?_, ?_, hrest⟩
          · rw [hname]
            have e1 : index + 1 + j = index + (j + 1) := by omega
            rw [e1]
          · simpa using hlab

/-! ## The release engine: claims C11 to C20 -/

/-- C17 (the code at the failing input): the store's list call fails and answers no
response; `ListRelease` ends in a nil-pointer panic, where the claim says that it
returns an empty list and a nil error. -/
theorem ListRelease_panics_on_list_error :
    scenario.unlistable.ListReleases [] "proj" = (none, some "connection refused") ∧
    (ListRelease scenario.unlistable "proj" Sys.init).1 =
      .error (.panic "nil pointer dereference") :=
  ⟨rfl, rfl⟩

/-- The two cases of `DeleteNamespaceReleases` in which the listing answers a response
or an error: after a listing with a response it makes exactly one delete with purge for
every listed release, in the order of the listing and whatever the deletions answer,
and returns nil; if the listing fails it returns that error and makes no delete. -/
theorem DeleteNamespaceReleases_purges_all (w : World) (namespaces : String) (s : Sys) :
    (∀ releases : List release.Release,
      w.ListReleases s.calls namespaces = (some releases, none) →
      DeleteNamespaceReleases w namespaces s =
        (.ok none,
         { s with calls := (s.calls ++ [Call.ListReleases namespaces] ++
             releases.map (fun rls => Call.DeleteRelease rls.Name true)) })) ∧
    (∀ (resp : Option (List release.Release)) (e : String),
      w.ListReleases s.calls namespaces = (resp, some e) →
      DeleteNamespaceReleases w namespaces s =
        (.ok (some e), { s with calls := s.calls ++ [Call.ListReleases namespaces] })) := by
  constructor
  · intro releases hlist
    unfold DeleteNamespaceReleases
    simp only [Op.bind_eq, Op.pure_eq, Op.call_andThen, hlist, Option.isSome_none,
      Bool.false_eq_true, if_false, Op.ret_andThen]
    rw [Op.andThen_of_eq _ _ _ _ _ (DeleteNamespaceReleases_loop_run w releases _)]
    simp [Op.ret]
  · intro resp e hlist
    unfold DeleteNamespaceReleases
    simp only [Op.bind_eq, Op.call_andThen, hlist, Option.isSome_some, if_true, Op.pure_eq]
    rfl

/-- A listing of two releases, and a listing that fails. -/
theorem DeleteNamespaceReleases_purges_all_witness :
    DeleteNamespaceReleases scenario.listing "proj" Sys.init =
      (.ok none,
       { Sys.init with calls := ([] ++ [Call.ListReleases "proj"] ++
           [scenario.stored "proj" "replicas: 1",
            { scenario.stored "proj" "replicas: 3" with Name := "db" }].map
             (fun rls => Call.DeleteRelease rls.Name true)) }) ∧
    DeleteNamespaceReleases scenario.unlistable "proj" Sys.init =
      (.ok (some "connection refused"),
       { Sys.init with calls := [] ++ [Call.ListReleases "proj"] }) :=
  ⟨(DeleteNamespaceReleases_purges_all scenario.listing "proj" Sys.init).1 _ rfl,
   (DeleteNamespaceReleases_purges_all scenario.unlistable "proj" Sys.init).2 _ _ rfl⟩

/-- C18 (the code at the failing input): the namespace holds no release, and the
store's list call answers neither a response nor an error.  `DeleteNamespaceReleases`
reads the releases of the nil response and ends in a nil-pointer panic after the list
call, where the claim says that it returns nil. -/
theorem DeleteNamespaceReleases_panics_on_empty_listing :
    scenario.absent.ListReleases [] "proj" = (none, none) ∧
    (DeleteNamespaceReleases scenario.absent "proj" Sys.init).1 =
      .error (.panic "nil pointer dereference") ∧
    (DeleteNamespaceReleases scenario.absent "proj" Sys.init).2.calls =
      [Call.ListReleases "proj"] :=
  ⟨rfl, rfl, rfl⟩

/-- C16: when no release with the requested name exists, `PreUpgradeRelease` is
`PreInstallRelease` on the install request with the upgrade request's fields (the
commit plays no part); when one exists and the chart loads, it renders at the revision
`int32 (version + 1)`, which is `version + 1` below the largest `int32`, and returns one
`ReleaseHook` per rendered hook, in order, with name, manifest, weight and kind copied
and the request's release name, having called neither the label injector nor a store
mutation. -/
theorem PreUpgradeRelease_hooks (w : World) (request : UpgradeReleaseRequest) (s : Sys) :
    (∀ (err : Option String) (commit : String),
      w.ReleaseContent s.calls request.ReleaseName 0 = (none, err) →
      err.any (fun e => !strings.Contains e (ErrReleaseNotFound w request.ReleaseName))
        = false →
      PreUpgradeRelease w request s =
        PreInstallRelease w
          { RepoURL := request.RepoURL, ChartName := request.ChartName,
            ChartVersion := request.ChartVersion, Values := request.Values,
            ReleaseName := request.ReleaseName, Namespace := request.Namespace,
            ImagePullSecrets := request.ImagePullSecrets, Commit := commit }
          { s with calls := s.calls ++ [Call.ReleaseContent request.ReleaseName 0] }) ∧
    (∀ (rel : release.Release) (chartRequested : Chart) (rlsHooks : List release.Hook)
        (doc : Option String) (s3 : Sys),
      w.ReleaseContent s.calls request.ReleaseName 0 = (some rel, none) →
      w.getChart (s.calls ++ [Call.ReleaseContent request.ReleaseName 0])
        request.RepoURL request.ChartName request.ChartVersion = .ok chartRequested →
      renderManifests w request.Namespace chartRequested request.ReleaseName request.Values
          (int32 (rel.Version + 1))
          { s with calls := s.calls ++ [Call.ReleaseContent request.ReleaseName 0,
              Call.getChart request.RepoURL request.ChartName request.ChartVersion] }
        = (.ok (rlsHooks, doc, none), s3) →
      PreUpgradeRelease w request s =
        (.ok (rlsHooks.map (fun hook =>
            { Name := hook.Name, Manifest := hook.Manifest, Weight := hook.Weight,
              Kind := hook.Kind, ReleaseName := request.ReleaseName }), none), s3) ∧
      Call.Render chartRequested request.Namespace request.ReleaseName request.Values
        (int32 (rel.Version + 1)) ∈ s3.calls ∧
      (-2 ^ 31 ≤ rel.Version + 1 → rel.Version + 1 < 2 ^ 31 →
        int32 (rel.Version + 1) = rel.Version + 1) ∧
      ∀ c ∈ s3.calls.drop s.calls.length,
        c.isLabelInjection = false ∧ c.isStoreMutation = false) := by
  constructor
  · intro err commit hstore herr
    unfold PreUpgradeRelease
    simp only [Op.bind_eq, Op.call_andThen, hstore, herr, Bool.false_eq_true, if_false]
    rfl
  · intro rel chartRequested rlsHooks doc s3 hstore hchart hrender
    refine ⟨?_, ?_, int32_of_range _, ?_⟩
    · unfold PreUpgradeRelease
      simp only [Op.bind_eq, Op.pure_eq, Op.call_andThen, hstore, Option.any_none,
        Bool.false_eq_true, if_false, Op.ret_andThen]
      simp only [Op.call_andThen, hchart, List.append_assoc, List.singleton_append]
      rw [Op.andThen_of_eq _ _ _ _ _ hrender]
      simp [Op.ret, Op.ret_andThen, releaseHooksFor]
    · obtain ⟨allFiles, manifests, _, _, _, _, hs3⟩ := renderManifests_success _ _ _ _ _ _ _ _ _ _
        hrender
      rw [hs3]
      simp
    · obtain ⟨allFiles, manifests, _, _, _, _, hs3⟩ := renderManifests_success _ _ _ _ _ _ _ _ _ _
        hrender
      rw [hs3]
      intro c hc
      simp only [List.append_assoc, List.drop_left, List.mem_cons, List.mem_singleton,
        List.not_mem_nil, or_false, List.cons_append, List.nil_append] at hc
      rcases hc with rfl | rfl | rfl | rfl | rfl <;> exact ⟨rfl, rfl⟩

/-- Witness of C16: an empty store, and a store that holds the release at version 1. -/
theorem PreUpgradeRelease_hooks_witness :
    PreUpgradeRelease scenario.ready scenario.upgradeRequest Sys.init =
      PreInstallRelease scenario.ready scenario.installRequest
        { Sys.init with calls := [] ++ [Call.ReleaseContent "app" 0] } ∧
    (PreUpgradeRelease scenario.upgradable scenario.upgradeRequest Sys.init =
        (.ok ([scenario.migrate].map (fun hook =>
            { Name := hook.Name, Manifest := hook.Manifest, Weight := hook.Weight,
              Kind := hook.Kind, ReleaseName := "app" }), none),
         { calls := [Call.ReleaseContent "app" 0,
             Call.getChart "http://charts.example" "web" "1.0.0",
             Call.GetDiscoveryClient,
             Call.Render scenario.webChart "proj" "app" "replicas: 1" 2,
             Call.sortManifests [("web/templates/deployment.yaml", "kind: Deployment")]],
           commandChan := [], responseChan := [] }) ∧
      Call.Render scenario.webChart "proj" "app" "replicas: 1" (int32 (1 + 1)) ∈
        [Call.ReleaseContent "app" 0,
         Call.getChart "http://charts.example" "web" "1.0.0",
         Call.GetDiscoveryClient,
         Call.Render scenario.webChart "proj" "app" "replicas: 1" 2,
         Call.sortManifests [("web/templates/deployment.yaml", "kind: Deployment")]] ∧
      (-2 ^ 31 ≤ (1 : Int) + 1 → (1 : Int) + 1 < 2 ^ 31 → int32 (1 + 1) = 1 + 1) ∧
      ∀ c ∈ [Call.ReleaseContent "app" 0,
             Call.getChart "http://charts.example" "web" "1.0.0",
             Call.GetDiscoveryClient,
             Call.Render scenario.webChart "proj" "app" "replicas: 1" 2,
             Call.sortManifests [("web/templates/deployment.yaml", "kind: Deployment")]].drop 0,
        c.isLabelInjection = false ∧ c.isStoreMutation = false) :=
  ⟨(PreUpgradeRelease_hooks scenario.ready scenario.upgradeRequest Sys.init).1
      (some "release: \"app\" not found") "c1" rfl (by decide),
   (PreUpgradeRelease_hooks scenario.upgradable scenario.upgradeRequest Sys.init).2
      (scenario.stored "proj" "replicas: 1") scenario.webChart [scenario.migrate]
      (some "\n---\n# Source: web/templates/deployment.yaml\nkind: Deployment")
      { calls := [Call.ReleaseContent "app" 0,
          Call.getChart "http://charts.example" "web" "1.0.0",
          Call.GetDiscoveryClient,
          Call.Render scenario.webChart "proj" "app" "replicas: 1" 2,
          Call.sortManifests [("web/templates/deployment.yaml", "kind: Deployment")]],
        commandChan := [], responseChan := [] }
      rfl rfl rfl⟩

/-- C13 (the code at the failing input): the store is empty and the upgrade request
carries the commit `c1`.  `UpgradeRelease` returns the installed release with an empty
commit, whereas `InstallRelease` on the install request that carries the commit
returns it with the commit `c1`. -/
theorem UpgradeRelease_delegation_drops_commit :
    scenario.upgradeRequest.Commit = "c1" ∧
    (UpgradeRelease scenario.ready 3 scenario.upgradeRequest Sys.init).1 =
      .ok (some
        { Name := "app", Revision := 1, Namespace := "proj", Status := "DEPLOYED",
          ChartName := "web", ChartVersion := "1.0.0", Manifest := "kind: Deployment",
          Hooks := [{ Name := "migrate", Manifest := "", Weight := 0, Kind := "Job",
                      ReleaseName := "" }],
          Resources := [], Config := "replicas: 1", Commit := "" }, none) ∧
    (InstallRelease scenario.ready 3 scenario.installRequest
        { Sys.init with calls := [Call.ReleaseContent "app" 0] }).1 =
      .ok (some
        { Name := "app", Revision := 1, Namespace := "proj", Status := "DEPLOYED",
          ChartName := "web", ChartVersion := "1.0.0", Manifest := "kind: Deployment",
          Hooks := [{ Name := "migrate", Manifest := "", Weight := 0, Kind := "Job",
                      ReleaseName := "" }],
          Resources := [], Config := "replicas: 1", Commit := "c1" }, none) :=
  ⟨rfl, rfl, rfl⟩

/-- The branches of `InstallRelease` after an install that the store fails, when the
preparation has reached the store.  With no response `InstallRelease` makes a delete
with purge of the release name and returns the install error; with a response whose
resources cannot be looked up it makes the delete and returns the lookup error; with a
response whose resources can be looked up it returns that release with the install
error and makes no delete.  The store client of the code answers no response when it
answers an error, so that the first branch is the one that is reached with it. -/
theorem InstallRelease_store_failure (w : World) (fuel : Nat)
    (request : InstallReleaseRequest) (s s1 : Sys) (chartRequested : Chart)
    (resp : Option release.Release) (e : String)
    (hprep : InstallRelease.prepare w fuel request s = (.ok (.ok chartRequested), s1))
    (hstore : w.InstallReleaseFromChart s1.calls chartRequested request.Namespace
      request.Values request.ReleaseName = (resp, some e)) :
    (resp = none →
      ∃ rest : List Call,
        (InstallRelease w fuel request s).2.calls = s1.calls ++
          [Call.InstallReleaseFromChart chartRequested request.Namespace request.Values
            request.ReleaseName,
           Call.DeleteRelease request.ReleaseName true] ++ rest ∧
        (w.DeleteRelease
            (s1.calls ++ [Call.InstallReleaseFromChart chartRequested request.Namespace
              request.Values request.ReleaseName])
            request.ReleaseName true ≠ (none, none) →
          (InstallRelease w fuel request s).1 =
            .ok (none, some ("install release " ++ request.ReleaseName ++ ": " ++ e)))) ∧
    (∀ (rel : release.Release) (b : String), resp = some rel →
      w.BuildUnstructured
        (s1.calls ++ [Call.InstallReleaseFromChart chartRequested request.Namespace
          request.Values request.ReleaseName])
        rel.Namespace rel.Manifest = .error b →
      ∃ rest : List Call,
        (InstallRelease w fuel request s).2.calls = s1.calls ++
          [Call.InstallReleaseFromChart chartRequested request.Namespace request.Values
            request.ReleaseName,
           Call.BuildUnstructured rel.Namespace rel.Manifest,
           Call.DeleteRelease request.ReleaseName true] ++ rest ∧
        (w.DeleteRelease
            (s1.calls ++ [Call.InstallReleaseFromChart chartRequested request.Namespace
              request.Values request.ReleaseName,
              Call.BuildUnstructured rel.Namespace rel.Manifest])
            request.ReleaseName true ≠ (none, none) →
          (InstallRelease w fuel request s).1 =
            .ok (none, some ("get resource: " ++ ("build unstructured: " ++ b))))) ∧
    (∀ (rel : release.Release) (resources : List ReleaseResource), resp = some rel →
      w.BuildUnstructured
        (s1.calls ++ [Call.InstallReleaseFromChart chartRequested request.Namespace
          request.Values request.ReleaseName])
        rel.Namespace rel.Manifest = .ok resources →
      (InstallRelease w fuel request s).1 =
        .ok (some
          { Name := rel.Name, Revision := rel.Version, Namespace := rel.Namespace,
            Status := rel.Status, ChartName := rel.Chart.Metadata.Name,
            ChartVersion := rel.Chart.Metadata.Version, Manifest := rel.Manifest,
            Hooks := releaseHooksOf rel, Resources := resources,
            Config := rel.Config.Raw, Commit := "" },
          some ("install release " ++ request.ReleaseName ++ ": " ++ e)) ∧
      (InstallRelease w fuel request s).2.calls = s1.calls ++
        [Call.InstallReleaseFromChart chartRequested request.Namespace request.Values
          request.ReleaseName,
         Call.BuildUnstructured rel.Namespace rel.Manifest]) := by
  rw [InstallRelease_of_prepared w fuel request s s1 chartRequested hprep]
  unfold InstallRelease.store
  simp only [Op.bind_eq, Op.pure_eq, Op.call_andThen, hstore]
  refine ⟨?_, ?_, ?_⟩
  · intro hresp
    subst hresp
    simp only [Option.isSome_none, Bool.false_eq_true, if_false, Op.ret_andThen]
    obtain ⟨rest, hstate, _, hok⟩ := DeleteRelease_run w { ReleaseName := request.ReleaseName }
      { s1 with calls := s1.calls ++ [Call.InstallReleaseFromChart chartRequested
        request.Namespace request.Values request.ReleaseName] }
    refine ⟨rest, ?_, ?_⟩
    · unfold Op.andThen
      rcases hrun : DeleteRelease w { ReleaseName := request.ReleaseName }
        { s1 with calls := s1.calls ++ [Call.InstallReleaseFromChart chartRequested
          request.Namespace request.Values request.ReleaseName] } with ⟨r, s2⟩
      rw [hrun] at hstate
      simp only at hstate
      cases r <;> simp [hstate, Op.ret]
    · intro hne
      obtain ⟨r, hr⟩ := hok hne
      unfold Op.andThen
      rcases hrun : DeleteRelease w { ReleaseName := request.ReleaseName }
        { s1 with calls := s1.calls ++ [Call.InstallReleaseFromChart chartRequested
          request.Namespace request.Values request.ReleaseName] } with ⟨r1, s2⟩
      rw [hrun] at hr
      simp only at hr
      subst hr
      rfl
  · intro rel b hresp hlookup
    subst hresp
    simp only [Option.isSome_some, if_true]
    rw [Op.andThen_of_eq _ _ _ _ _ (getHelmRelease_some w rel _)]
    simp only [hlookup, Option.isSome_some, if_true]
    obtain ⟨rest, hstate, _, hok⟩ := DeleteRelease_run w { ReleaseName := request.ReleaseName }
      { s1 with calls := s1.calls ++ [Call.InstallReleaseFromChart chartRequested
        request.Namespace request.Values request.ReleaseName] ++
        [Call.BuildUnstructured rel.Namespace rel.Manifest] }
    refine ⟨rest, ?_, ?_⟩
    · unfold Op.andThen
      rcases hrun : DeleteRelease w { ReleaseName := request.ReleaseName }
        { s1 with calls := s1.calls ++ [Call.InstallReleaseFromChart chartRequested
          request.Namespace request.Values request.ReleaseName] ++
          [Call.BuildUnstructured rel.Namespace rel.Manifest] } with ⟨r, s2⟩
      rw [hrun] at hstate
      simp only at hstate
      cases r <;> simp [hstate, Op.ret]
    · intro hne
      obtain ⟨r, hr⟩ := hok (by simpa using hne)
      unfold Op.andThen
      rcases hrun : DeleteRelease w { ReleaseName := request.ReleaseName }
        { s1 with calls := s1.calls ++ [Call.InstallReleaseFromChart chartRequested
          request.Namespace request.Values request.ReleaseName] ++
          [Call.BuildUnstructured rel.Namespace rel.Manifest] } with ⟨r1, s2⟩
      rw [hrun] at hr
      simp only at hr
      subst hr
      rfl
  · intro rel resources hresp hlookup
    subst hresp
    simp only [Option.isSome_some, if_true]
    rw [Op.andThen_of_eq _ _ _ _ _ (getHelmRelease_some w rel _)]
    simp only [hlookup, Option.isSome_none, Bool.false_eq_true, if_false, Op.ret_andThen]
    exact ⟨rfl, by simp [Op.ret]⟩

/-- The branches at work: a store that answers nothing, a store that answers with a
release whose resources cannot be looked up, and one whose resources can. -/
theorem InstallRelease_store_failure_witness :
    (∃ rest : List Call,
      (InstallRelease scenario.refusing 3 scenario.installRequest Sys.init).2.calls =
        scenario.preparedCalls ++
          [Call.InstallReleaseFromChart scenario.labeledChart "proj" "replicas: 1" "app",
           Call.DeleteRelease "app" true] ++ rest ∧
      (scenario.refusing.DeleteRelease
          (scenario.preparedCalls ++
            [Call.InstallReleaseFromChart scenario.labeledChart "proj" "replicas: 1" "app"])
          "app" true ≠ (none, none) →
        (InstallRelease scenario.refusing 3 scenario.installRequest Sys.init).1 =
          .ok (none, some ("install release " ++ "app" ++ ": " ++ "timeout")))) ∧
    (∃ rest : List Call,
      (InstallRelease scenario.halfwayBlind 3 scenario.installRequest Sys.init).2.calls =
        scenario.preparedCalls ++
          [Call.InstallReleaseFromChart scenario.labeledChart "proj" "replicas: 1" "app",
           Call.BuildUnstructured "proj" "kind: Deployment",
           Call.DeleteRelease "app" true] ++ rest ∧
      (scenario.halfwayBlind.DeleteRelease
          (scenario.preparedCalls ++
            [Call.InstallReleaseFromChart scenario.labeledChart "proj" "replicas: 1" "app",
             Call.BuildUnstructured "proj" "kind: Deployment"])
          "app" true ≠ (none, none) →
        (InstallRelease scenario.halfwayBlind 3 scenario.installRequest Sys.init).1 =
          .ok (none, some ("get resource: " ++ ("build unstructured: " ++ "no cluster"))))) ∧
    ((InstallRelease scenario.halfway 3 scenario.installRequest Sys.init).1 =
        .ok (some
          { Name := "app", Revision := 1, Namespace := "proj", Status := "DEPLOYED",
            ChartName := "web", ChartVersion := "1.0.0", Manifest := "kind: Deployment",
            Hooks := releaseHooksOf
              (scenario.installed scenario.labeledChart "proj" "replicas: 1" "app"),
            Resources := [], Config := "replicas: 1", Commit := "" },
          some ("install release " ++ "app" ++ ": " ++ "timeout")) ∧
      (InstallRelease scenario.halfway 3 scenario.installRequest Sys.init).2.calls =
        scenario.preparedCalls ++
          [Call.InstallReleaseFromChart scenario.labeledChart "proj" "replicas: 1" "app",
           Call.BuildUnstructured "proj" "kind: Deployment"]) :=
  ⟨(InstallRelease_store_failure scenario.refusing 3 scenario.installRequest Sys.init
      { calls := scenario.preparedCalls, commandChan := [], responseChan := [] }
      scenario.labeledChart none "timeout" rfl rfl).1 rfl,
   (InstallRelease_store_failure scenario.halfwayBlind 3 scenario.installRequest Sys.init
      { calls := scenario.preparedCalls, commandChan := [], responseChan := [] }
      scenario.labeledChart
      (some (scenario.installed scenario.labeledChart "proj" "replicas: 1" "app"))
      "timeout" rfl rfl).2.1 _ "no cluster" rfl rfl,
   (InstallRelease_store_failure scenario.halfway 3 scenario.installRequest Sys.init
      { calls := scenario.preparedCalls, commandChan := [], responseChan := [] }
      scenario.labeledChart
      (some (scenario.installed scenario.labeledChart "proj" "replicas: 1" "app"))
      "timeout" rfl rfl).2.2 _ [] rfl rfl⟩

/-- C11: the store client of the code, Helm's `*helm.Client`, answers no response
whenever it answers an error (hypothesis `hclient`).  With such a store, when the
preparation has reached the store and the store's install returns an error,
`InstallRelease` makes a delete with purge of the release name right after the install
call and before it returns, in every case; what it returns is no release and the
install error (the delete's own answer is not looked at, as long as the tiller answers
the delete with a response or an error). -/
theorem InstallRelease_purges_on_store_error (w : World) (fuel : Nat)
    (request : InstallReleaseRequest) (s s1 : Sys) (chartRequested : Chart)
    (resp : Option release.Release) (e : String)
    (hclient : ∀ (calls : List Call) (c : Chart) (ns values name : String),
      (w.InstallReleaseFromChart calls c ns values name).2 ≠ none →
      (w.InstallReleaseFromChart calls c ns values name).1 = none)
    (hprep : InstallRelease.prepare w fuel request s = (.ok (.ok chartRequested), s1))
    (hstore : w.InstallReleaseFromChart s1.calls chartRequested request.Namespace
      request.Values request.ReleaseName = (resp, some e)) :
    ∃ rest : List Call,
      (InstallRelease w fuel request s).2.calls = s1.calls ++
        [Call.InstallReleaseFromChart chartRequested request.Namespace request.Values
          request.ReleaseName,
         Call.DeleteRelease request.ReleaseName true] ++ rest ∧
      (w.DeleteRelease
          (s1.calls ++ [Call.InstallReleaseFromChart chartRequested request.Namespace
            request.Values request.ReleaseName])
          request.ReleaseName true ≠ (none, none) →
        (InstallRelease w fuel request s).1 =
          .ok (none, some ("install release " ++ request.ReleaseName ++ ": " ++ e))) := by
  have hresp : resp = none := by
    have h := hclient s1.calls chartRequested request.Namespace request.Values
      request.ReleaseName
    rw [hstore] at h
    exact h (by simp)
  exact (InstallRelease_store_failure w fuel request s s1 chartRequested resp e hprep
    hstore).1 hresp

/-- C11 at work: the store of the world `refusing` fails every install with the error
`timeout` and no response; the calls of `InstallRelease` are those of the preparation,
the install and the delete with purge of `app`, and the install error is returned. -/
theorem InstallRelease_purges_on_store_error_witness :
    (∀ (calls : List Call) (c : Chart) (ns values name : String),
      (scenario.refusing.InstallReleaseFromChart calls c ns values name).2 ≠ none →
      (scenario.refusing.InstallReleaseFromChart calls c ns values name).1 = none) ∧
    (∃ rest : List Call,
      (InstallRelease scenario.refusing 3 scenario.installRequest Sys.init).2.calls =
        scenario.preparedCalls ++
          [Call.InstallReleaseFromChart scenario.labeledChart "proj" "replicas: 1" "app",
           Call.DeleteRelease "app" true] ++ rest ∧
      (scenario.refusing.DeleteRelease
          (scenario.preparedCalls ++
            [Call.InstallReleaseFromChart scenario.labeledChart "proj" "replicas: 1" "app"])
          "app" true ≠ (none, none) →
        (InstallRelease scenario.refusing 3 scenario.installRequest Sys.init).1 =
          .ok (none, some ("install release " ++ "app" ++ ": " ++ "timeout")))) ∧
    (InstallRelease scenario.refusing 3 scenario.installRequest Sys.init).1 =
      .ok (none, some "install release app: timeout") ∧
    (InstallRelease scenario.refusing 3 scenario.installRequest Sys.init).2.calls =
      scenario.preparedCalls ++
        [Call.InstallReleaseFromChart scenario.labeledChart "proj" "replicas: 1" "app",
         Call.DeleteRelease "app" true] :=
  ⟨fun _ _ _ _ _ _ => rfl,
   InstallRelease_purges_on_store_error scenario.refusing 3 scenario.installRequest Sys.init
      { calls := scenario.preparedCalls, commandChan := [], responseChan := [] }
      scenario.labeledChart none "timeout" (fun _ _ _ _ _ _ => rfl) rfl rfl,
   rfl, rfl⟩

end helm

namespace helm

open chart

/-- A run of the loop of `UpgradeRelease` over the documents, when the label injector
answers every call: one label call per document, in order, and one new template per
document, named by its position, that holds the answer. -/
theorem UpgradeRelease_label_run (w : World) (request : UpgradeReleaseRequest) :
    ∀ (docs : List String) (index : Nat) (acc : List Template) (s : Sys),
      (∀ (i : Nat) (d : String), docs[i]? = some d →
        ∃ out, w.LabelObjects
          (s.calls ++ (docs.take i).map (fun d =>
            Call.LabelObjects request.Namespace request.ImagePullSecrets d
              request.ReleaseName request.ChartName request.ChartVersion))
          request.Namespace request.ImagePullSecrets d request.ReleaseName
          request.ChartName request.ChartVersion = .ok out) →
      ∃ new : List Template,
        UpgradeRelease.label w request index docs acc s =
          (.ok (.ok (acc ++ new)),
           { s with calls := (s.calls ++ docs.map (fun d =>
              Call.LabelObjects request.Namespace request.ImagePullSecrets d
                request.ReleaseName request.ChartName request.ChartVersion)) }) ∧
        new.length = docs.length ∧
        ∀ (i : Nat) (d : String), docs[i]? = some d →
          ∃ t : Template, new[i]? = some t ∧
            t.Name = (if index + i = 0 then request.ReleaseName
              else "hook" ++ strconv.Itoa ((index + i : Nat) : Int)) ∧
            w.LabelObjects
              (s.calls ++ (docs.take i).map (fun d =>
                Call.LabelObjects request.Namespace request.ImagePullSecrets d
                  request.ReleaseName request.ChartName request.ChartVersion))
              request.Namespace request.ImagePullSecrets d request.ReleaseName
              request.ChartName request.ChartVersion = .ok t.Data
  | [], index, acc, s, _ => by
    refine ⟨[], ?_, rfl, ?_⟩
    · unfold UpgradeRelease.label
      simp [Op.pure_eq, Op.ret]
    · intro i d hd
      simp at hd
  | d :: rest, index, acc, s, hall => by
    obtain ⟨out, hout⟩ := hall 0 d (by simp)
    simp only [List.take_zero, List.map_nil, List.append_nil] at hout
    generalize ht0 : (if index = 0 then
        ({ Name := request.ReleaseName, Data := out } : Template)
      else { Name := "hook" ++ strconv.Itoa (index : Int), Data := out }) = t0
    obtain ⟨new, hrun, hlen, hnew⟩ :=
      UpgradeRelease_label_run w request rest (index + 1) (acc ++ [t0])
        { s with calls := s.calls ++
          [Call.LabelObjects request.Namespace request.ImagePullSecrets d
            request.ReleaseName request.ChartName request.ChartVersion] }
        (by
          intro i d1 hd1
          have := hall (i + 1) d1 (by simpa using hd1)
          simpa using this)
    refine ⟨t0 :: new, ?_, by simp [hlen], ?_⟩
    · unfold UpgradeRelease.label
      simp only [Op.bind_eq, Op.pure_eq, Op.call_andThen, hout, ht0]
      rw [hrun]
      simp
    · intro i d1 hd1
      cases i with
      | zero =>
        simp only [List.getElem?_cons_zero, Option.some.injEq] at hd1
        subst hd1
        refine ⟨t0, by simp, ?_, ?_⟩
        · subst ht0
          by_cases h0 : index = 0 <;> simp [h0]
        · subst ht0
          by_cases h0 : index = 0 <;> simp [h0, hout]
      | succ j =>
        simp only [List.getElem?_cons_succ] at hd1
        obtain ⟨t, ht, hname, hlab⟩ := hnew j d1 hd1
        refine ⟨t, by simpa using ht, ?_, by simpa using hlab⟩
        rw [hname]
        have e1 : index + 1 + j = index + (j + 1) := by omega
        rw [e1]

/-- C15: the store holds a release of the requested name, the chart loads and
rendering succeeds.  When the request's chart name is `choerodon-cluster-agent`,
`UpgradeRelease` makes no call of the label injector, and the call that follows
rendering is the store's update with the chart as `ProcessRequirementsEnabled` left
it, its templates and dependencies included.  For every other chart name, when the
label injector answers every call, `UpgradeRelease` calls it once per rendered
document, in document order, and then calls the store's update with a chart that has
one template per document, holding the label injector's answer for it, and no
dependencies. -/
theorem UpgradeRelease_agent_chart_unlabeled (w : World) (fuel : Nat)
    (request : UpgradeReleaseRequest) (s s3 : Sys) (rel : release.Release)
    (chartLoaded : Chart) (hooks : List release.Hook) (doc : Option String)
    (hrel : w.ReleaseContent s.calls request.ReleaseName 0 = (some rel, none))
    (hchart : w.getChart (s.calls ++ [Call.ReleaseContent request.ReleaseName 0])
      request.RepoURL request.ChartName request.ChartVersion = .ok chartLoaded)
    (hrender : renderManifests w request.Namespace
        (w.ProcessRequirementsEnabled chartLoaded { Raw := request.Values })
        request.ReleaseName request.Values 1
        { s with calls := s.calls ++ [Call.ReleaseContent request.ReleaseName 0,
            Call.getChart request.RepoURL request.ChartName request.ChartVersion] }
      = (.ok (hooks, doc, none), s3)) :
    (request.ChartName = "choerodon-cluster-agent" →
      (∃ rest : List Call,
        (UpgradeRelease w fuel request s).2.calls =
          s3.calls ++ Call.UpdateReleaseFromChart request.ReleaseName
            (w.ProcessRequirementsEnabled chartLoaded { Raw := request.Values })
            request.Values :: rest) ∧
      ∀ c ∈ (UpgradeRelease w fuel request s).2.calls.drop s.calls.length,
        c.isLabelInjection = false) ∧
    (request.ChartName ≠ "choerodon-cluster-agent" →
      (∀ (i : Nat) (d : String),
        (doc.toList ++ hooks.map (fun hook => hook.Manifest))[i]? = some d →
        ∃ out, w.LabelObjects
          (s3.calls ++ ((doc.toList ++ hooks.map (fun hook => hook.Manifest)).take i).map
            (fun d => Call.LabelObjects request.Namespace request.ImagePullSecrets d
              request.ReleaseName request.ChartName request.ChartVersion))
          request.Namespace request.ImagePullSecrets d request.ReleaseName
          request.ChartName request.ChartVersion = .ok out) →
      ∃ (templates : List Template) (rest : List Call),
        (UpgradeRelease w fuel request s).2.calls =
          s3.calls ++ (doc.toList ++ hooks.map (fun hook => hook.Manifest)).map
            (fun d => Call.LabelObjects request.Namespace request.ImagePullSecrets d
              request.ReleaseName request.ChartName request.ChartVersion) ++
          Call.UpdateReleaseFromChart request.ReleaseName
            (Chart.mk
              (w.ProcessRequirementsEnabled chartLoaded { Raw := request.Values }).Metadata
              templates []
              (w.ProcessRequirementsEnabled chartLoaded { Raw := request.Values }).Values)
            request.Values :: rest ∧
        (∀ c ∈ rest, c.isLabelInjection = false) ∧
        templates.length = (doc.toList ++ hooks.map (fun hook => hook.Manifest)).length ∧
        ∀ (i : Nat) (d : String),
          (doc.toList ++ hooks.map (fun hook => hook.Manifest))[i]? = some d →
          ∃ t : Template, templates[i]? = some t ∧
            t.Name = (if i = 0 then request.ReleaseName
              else "hook" ++ strconv.Itoa (i : Int)) ∧
            w.LabelObjects
              (s3.calls ++ ((doc.toList ++ hooks.map (fun hook => hook.Manifest)).take i).map
                (fun d => Call.LabelObjects request.Namespace request.ImagePullSecrets d
                  request.ReleaseName request.ChartName request.ChartVersion))
              request.Namespace request.ImagePullSecrets d request.ReleaseName
              request.ChartName request.ChartVersion = .ok t.Data) := by
  obtain ⟨allFiles, manifests, _, _, _, _, hs3⟩ :=
    renderManifests_success _ _ _ _ _ _ _ _ _ _ hrender
  constructor
  · intro hname
    have key : ∃ rest : List Call,
        (UpgradeRelease w fuel request s).2.calls =
          s3.calls ++ Call.UpdateReleaseFromChart request.ReleaseName
            (w.ProcessRequirementsEnabled chartLoaded { Raw := request.Values })
            request.Values :: rest ∧
        ∀ c ∈ rest, c.isLabelInjection = false := by
      unfold UpgradeRelease
      simp only [Op.bind_eq, Op.pure_eq, Op.call_andThen, hrel, Option.any_none,
        Bool.false_eq_true, if_false, Op.ret_andThen]
      simp only [Op.call_andThen, hchart, List.append_assoc, List.singleton_append]
      rw [Op.andThen_of_eq _ _ _ _ _ hrender]
      simp only [Option.isSome_none, Bool.false_eq_true, if_false, hname, ne_eq,
        not_true_eq_false, Op.ret_andThen, Op.call_andThen]
      generalize w.UpdateReleaseFromChart s3.calls _ _ _ = upd
      rcases upd with ⟨resp, err⟩
      cases err with
      | some e =>
        cases resp with
        | none => exact ⟨[], by simp [Op.ret], by simp⟩
        | some r =>
          simp only [Option.isSome_some, if_true]
          rw [Op.andThen_of_eq _ _ _ _ _ (getHelmRelease_some w r _)]
          refine ⟨[Call.BuildUnstructured r.Namespace r.Manifest], ?_, ?_⟩
          · split <;> simp [Op.ret]
          · simp [Call.isLabelInjection]
      | none =>
        cases resp with
        | none => exact ⟨[], by simp [getHelmRelease, Op.abort, Op.andThen], by simp⟩
        | some r =>
          simp only []
          rw [Op.andThen_of_eq _ _ _ _ _ (getHelmRelease_some w r _)]
          refine ⟨[Call.BuildUnstructured r.Namespace r.Manifest], ?_, ?_⟩
          · split
            · simp [Op.ret]
            · split <;> simp [Op.ret, Op.abort]
          · simp [Call.isLabelInjection]
    obtain ⟨rest, hcalls, hrest⟩ := key
    refine ⟨⟨rest, hcalls⟩, ?_⟩
    rw [hcalls, hs3]
    intro c hc
    simp only [List.append_assoc, List.drop_left, List.mem_cons, List.mem_singleton,
      List.not_mem_nil, or_false, List.cons_append, List.nil_append, List.mem_append] at hc
    rcases hc with rfl | rfl | rfl | rfl | rfl | rfl | hc
    · rfl
    · rfl
    · rfl
    · rfl
    · rfl
    · rfl
    · exact hrest c hc
  · intro hname hall
    obtain ⟨new, hrun, hlen, hnew⟩ :=
      UpgradeRelease_label_run w request (doc.toList ++ hooks.map (fun hook => hook.Manifest))
        0 [] s3 hall
    have key : ∃ rest : List Call,
        (UpgradeRelease w fuel request s).2.calls =
          s3.calls ++ (doc.toList ++ hooks.map (fun hook => hook.Manifest)).map
            (fun d => Call.LabelObjects request.Namespace request.ImagePullSecrets d
              request.ReleaseName request.ChartName request.ChartVersion) ++
          Call.UpdateReleaseFromChart request.ReleaseName
            (Chart.mk
              (w.ProcessRequirementsEnabled chartLoaded { Raw := request.Values }).Metadata
              new []
              (w.ProcessRequirementsEnabled chartLoaded { Raw := request.Values }).Values)
            request.Values :: rest ∧
        ∀ c ∈ rest, c.isLabelInjection = false := by
      unfold UpgradeRelease
      simp only [Op.bind_eq, Op.pure_eq, Op.call_andThen, hrel, Option.any_none,
        Bool.false_eq_true, if_false, Op.ret_andThen]
      simp only [Op.call_andThen, hchart, List.append_assoc, List.singleton_append]
      rw [Op.andThen_of_eq _ _ _ _ _ hrender]
      simp only [Option.isSome_none, Bool.false_eq_true, if_false, hname, ne_eq,
        not_false_eq_true, if_true, Op.ret_andThen, Op.andThen_assoc]
      rw [Op.andThen_of_eq _ _ _ _ _ hrun]
      simp only [List.nil_append, Op.ret_andThen, Op.call_andThen]
      generalize w.UpdateReleaseFromChart _ _ _ _ = upd
      rcases upd with ⟨resp, err⟩
      cases err with
      | some e =>
        cases resp with
        | none => exact ⟨[], by simp [Op.ret], by simp⟩
        | some r =>
          simp only [Option.isSome_some, if_true]
          rw [Op.andThen_of_eq _ _ _ _ _ (getHelmRelease_some w r _)]
          refine ⟨[Call.BuildUnstructured r.Namespace r.Manifest], ?_, ?_⟩
          · split <;> simp [Op.ret]
          · simp [Call.isLabelInjection]
      | none =>
        cases resp with
        | none => exact ⟨[], by simp [getHelmRelease, Op.abort, Op.andThen], by simp⟩
        | some r =>
          simp only []
          rw [Op.andThen_of_eq _ _ _ _ _ (getHelmRelease_some w r _)]
          refine ⟨[Call.BuildUnstructured r.Namespace r.Manifest], ?_, ?_⟩
          · split
            · simp [Op.ret]
            · split <;> simp [Op.ret, Op.abort]
          · simp [Call.isLabelInjection]
    obtain ⟨rest, hcalls, hrest⟩ := key
    refine ⟨new, rest, hcalls, hrest, hlen, ?_⟩
    intro i d hd
    obtain ⟨t, ht, hn, hl⟩ := hnew i d hd
    exact ⟨t, ht, by simpa using hn, hl⟩

/-- Witness of C15: the agent's own chart, with a dependency, and the chart `web`. -/
theorem UpgradeRelease_agent_chart_unlabeled_witness :
    ((∃ rest : List Call,
        (UpgradeRelease scenario.selfUpgrade 3 scenario.agentRequest Sys.init).2.calls =
          scenario.renderedCalls "choerodon-cluster-agent" scenario.agentChart ++
            Call.UpdateReleaseFromChart "app" scenario.agentChart "replicas: 1" :: rest) ∧
      ∀ c ∈ (UpgradeRelease scenario.selfUpgrade 3 scenario.agentRequest Sys.init).2.calls.drop 0,
        c.isLabelInjection = false) ∧
    ∃ (templates : List Template) (rest : List Call),
      (UpgradeRelease scenario.upgradable 3 scenario.upgradeRequest Sys.init).2.calls =
        scenario.renderedCalls "web" scenario.webChart ++
          ["\n---\n# Source: web/templates/deployment.yaml\nkind: Deployment", "kind: Job"].map
            (fun d => Call.LabelObjects "proj" [] d "app" "web" "1.0.0") ++
          Call.UpdateReleaseFromChart "app"
            (Chart.mk { Name := "web", Version := "1.0.0", Engine := "" } templates []
              { Raw := "replicas: 1" })
            "replicas: 1" :: rest ∧
      (∀ c ∈ rest, c.isLabelInjection = false) ∧
      templates.length = 2 ∧
      ∀ (i : Nat) (d : String),
        ["\n---\n# Source: web/templates/deployment.yaml\nkind: Deployment", "kind: Job"][i]?
          = some d →
        ∃ t : Template, templates[i]? = some t ∧
          t.Name = (if i = 0 then "app" else "hook" ++ strconv.Itoa (i : Int)) ∧
          scenario.upgradable.LabelObjects
            (scenario.renderedCalls "web" scenario.webChart ++
              (["\n---\n# Source: web/templates/deployment.yaml\nkind: Deployment",
                "kind: Job"].take i).map
                (fun d => Call.LabelObjects "proj" [] d "app" "web" "1.0.0"))
            "proj" [] d "app" "web" "1.0.0" = .ok t.Data :=
  ⟨(UpgradeRelease_agent_chart_unlabeled scenario.selfUpgrade 3 scenario.agentRequest Sys.init
      { calls := scenario.renderedCalls "choerodon-cluster-agent" scenario.agentChart,
        commandChan := [], responseChan := [] }
      (scenario.stored "proj" "replicas: 1") scenario.agentChart [scenario.migrate]
      (some "\n---\n# Source: web/templates/deployment.yaml\nkind: Deployment")
      rfl rfl rfl).1 rfl,
   (UpgradeRelease_agent_chart_unlabeled scenario.upgradable 3 scenario.upgradeRequest Sys.init
      { calls := scenario.renderedCalls "web" scenario.webChart,
        commandChan := [], responseChan := [] }
      (scenario.stored "proj" "replicas: 1") scenario.webChart [scenario.migrate]
      (some "\n---\n# Source: web/templates/deployment.yaml\nkind: Deployment")
      rfl rfl rfl).2 (by decide) (fun _ _ _ => ⟨_, rfl⟩)⟩

/-- A sequence whose second part only returns: the state is that of the first part. -/
theorem Op.andThen_ret_state {α β : Type} (m : Op α) (g : α → β) (s : Sys) :
    (Op.andThen m (fun a => Op.ret (g a)) s).2 = (m s).2 := by
  unfold Op.andThen
  rcases m s with ⟨r, s1⟩
  cases r <;> rfl

/-- The calls of `DeleteRelease`: the first is the delete with purge, and none of them
is a call of the label injector. -/
theorem DeleteRelease_calls (w : World) (request : DeleteReleaseRequest) (s : Sys) :
    ∃ rest : List Call,
      (DeleteRelease w request s).2.calls =
        s.calls ++ Call.DeleteRelease request.ReleaseName true :: rest ∧
      ∀ x ∈ rest, x.isLabelInjection = false := by
  unfold DeleteRelease
  simp only [Op.bind_eq, Op.pure_eq, Op.call_andThen]
  generalize w.DeleteRelease _ _ _ = ans
  rcases ans with ⟨resp, err⟩
  cases err with
  | some e => exact ⟨[], rfl, by simp⟩
  | none =>
    cases resp with
    | none => exact ⟨[], rfl, by simp⟩
    | some rel =>
      simp only []
      rw [Op.andThen_of_eq _ _ _ _ _ (getHelmRelease_some w rel _)]
      refine ⟨[Call.BuildUnstructured rel.Namespace rel.Manifest], ?_, ?_⟩
      · split <;> simp [Op.ret, Op.ret_andThen]
      · simp [Call.isLabelInjection]

/-- The calls of the part of `InstallRelease` from the store's install on: the first is
the store's install with the chart, and none of them is a call of the label
injector. -/
theorem InstallRelease_store_calls (w : World) (request : InstallReleaseRequest)
    (c : Chart) (s : Sys) :
    ∃ rest : List Call,
      (InstallRelease.store w request c s).2.calls =
        s.calls ++ Call.InstallReleaseFromChart c request.Namespace request.Values
          request.ReleaseName :: rest ∧
      ∀ x ∈ rest, x.isLabelInjection = false := by
  unfold InstallRelease.store
  simp only [Op.bind_eq, Op.pure_eq, Op.call_andThen]
  generalize w.InstallReleaseFromChart _ _ _ _ _ = ans
  rcases ans with ⟨resp, err⟩
  cases err with
  | some e =>
    cases resp with
    | none =>
      simp only [Option.isSome_none, Bool.false_eq_true, if_false]
      obtain ⟨rest, hrest, hlabel⟩ := DeleteRelease_calls w { ReleaseName := request.ReleaseName }
        { s with calls := s.calls ++ [Call.InstallReleaseFromChart c request.Namespace
            request.Values request.ReleaseName] }
      refine ⟨Call.DeleteRelease request.ReleaseName true :: rest, ?_, ?_⟩
      · simp only [Op.ret_andThen]
        rw [Op.andThen_ret_state, hrest]
        simp
      · intro x hx
        rcases List.mem_cons.mp hx with rfl | hx
        · rfl
        · exact hlabel x hx
    | some r =>
      simp only [Option.isSome_some, if_true]
      rw [Op.andThen_of_eq _ _ _ _ _ (getHelmRelease_some w r _)]
      cases w.BuildUnstructured
          (s.calls ++ [Call.InstallReleaseFromChart c request.Namespace request.Values
            request.ReleaseName]) r.Namespace r.Manifest with
      | error b =>
        simp only [Option.isSome_some, if_true]
        obtain ⟨rest, hrest, hlabel⟩ := DeleteRelease_calls w
          { ReleaseName := request.ReleaseName }
          { s with calls := s.calls ++ [Call.InstallReleaseFromChart c request.Namespace
              request.Values request.ReleaseName] ++
            [Call.BuildUnstructured r.Namespace r.Manifest] }
        refine ⟨Call.BuildUnstructured r.Namespace r.Manifest ::
          Call.DeleteRelease request.ReleaseName true :: rest, ?_, ?_⟩
        · rw [Op.andThen_ret_state, hrest]
          simp
        · intro x hx
          rcases List.mem_cons.mp hx with rfl | hx
          · rfl
          · rcases List.mem_cons.mp hx with rfl | hx
            · rfl
            · exact hlabel x hx
      | ok resources =>
        exact ⟨[Call.BuildUnstructured r.Namespace r.Manifest], by simp [Op.ret, Op.ret_andThen],
          by simp [Call.isLabelInjection]⟩
  | none =>
    cases resp with
    | none => exact ⟨[], by simp [getHelmRelease, Op.abort, Op.andThen], by simp⟩
    | some r =>
      simp only []
      rw [Op.andThen_of_eq _ _ _ _ _ (getHelmRelease_some w r _)]
      cases w.BuildUnstructured
          (s.calls ++ [Call.InstallReleaseFromChart c request.Namespace request.Values
            request.ReleaseName]) r.Namespace r.Manifest with
      | error b =>
        exact ⟨[Call.BuildUnstructured r.Namespace r.Manifest], by simp [Op.abort],
          by simp [Call.isLabelInjection]⟩
      | ok resources =>
        simp only [Option.isSome_none, Bool.false_eq_true, if_false]
        split
        · simp only [Op.call_andThen, Op.ret_andThen]
          cases w.LookPath _ "kubectl" with
          | error e =>
            exact ⟨[Call.BuildUnstructured r.Namespace r.Manifest, Call.LookPath "kubectl"],
              by simp [Op.abort], by simp [Call.isLabelInjection]⟩
          | ok path =>
            exact ⟨[Call.BuildUnstructured r.Namespace r.Manifest, Call.LookPath "kubectl",
                Call.ApplySingleObj "kube-system" (getCertManagerIssuerData w)],
              by simp [Op.ret, Op.call_andThen, Op.ret_andThen], by simp [Call.isLabelInjection]⟩
        · exact ⟨[Call.BuildUnstructured r.Namespace r.Manifest], by simp [Op.ret, Op.ret_andThen],
            by simp [Call.isLabelInjection]⟩

/-- C12: the preparation of `InstallRelease` ends with the chart `chartStored` for the
store.  Then the chart was loaded, the placeholder map was built, rendering gave
hooks and manifests, and with `docs` the rendered documents (the combined manifest,
then the manifest of every hook): the label injector was called once per document in
that order, after the calls of loading and rendering; `chartStored` has the metadata
and the original `Values.Raw` of the chart as `ProcessRequirementsEnabled` left it, no
dependencies, and one template per document, named after the release for the first
and `hook1`, `hook2`, ... for the others, each holding the label injector's answer
for its document as `replaceValue` restores it with the map that the documents before
it have left; and the next call of `InstallRelease` is the store's install with
`chartStored`, followed by no call of the label injector. -/
theorem InstallRelease_store_chart (w : World) (fuel : Nat) (request : InstallReleaseRequest)
    (s s1 : Sys) (chartStored : Chart)
    (hprep : InstallRelease.prepare w fuel request s = (.ok (.ok chartStored), s1)) :
    ∃ (chartLoaded chartRequested : Chart) (valuesMap : List (String × String))
      (hooks : List release.Hook) (manifests : List tiller.Manifest)
      (files : List (String × String)) (docs : List String)
      (maps : List (List (String × String))) (rest : List Call),
      w.getChart (s.calls ++ [Call.ReleaseContent request.ReleaseName 0])
        request.RepoURL request.ChartName request.ChartVersion = .ok chartLoaded ∧
      chartRequested = w.ProcessRequirementsEnabled chartLoaded { Raw := request.Values } ∧
      getValuesMap (cmForChart chartRequested).1 [] = .ok valuesMap ∧
      w.sortManifests
        (s.calls ++ [Call.ReleaseContent request.ReleaseName 0,
          Call.getChart request.RepoURL request.ChartName request.ChartVersion,
          Call.GetDiscoveryClient,
          Call.Render
            (setValuesRaw chartRequested (removeStringValues w chartRequested.Values.Raw).2)
            request.Namespace request.ReleaseName (removeStringValues w request.Values).2 1])
        files = .ok (hooks, manifests) ∧
      docs = manifests.foldl
          (fun b m => b ++ ("\n---\n# Source: " ++ m.Name ++ "\n") ++ m.Content) "" ::
        hooks.map (fun hook => hook.Manifest) ∧
      s1.calls = s.calls ++ [Call.ReleaseContent request.ReleaseName 0,
          Call.getChart request.RepoURL request.ChartName request.ChartVersion,
          Call.GetDiscoveryClient,
          Call.Render
            (setValuesRaw chartRequested (removeStringValues w chartRequested.Values.Raw).2)
            request.Namespace request.ReleaseName (removeStringValues w request.Values).2 1,
          Call.sortManifests files] ++
        docs.map (fun d =>
          Call.LabelObjects request.Namespace request.ImagePullSecrets d request.ReleaseName
            request.ChartName request.ChartVersion) ∧
      chartStored.Metadata = chartRequested.Metadata ∧
      chartStored.Dependencies = [] ∧
      chartStored.Values.Raw = chartRequested.Values.Raw ∧
      chartStored.Templates.length = docs.length ∧
      maps[0]? = some valuesMap ∧
      (∀ (i : Nat) (d : String), docs[i]? = some d →
        ∃ (t : Template) (labeled : String) (vm vm1 : List (String × String)),
          chartStored.Templates[i]? = some t ∧ maps[i]? = some vm ∧ maps[i + 1]? = some vm1 ∧
          t.Name = (if i = 0 then request.ReleaseName else "hook" ++ strconv.Itoa (i : Int)) ∧
          w.LabelObjects
            (s.calls ++ [Call.ReleaseContent request.ReleaseName 0,
                Call.getChart request.RepoURL request.ChartName request.ChartVersion,
                Call.GetDiscoveryClient,
                Call.Render
                  (setValuesRaw chartRequested
                    (removeStringValues w chartRequested.Values.Raw).2)
                  request.Namespace request.ReleaseName (removeStringValues w request.Values).2
                  1,
                Call.sortManifests files] ++
              (docs.take i).map (fun d =>
                Call.LabelObjects request.Namespace request.ImagePullSecrets d
                  request.ReleaseName request.ChartName request.ChartVersion))
            request.Namespace request.ImagePullSecrets d request.ReleaseName
            request.ChartName request.ChartVersion = .ok labeled ∧
          replaceValue fuel labeled vm = .ok (t.Data, vm1)) ∧
      (InstallRelease w fuel request s).2.calls =
        s1.calls ++ Call.InstallReleaseFromChart chartStored request.Namespace request.Values
          request.ReleaseName :: rest ∧
      ∀ x ∈ rest, x.isLabelInjection = false := by
  have hinstall := InstallRelease_of_prepared w fuel request s s1 chartStored hprep
  obtain ⟨rest, hrest, hnolabel⟩ := InstallRelease_store_calls w request chartStored s1
  unfold InstallRelease.prepare at hprep
  simp only [Op.bind_eq, Op.pure_eq, Op.call_andThen, cmForChart] at hprep
  rcases hrc : w.ReleaseContent s.calls request.ReleaseName 0 with ⟨resp, err⟩
  rw [hrc] at hprep
  simp only [] at hprep
  split at hprep
  · simp [Op.ret] at hprep
  simp only [Op.ret_andThen] at hprep
  split at hprep
  · simp [Op.ret] at hprep
  simp only [Op.ret_andThen, Op.call_andThen] at hprep
  cases hgc : w.getChart (s.calls ++ [Call.ReleaseContent request.ReleaseName 0])
      request.RepoURL request.ChartName request.ChartVersion with
  | error e =>
    simp only [hgc] at hprep
    simp [Op.ret] at hprep
  | ok chartLoaded =>
    simp only [hgc, Op.ret_andThen] at hprep
    obtain ⟨valuesMap, sA, hvm, hprep1⟩ := Op.andThen_ok_inv _ _ _ _ _ hprep
    split at hprep1
    · simp [Op.ret] at hprep1
    split at hprep1
    · simp [Op.ret] at hprep1
    obtain ⟨rendered, sB, hrender, hprep2⟩ := Op.andThen_ok_inv _ _ _ _ _ hprep1
    rcases rendered with ⟨hooks, doc, rerr⟩
    split at hprep2
    · simp [Op.ret] at hprep2
    rename_i hrerr
    obtain ⟨labeled, sC, hlabel, hprep3⟩ := Op.andThen_ok_inv _ _ _ _ _ hprep2
    cases labeled with
    | error e => simp [Op.ret] at hprep3
    | ok templates =>
      cases rerr with
      | some e => simp at hrerr
      | none =>
        unfold Op.lift at hvm
        injection hvm with hvm hsA
        subst hsA
        dsimp only [Op.ret] at hprep3
        injection hprep3 with hchart hsC
        injection hchart with hchart
        injection hchart with hchart
        subst hsC
        obtain ⟨allFiles, manifests, _, _, hsort, hdoc, hsB⟩ :=
          renderManifests_success _ _ _ _ _ _ _ _ _ _ hrender
        subst hdoc
        obtain ⟨hsC, new, maps, hnew, hlen, hmaps, hall⟩ :=
          InstallRelease_label_ok w fuel request _ _ _ _ _ _ _ hlabel
        simp only [List.nil_append] at hnew
        subst hnew
        refine ⟨chartLoaded, _, valuesMap, hooks, manifests,
          allFiles.filter (fun kv => !strings.HasSuffix kv.1 notesFileSuffix),
          manifests.foldl
              (fun b m => b ++ ("\n---\n# Source: " ++ m.Name ++ "\n") ++ m.Content) "" ::
            hooks.map (fun hook => hook.Manifest),
          maps, rest, rfl, rfl, hvm,
          ?_, rfl, ?_, ?_, ?_, ?_, ?_, hmaps, ?_, ?_, hnolabel⟩
        · simpa using hsort
        · rw [hsC, hsB]
          simp
        · rw [← hchart]
          rfl
        · rw [← hchart]
          rfl
        · rw [← hchart]
          rfl
        · rw [← hchart]
          simpa using hlen
        · intro i d hd
          obtain ⟨t, labeled, vm, vm1, ht, hvm0, hvm1, hname, hlab, hrv⟩ :=
            hall i d (by simpa using hd)
          refine ⟨t, labeled, vm, vm1, ?_, hvm0, hvm1, by simpa using hname, ?_, hrv⟩
          · rw [← hchart]
            exact ht
          · rw [hsB] at hlab
            simpa using hlab
        · rw [hinstall]
          exact hrest

/-- Witness of C12: the install of the chart `web` in the world `ready`. -/
theorem InstallRelease_store_chart_witness :
    InstallRelease.prepare scenario.ready 3 scenario.installRequest Sys.init =
      (.ok (.ok scenario.labeledChart),
       { calls := scenario.preparedCalls, commandChan := [], responseChan := [] }) ∧
      ∃ (chartLoaded chartRequested : Chart) (valuesMap : List (String × String))
        (hooks : List release.Hook) (manifests : List tiller.Manifest)
        (files : List (String × String)) (docs : List String)
        (maps : List (List (String × String))) (rest : List Call),
        scenario.ready.getChart ([Call.ReleaseContent "app" 0])
          "http://charts.example" "web" "1.0.0" = .ok chartLoaded ∧
        chartRequested = scenario.ready.ProcessRequirementsEnabled chartLoaded { Raw :=
          "replicas: 1" } ∧
        getValuesMap (cmForChart chartRequested).1 [] = .ok valuesMap ∧
        scenario.ready.sortManifests
          ([Call.ReleaseContent "app" 0,
            Call.getChart "http://charts.example" "web" "1.0.0",
            Call.GetDiscoveryClient,
            Call.Render
              (setValuesRaw chartRequested (removeStringValues scenario.ready
                chartRequested.Values.Raw).2)
              "proj" "app" (removeStringValues scenario.ready "replicas: 1").2 1])
          files = .ok (hooks, manifests) ∧
        docs = manifests.foldl
            (fun b m => b ++ ("\n---\n# Source: " ++ m.Name ++ "\n") ++ m.Content) "" ::
          hooks.map (fun hook => hook.Manifest) ∧
        scenario.preparedCalls = [Call.ReleaseContent "app" 0,
            Call.getChart "http://charts.example" "web" "1.0.0",
            Call.GetDiscoveryClient,
            Call.Render
              (setValuesRaw chartRequested (removeStringValues scenario.ready
                chartRequested.Values.Raw).2)
              "proj" "app" (removeStringValues scenario.ready "replicas: 1").2 1,
            Call.sortManifests files] ++
          docs.map (fun d =>
            Call.LabelObjects "proj" [] d "app"
              "web" "1.0.0") ∧
        scenario.labeledChart.Metadata = chartRequested.Metadata ∧
        scenario.labeledChart.Dependencies = [] ∧
        scenario.labeledChart.Values.Raw = chartRequested.Values.Raw ∧
        scenario.labeledChart.Templates.length = docs.length ∧
        maps[0]? = some valuesMap ∧
        (∀ (i : Nat) (d : String), docs[i]? = some d →
          ∃ (t : Template) (labeled : String) (vm vm1 : List (String × String)),
            scenario.labeledChart.Templates[i]? = some t ∧ maps[i]? = some vm ∧ maps[i + 1]? =
              some vm1 ∧
            t.Name = (if i = 0 then "app" else "hook" ++ strconv.Itoa (i : Int)) ∧
            scenario.ready.LabelObjects
              ([Call.ReleaseContent "app" 0,
                  Call.getChart "http://charts.example" "web" "1.0.0",
                  Call.GetDiscoveryClient,
                  Call.Render
                    (setValuesRaw chartRequested
                      (removeStringValues scenario.ready chartRequested.Values.Raw).2)
                    "proj" "app" (removeStringValues scenario.ready "replicas: 1").2
                    1,
                  Call.sortManifests files] ++
                (docs.take i).map (fun d =>
                  Call.LabelObjects "proj" [] d
                    "app" "web" "1.0.0"))
              "proj" [] d "app"
              "web" "1.0.0" = .ok labeled ∧
            replaceValue 3 labeled vm = .ok (t.Data, vm1)) ∧
        (InstallRelease scenario.ready 3 scenario.installRequest Sys.init).2.calls =
          scenario.preparedCalls ++ Call.InstallReleaseFromChart scenario.labeledChart "proj"
            "replicas: 1"
            "app" :: rest ∧
        ∀ x ∈ rest, x.isLabelInjection = false :=
  ⟨rfl, InstallRelease_store_chart scenario.ready 3 scenario.installRequest Sys.init
    { calls := scenario.preparedCalls, commandChan := [], responseChan := [] }
    scenario.labeledChart rfl⟩

end helm

namespace helm

open chart

/-- C14 (the code at the failing input): the chart `configChart` and values whose
entry is a templating expression.  `InstallRelease` renders with the stripped values
and hands the store a template in which `replaceValue` has put the expression of the
chart's ConfigMap template; `UpgradeRelease`, for the same chart, values and release
name, renders with the values as they are, calls neither the stripping nor the
restoration, and hands the store a different template. -/
theorem UpgradeRelease_skips_restoration :
    (InstallRelease scenario.templated 3 scenario.templatedInstall Sys.init).2.calls =
      [Call.ReleaseContent "app" 0,
       Call.getChart "http://charts.example" "web" "1.0.0",
       Call.GetDiscoveryClient,
       Call.Render scenario.configChart "proj" "app" "name: crockitwoodzZ: heihei" 1,
       Call.sortManifests [("web/templates/configmap.yaml",
         "kind: ConfigMap\ndata:\n  name: crockitwoodzZ: heihei")],
       Call.LabelObjects "proj" []
         "\n---\n# Source: web/templates/configmap.yaml\nkind: ConfigMap\ndata:\n  name: crockitwoodzZ: heihei"
         "app" "web" "1.0.0",
       Call.InstallReleaseFromChart
         (Chart.mk { Name := "web", Version := "1.0.0", Engine := "" }
           [{ Name := "app",
              Data := "\n---\n# Source: web/templates/configmap.yaml\nkind: ConfigMap\ndata:\n  name: \x7b\x7b .Values.name \x7d\x7d" }]
           [] { Raw := "name: web" })
         "proj" scenario.templatedValues "app",
       Call.BuildUnstructured "proj" "kind: Deployment"] ∧
    (UpgradeRelease scenario.templatedHolding 3 scenario.templatedUpgrade Sys.init).2.calls =
      [Call.ReleaseContent "app" 0,
       Call.getChart "http://charts.example" "web" "1.0.0",
       Call.GetDiscoveryClient,
       Call.Render scenario.configChart "proj" "app" scenario.templatedValues 1,
       Call.sortManifests [("web/templates/configmap.yaml",
         "kind: ConfigMap\ndata:\n  name: \x7b\x7b .Release.Name \x7d\x7d")],
       Call.LabelObjects "proj" []
         "\n---\n# Source: web/templates/configmap.yaml\nkind: ConfigMap\ndata:\n  name: \x7b\x7b .Release.Name \x7d\x7d"
         "app" "web" "1.0.0",
       Call.UpdateReleaseFromChart "app"
         (Chart.mk { Name := "web", Version := "1.0.0", Engine := "" }
           [{ Name := "app",
              Data := "\n---\n# Source: web/templates/configmap.yaml\nkind: ConfigMap\ndata:\n  name: \x7b\x7b .Release.Name \x7d\x7d" }]
           [] { Raw := "name: web" })
         scenario.templatedValues,
       Call.BuildUnstructured "proj" "kind: Deployment"] :=
  ⟨rfl, rfl⟩

end helm

/-! ## The value-placeholder helpers: lemmas -/

/-- The first occurrence of a text after a prefix that does not hold its first
character. -/
theorem strings.indexFrom_after (c : Char) (sub tail : List Char) :
    ∀ (pre : List Char) (i : Nat), c ∉ pre →
      strings.indexFrom (c :: sub) (pre ++ (c :: sub) ++ tail) i = some (i + pre.length)
  | [], i, _ => by
    simp only [List.nil_append, List.cons_append]
    unfold strings.indexFrom
    simp [List.isPrefixOf]
  | p :: ps, i, h => by
    have hp : c ≠ p := fun e => h (by simp [e])
    have hps : c ∉ ps := fun e => h (by simp [e])
    simp only [List.cons_append]
    unfold strings.indexFrom
    have ih := strings.indexFrom_after c sub tail ps (i + 1) hps
    simp only [List.append_assoc, List.cons_append] at ih
    simp [List.isPrefixOf, hp, ih]
    omega

/-- Removing every occurrence of one character with `replaceScan`. -/
theorem strings.replaceScan_remove (c : Char) :
    ∀ (l : List Char) (n : Int), n < 0 →
      strings.replaceScan [c] [] n 0 l = l.filter (fun x => x != c)
  | [], n, _ => by
    unfold strings.replaceScan
    rfl
  | x :: xs, n, hn => by
    unfold strings.replaceScan
    have ih1 := strings.replaceScan_remove c xs (n - 1) (by omega)
    have ih2 := strings.replaceScan_remove c xs n hn
    by_cases hx : x = c
    · subst hx
      have hn0 : n ≠ 0 := by omega
      simp [List.isPrefixOf, hn0, ih1]
    · have hx1 : ¬ c = x := fun e => hx e.symm
      simp [List.isPrefixOf, hx, hx1, ih2]

/-- The text that `getValuesMap` and `replaceValue` make of a key: spaces and newline
characters removed. -/
theorem strings.Replace_strip (key : String) :
    strings.Replace (strings.Replace key " " "" (-1)) "\n" "" (-1) =
      ⟨key.data.filter (fun x => x != ' ' && x != '\n')⟩ := by
  unfold strings.Replace
  have h1 : (" " : String).data = [' '] := rfl
  have h2 : ("\n" : String).data = ['\n'] := rfl
  have h3 : ("" : String).data = [] := rfl
  simp only [h1, h2, h3, List.isEmpty_cons, Bool.false_eq_true, if_false]
  rw [strings.replaceScan_remove _ _ _ (by omega), strings.replaceScan_remove _ _ _ (by omega)]
  simp [List.filter_filter, Bool.and_comm]

theorem strings.Index_ge (s sub : String) : -1 ≤ strings.Index s sub := by
  unfold strings.Index
  cases strings.indexFrom sub.data s.data 0 with
  | none => simp
  | some i => simp only; omega

/-- A slice that is in range: its bounds and its length. -/
theorem gostr.slice_ok (s t : String) (lo hi : Int) (h : gostr.slice s lo hi = .ok t) :
    0 ≤ lo ∧ lo ≤ hi ∧ hi ≤ (s.length : Int) ∧
      t = ⟨(s.data.take hi.toNat).drop lo.toNat⟩ := by
  unfold gostr.slice at h
  split_ifs at h with hc
  injection h with h
  exact ⟨hc.1, hc.2.1, hc.2.2, h.symm⟩

/-- A slice never ends in `diverge`. -/
theorem gostr.slice_ne_diverge (s : String) (lo hi : Int) :
    gostr.slice s lo hi ≠ .error .diverge := by
  unfold gostr.slice
  split_ifs <;> simp

/-- The text that `getValuesMap` goes on with is shorter than the text it has. -/
theorem gostr.sliceFrom_length (s t : String) (lo : Int) (hlo : 1 ≤ lo)
    (h : gostr.sliceFrom s lo = .ok t) : t.length < s.length := by
  unfold gostr.sliceFrom at h
  obtain ⟨_, h2, _, h4⟩ := gostr.slice_ok _ _ _ _ h
  subst h4
  simp only [String.length, Int.toNat_ofNat, List.take_length, List.length_drop] at *
  omega

namespace helm

/-- The depth of `getValuesMap`: any two depths above the length of the text give the
same result. -/
theorem getValuesMap_go_fuel :
    ∀ (n fuel : Nat) (cms : String) (vMap : List (String × String)),
      cms.length < n → cms.length < fuel →
      getValuesMap.go n cms vMap = getValuesMap.go fuel cms vMap
  | 0, _, _, _, h, _ => absurd h (Nat.not_lt_zero _)
  | _ + 1, 0, _, _, _, h => absurd h (Nat.not_lt_zero _)
  | n + 1, m + 1, cms, vMap, hn, hm => by
    unfold getValuesMap.go
    simp only []
    split_ifs with hk
    · rfl
    · cases hv : gostr.slice cms (strings.Index cms "\x7b\x7b")
          (strings.Index cms "\x7d\x7d" + 2) with
      | error e => rfl
      | ok value =>
        cases hkey : gostr.sliceTo cms (strings.Index cms "\x7b\x7b") with
        | error e => rfl
        | ok key0 =>
          cases hnew : gostr.sliceFrom cms (strings.Index cms "\x7d\x7d" + 2) with
          | error e => rfl
          | ok newCms =>
            have hlen := gostr.sliceFrom_length _ _ _
              (by have := strings.Index_ge cms "\x7d\x7d"; omega) hnew
            exact getValuesMap_go_fuel n m newCms _ (by omega) (by omega)

/-- The function `getValuesMap` returns or panics: the depth it is given is enough. -/
theorem getValuesMap_go_ne_diverge :
    ∀ (n : Nat) (cms : String) (vMap : List (String × String)),
      cms.length < n → getValuesMap.go n cms vMap ≠ .error .diverge
  | 0, _, _, h => absurd h (Nat.not_lt_zero _)
  | n + 1, cms, vMap, hn => by
    unfold getValuesMap.go
    simp only []
    split_ifs with hk
    · simp
    · cases hv : gostr.slice cms (strings.Index cms "\x7b\x7b")
          (strings.Index cms "\x7d\x7d" + 2) with
      | error e =>
        simp only []
        intro h
        injection h with h
        exact gostr.slice_ne_diverge _ _ _ (hv.trans (by rw [h]))
      | ok value =>
        cases hkey : gostr.sliceTo cms (strings.Index cms "\x7b\x7b") with
        | error e =>
          simp only []
          intro h
          injection h with h
          exact gostr.slice_ne_diverge _ _ _ (hkey.trans (by rw [h]))
        | ok key0 =>
          cases hnew : gostr.sliceFrom cms (strings.Index cms "\x7d\x7d" + 2) with
          | error e =>
            simp only []
            intro h
            injection h with h
            exact gostr.slice_ne_diverge _ _ _ (hnew.trans (by rw [h]))
          | ok newCms =>
            have hlen := gostr.sliceFrom_length _ _ _
              (by have := strings.Index_ge cms "\x7d\x7d"; omega) hnew
            exact getValuesMap_go_ne_diverge n newCms _ (by omega)

end helm

namespace helm

/-- The text has `}}` before its first newline: the meaning of `closesOnLine`. -/
theorem closesOnLine_iff : ∀ r : List Char,
    closesOnLine r = true ↔ ∃ b c : List Char, r = b ++ '}' :: '}' :: c ∧ '\n' ∉ b
  | [] => by
    unfold closesOnLine
    simp
  | x :: xs => by
    have ih := closesOnLine_iff xs
    unfold closesOnLine
    constructor
    · intro h
      by_cases hx : x = '\n'
      · simp [hx] at h
      · simp only [hx, if_false, Bool.or_eq_true, Bool.and_eq_true, decide_eq_true_eq] at h
        rcases h with ⟨h1, h2⟩ | h
        · cases xs with
          | nil => simp at h2
          | cons d r =>
            simp only [decide_eq_true_eq] at h2
            exact ⟨[], r, by simp [h1, h2], by simp⟩
        · obtain ⟨b, c, hb, hn⟩ := ih.mp h
          refine ⟨x :: b, c, by simp [hb], ?_⟩
          intro hmem
          rcases List.mem_cons.mp hmem with e | e
          · exact hx e.symm
          · exact hn e
    · rintro ⟨b, c, hb, hn⟩
      cases b with
      | nil =>
        simp only [List.nil_append, List.cons.injEq] at hb
        obtain ⟨h1, h2⟩ := hb
        subst h1
        subst h2
        simp
      | cons y b1 =>
        simp only [List.cons_append, List.cons.injEq] at hb
        obtain ⟨h1, h2⟩ := hb
        subst h1
        have hx : x ≠ '\n' := fun e => hn (by simp [e])
        have hrec : closesOnLine xs = true :=
          ih.mpr ⟨b1, c, h2, fun e => hn (List.mem_cons_of_mem _ e)⟩
        simp [hx, hrec]

/-- The text has `{{` followed by `}}` with no newline between them: the meaning of
`matchesTemplating`. -/
theorem matchesTemplating_iff : ∀ l : List Char,
    matchesTemplating l = true ↔
      ∃ a b c : List Char, l = a ++ '{' :: '{' :: b ++ '}' :: '}' :: c ∧ '\n' ∉ b
  | [] => by
    unfold matchesTemplating
    simp
  | x :: xs => by
    have ih := matchesTemplating_iff xs
    unfold matchesTemplating
    constructor
    · intro h
      simp only [Bool.or_eq_true, Bool.and_eq_true, decide_eq_true_eq] at h
      rcases h with ⟨h1, h2⟩ | h
      · cases xs with
        | nil => simp at h2
        | cons d r =>
          simp only [Bool.and_eq_true, decide_eq_true_eq] at h2
          obtain ⟨b, c, hb, hn⟩ := (closesOnLine_iff r).mp h2.2
          exact ⟨[], b, c, by simp [h1, h2.1, hb], hn⟩
      · obtain ⟨a, b, c, hl, hn⟩ := ih.mp h
        exact ⟨x :: a, b, c, by simp [hl], hn⟩
    · rintro ⟨a, b, c, hl, hn⟩
      cases a with
      | nil =>
        simp only [List.nil_append, List.cons_append, List.cons.injEq] at hl
        obtain ⟨h1, h2⟩ := hl
        subst h1
        subst h2
        have := (closesOnLine_iff (b ++ '}' :: '}' :: c)).mpr ⟨b, c, rfl, hn⟩
        simp [this]
      | cons y a1 =>
        simp only [List.cons_append, List.cons.injEq] at hl
        obtain ⟨h1, h2⟩ := hl
        have hrec : matchesTemplating xs = true := ih.mpr ⟨a1, b, c, by simpa using h2, hn⟩
        simp [hrec]

end helm

namespace helm

/-- The function `removeValues` keeps the entries in place: the entry under a key is
the entry there was, with its value rewritten. -/
theorem removeValues_find (key : String) : ∀ m : List (String × yaml.Value),
    (removeValues m).find? (fun kv => kv.1 == key) =
      (m.find? (fun kv => kv.1 == key)).map (fun kv => (kv.1, removeValues.value kv.2))
  | [] => by
    unfold removeValues
    rfl
  | (k, v) :: rest => by
    have ih := removeValues_find key rest
    unfold removeValues
    by_cases hk : (k == key) = true
    · simp [List.find?, hk]
    · simp [List.find?, hk, ih]

/-- Rewriting a value and then following a path through string-keyed maps is following
the path and then rewriting the value found. -/
theorem removeValues_atPath : ∀ (path : List String) (v : yaml.Value),
    (removeValues.value v).atPath path = (v.atPath path).map removeValues.value
  | [], v => rfl
  | key :: rest, v => by
    cases v with
    | strMap m =>
      unfold removeValues.value
      unfold yaml.Value.atPath
      simp only []
      rw [removeValues_find]
      cases m.find? (fun kv => kv.1 == key) with
      | none => rfl
      | some kv => exact removeValues_atPath rest kv.2
    | str s =>
      unfold removeValues.value
      split <;> rfl
    | null => rfl
    | bool b => rfl
    | int n => rfl
    | float t => rfl
    | seq xs => rfl
    | ifaceMap m => rfl

/-- The function `removeValues` keeps the keys, in order. -/
theorem removeValues_keys : ∀ m : List (String × yaml.Value),
    (removeValues m).map Prod.fst = m.map Prod.fst
  | [] => by
    unfold removeValues
    rfl
  | (k, v) :: rest => by
    have ih := removeValues_keys rest
    unfold removeValues
    simp [ih]

theorem removeValues_value_strMap (m : List (String × yaml.Value)) :
    removeValues.value (.strMap m) = .strMap (removeValues m) := by
  unfold removeValues.value
  rfl

/-! ## The value-placeholder helpers: claim C19 and the steps of `getValuesMap` -/

/-- C19 (counterexample): the text `nested` parses as the document `nestedValues`,
whose list `hosts` holds a text with a double-brace expression; `removeStringValues`
writes the list back as it was, and puts the marker only in place of the entries
`name` and `image.tag`. -/
theorem removeStringValues_keeps_list_entry :
    scenario.nested.yamlUnmarshal "nested" = .ok scenario.nestedValues ∧
    (yaml.Value.strMap scenario.nestedValues).atPath ["hosts"] =
      some (.seq [.str "\x7b\x7b .Values.host \x7d\x7d"]) ∧
    matchesTemplating ("\x7b\x7b .Values.host \x7d\x7d" : String).data = true ∧
    removeStringValues scenario.nested "nested" =
      (none, "name: crockitwoodzZ: heihei; replicas: 1; " ++
        "hosts: [\x7b\x7b .Values.host \x7d\x7d]; " ++
        "image: (tag: crockitwoodzZ: heihei, repo: nginx)") :=
  ⟨rfl, rfl, by decide, by decide⟩

/-- C19 (amended): a text that does not parse gives the error `unmarshal values err`.
For a text that parses as the document `m`, `removeStringValues` writes the document
`removeValues m` (or gives the error `marshal map values err`), and at every path of
keys that leads through string-keyed maps: the rewritten document has a value exactly
where `m` has one; a string is replaced by the marker when it matches and is unchanged
otherwise; a null, a boolean, a number and a list are unchanged, whatever a list holds;
a string-keyed map keeps its keys.  A string matches when it has a double opening
brace followed by a double closing brace with no newline between them. -/
theorem removeStringValues_leaves (w : World) (values : String) :
    (∀ e, w.yamlUnmarshal values = .error e →
      removeStringValues w values = (some ("unmarshal values err: " ++ e), "")) ∧
    (∀ m, w.yamlUnmarshal values = .ok m →
      removeStringValues w values =
        (match w.yamlMarshal (removeValues m) with
         | .error e => (some ("marshal map values err: " ++ e), "")
         | .ok text => (none, text)) ∧
      ∀ path : List String,
        ((yaml.Value.strMap (removeValues m)).atPath path = none ↔
          (yaml.Value.strMap m).atPath path = none) ∧
        (∀ s : String, (yaml.Value.strMap m).atPath path = some (.str s) →
          (yaml.Value.strMap (removeValues m)).atPath path =
            some (.str (if matchesTemplating s.data then tmpMagicStr else s))) ∧
        (∀ v : yaml.Value, (yaml.Value.strMap m).atPath path = some v →
          (v = .null ∨ (∃ b, v = .bool b) ∨ (∃ n, v = .int n) ∨ (∃ t, v = .float t) ∨
            (∃ xs, v = .seq xs)) →
          (yaml.Value.strMap (removeValues m)).atPath path = some v) ∧
        (∀ m1, (yaml.Value.strMap m).atPath path = some (.strMap m1) →
          ∃ m2, (yaml.Value.strMap (removeValues m)).atPath path = some (.strMap m2) ∧
            m2.map Prod.fst = m1.map Prod.fst)) ∧
    (∀ s : String, matchesTemplating s.data = true ↔
      ∃ a b c : List Char, s.data = a ++ '{' :: '{' :: b ++ '}' :: '}' :: c ∧ '\n' ∉ b) := by
  refine ⟨?_, ?_, fun s => matchesTemplating_iff s.data⟩
  · intro e he
    unfold removeStringValues
    rw [he]
  · intro m hm
    constructor
    · unfold removeStringValues
      rw [hm]
    · intro path
      have hcomm := removeValues_atPath path (.strMap m)
      rw [removeValues_value_strMap] at hcomm
      refine ⟨?_, ?_, ?_, ?_⟩
      · rw [hcomm]
        simp
      · intro s hs
        rw [hcomm, hs]
        simp only [Option.map_some']
        unfold removeValues.value
        split <;> rfl
      · intro v hv hcase
        rw [hcomm, hv]
        rcases hcase with rfl | ⟨b, rfl⟩ | ⟨n, rfl⟩ | ⟨t, rfl⟩ | ⟨xs, rfl⟩ <;> rfl
      · intro m1 hm1
        rw [hcomm, hm1]
        exact ⟨removeValues m1, by simp [removeValues_value_strMap], removeValues_keys m1⟩

/-- Witness of the amended C19: a text that does not parse, and in the document
`nestedValues` the templated entry of the nested map, its plain entry, and the list. -/
theorem removeStringValues_leaves_witness :
    removeStringValues scenario.nested "oops" =
      (some ("unmarshal values err: " ++ "cannot parse"), "") ∧
    (yaml.Value.strMap (removeValues scenario.nestedValues)).atPath ["image", "tag"] =
      some (.str (if matchesTemplating ("\x7b\x7b .Values.tag \x7d\x7d" : String).data
        then tmpMagicStr else "\x7b\x7b .Values.tag \x7d\x7d")) ∧
    (yaml.Value.strMap (removeValues scenario.nestedValues)).atPath ["image", "repo"] =
      some (.str (if matchesTemplating ("nginx" : String).data then tmpMagicStr else "nginx")) ∧
    (yaml.Value.strMap (removeValues scenario.nestedValues)).atPath ["hosts"] =
      some (.seq [.str "\x7b\x7b .Values.host \x7d\x7d"]) :=
  ⟨(removeStringValues_leaves scenario.nested "oops").1 "cannot parse" rfl,
   (((removeStringValues_leaves scenario.nested "nested").2.1 scenario.nestedValues rfl).2
      ["image", "tag"]).2.1 _ rfl,
   (((removeStringValues_leaves scenario.nested "nested").2.1 scenario.nestedValues rfl).2
      ["image", "repo"]).2.1 _ rfl,
   (((removeStringValues_leaves scenario.nested "nested").2.1 scenario.nestedValues rfl).2
      ["hosts"]).2.2.1 _ rfl (Or.inr (Or.inr (Or.inr (Or.inr ⟨_, rfl⟩))))⟩

end helm

namespace helm

/-- One expression of `getValuesMap`: on a text `pre ++ "{{" ++ body ++ "}}" ++ rest`
where `pre` and `body` hold no brace, the scan goes on with `rest` and the map in which
the entry of the expression has been set, when the key has five characters. -/
theorem getValuesMap_step (pre body rest : String) (vMap : List (String × String))
    (hpre : ∀ c ∈ pre.data, c ≠ '{' ∧ c ≠ '}')
    (hbody : ∀ c ∈ body.data, c ≠ '{' ∧ c ≠ '}') :
    getValuesMap (pre ++ "\x7b\x7b" ++ body ++ "\x7d\x7d" ++ rest) vMap =
      getValuesMap rest
        (if 5 ≤ (pre.data.filter (fun x => x != ' ' && x != '\n')).length then
          gomap.set vMap
            ⟨(pre.data.filter (fun x => x != ' ' && x != '\n')).drop
              ((pre.data.filter (fun x => x != ' ' && x != '\n')).length - 5)⟩
            ("\x7b\x7b" ++ body ++ "\x7d\x7d")
        else vMap) := by
  have hdata : (pre ++ "\x7b\x7b" ++ body ++ "\x7d\x7d" ++ rest).data =
      pre.data ++ ('{' :: ['{']) ++ (body.data ++ ['}', '}'] ++ rest.data) := by
    simp [String.data_append]
  have hdata2 : (pre ++ "\x7b\x7b" ++ body ++ "\x7d\x7d" ++ rest).data =
      (pre.data ++ ['{', '{'] ++ body.data) ++ ('}' :: ['}']) ++ rest.data := by
    simp [String.data_append]
  have hidx1 : strings.Index (pre ++ "\x7b\x7b" ++ body ++ "\x7d\x7d" ++ rest) "\x7b\x7b" =
      (pre.data.length : Int) := by
    unfold strings.Index
    have e : ("\x7b\x7b" : String).data = '{' :: ['{'] := rfl
    rw [hdata, e, strings.indexFrom_after _ _ _ _ _ (fun h => (hpre _ h).1 rfl)]
    simp
  have hidx2 : strings.Index (pre ++ "\x7b\x7b" ++ body ++ "\x7d\x7d" ++ rest) "\x7d\x7d" =
      ((pre.data.length + 2 + body.data.length : Nat) : Int) := by
    unfold strings.Index
    have e : ("\x7d\x7d" : String).data = '}' :: ['}'] := rfl
    rw [hdata2, e, strings.indexFrom_after _ _ _ _ _ (by
      intro h
      simp only [List.mem_append, List.mem_cons, List.mem_singleton, List.not_mem_nil,
        or_false] at h
      rcases h with (h | h | h) | h
      · exact (hpre _ h).2 rfl
      · exact absurd h (by decide)
      · exact absurd h (by decide)
      · exact (hbody _ h).2 rfl)]
    simp
    omega
  have hlen : (pre ++ "\x7b\x7b" ++ body ++ "\x7d\x7d" ++ rest).length =
      pre.data.length + 2 + body.data.length + 2 + rest.data.length := by
    show (pre ++ "\x7b\x7b" ++ body ++ "\x7d\x7d" ++ rest).data.length = _
    rw [hdata2]
    simp
    omega
  have hvalue : gostr.slice (pre ++ "\x7b\x7b" ++ body ++ "\x7d\x7d" ++ rest)
      (pre.data.length : Int) (((pre.data.length + 2 + body.data.length : Nat) : Int) + 2) =
      .ok ("\x7b\x7b" ++ body ++ "\x7d\x7d") := by
    unfold gostr.slice
    rw [if_pos (by rw [hlen]; omega)]
    congr 1
    apply String.ext
    have e1 : (((pre.data.length + 2 + body.data.length : Nat) : Int) + 2).toNat =
        (pre.data ++ (['{', '{'] ++ body.data ++ ['}', '}'])).length := by
      simp
      omega
    have e2 : ((pre.data.length : Nat) : Int).toNat = pre.data.length := by simp
    have hd : (pre ++ "\x7b\x7b" ++ body ++ "\x7d\x7d" ++ rest).data =
        (pre.data ++ (['{', '{'] ++ body.data ++ ['}', '}'])) ++ rest.data := by
      simp [String.data_append]
    rw [e1, e2, hd, List.take_left, List.drop_left]
    simp [String.data_append]
  have hkey : gostr.sliceTo (pre ++ "\x7b\x7b" ++ body ++ "\x7d\x7d" ++ rest)
      (pre.data.length : Int) = .ok pre := by
    unfold gostr.sliceTo gostr.slice
    rw [if_pos (by rw [hlen]; omega)]
    congr 1
    apply String.ext
    have hd : (pre ++ "\x7b\x7b" ++ body ++ "\x7d\x7d" ++ rest).data =
        pre.data ++ (['{', '{'] ++ body.data ++ ['}', '}'] ++ rest.data) := by
      simp [String.data_append]
    simp only [Int.toNat_ofNat, Int.toNat_zero, List.drop_zero]
    rw [hd, List.take_left]
  have hrest : gostr.sliceFrom (pre ++ "\x7b\x7b" ++ body ++ "\x7d\x7d" ++ rest)
      (((pre.data.length + 2 + body.data.length : Nat) : Int) + 2) = .ok rest := by
    unfold gostr.sliceFrom gostr.slice
    rw [if_pos (by rw [hlen]; omega)]
    congr 1
    apply String.ext
    have e1 : (((pre.data.length + 2 + body.data.length : Nat) : Int) + 2).toNat =
        (pre.data ++ (['{', '{'] ++ body.data ++ ['}', '}'])).length := by
      simp
      omega
    have hd : (pre ++ "\x7b\x7b" ++ body ++ "\x7d\x7d" ++ rest).data =
        (pre.data ++ (['{', '{'] ++ body.data ++ ['}', '}'])) ++ rest.data := by
      simp [String.data_append]
    rw [e1]
    simp only [Int.toNat_ofNat]
    rw [show (pre ++ "\x7b\x7b" ++ body ++ "\x7d\x7d" ++ rest).length =
      (pre ++ "\x7b\x7b" ++ body ++ "\x7d\x7d" ++ rest).data.length from rfl, List.take_length]
    rw [hd, List.drop_left]
  have hrestlen : rest.length <
      (pre ++ "\x7b\x7b" ++ body ++ "\x7d\x7d" ++ rest).length := by
    rw [hlen]
    show rest.data.length < _
    omega
  have step : ∀ R, getValuesMap.go
        ((pre ++ "\x7b\x7b" ++ body ++ "\x7d\x7d" ++ rest).length) rest
        (if 5 ≤ (pre.data.filter (fun x => x != ' ' && x != '\n')).length then
          gomap.set vMap
            ⟨(pre.data.filter (fun x => x != ' ' && x != '\n')).drop
              ((pre.data.filter (fun x => x != ' ' && x != '\n')).length - 5)⟩
            ("\x7b\x7b" ++ body ++ "\x7d\x7d")
        else vMap) = R →
      getValuesMap.go ((pre ++ "\x7b\x7b" ++ body ++ "\x7d\x7d" ++ rest).length + 1)
        (pre ++ "\x7b\x7b" ++ body ++ "\x7d\x7d" ++ rest) vMap = R := by
    intro R hR
    unfold getValuesMap.go
    have hne : ¬ ((pre.data.length : Int) = -1) := by omega
    simp only [hidx1, hidx2, hvalue, hkey, hrest, hne, if_false, strings.Replace_strip]
    rw [← hR]
    rfl
  unfold getValuesMap
  rw [step _ rfl]
  exact getValuesMap_go_fuel _ _ _ _ hrestlen (Nat.lt_succ_self _)

/-- The entry that is set is the one that is read back. -/
theorem gomap_get_set (vMap : List (String × String)) :
    ∀ key value : String, gomap.get (gomap.set vMap key value) key = value := by
  intro key value
  induction vMap with
  | nil => simp [gomap.set, gomap.get]
  | cons kv m ih =>
    rcases kv with ⟨k1, v1⟩
    unfold gomap.set
    by_cases hk : k1 = key
    · simp [hk, gomap.get]
    · simp [hk, gomap.get, ih]

end helm

/-! ## The release engine and the value-placeholder helpers: claims C21 to C30 -/

namespace helm

open chart

/-- C30 (the code at the failing input): the store's install succeeds and the lookup
of the resources of the installed release fails.  `InstallRelease` ends in a
nil-pointer panic, where the claim says that it returns a nil release with the lookup
error. -/
theorem InstallRelease_panics_on_lookup_failure :
    scenario.blind.InstallReleaseFromChart scenario.preparedCalls scenario.labeledChart
        "proj" "replicas: 1" "app" =
      (some (scenario.installed scenario.labeledChart "proj" "replicas: 1" "app"), none) ∧
    (getHelmRelease scenario.blind
        (some (scenario.installed scenario.labeledChart "proj" "replicas: 1" "app"))
        Sys.init).1 =
      .ok (none, some "get resource: build unstructured: no cluster") ∧
    (InstallRelease scenario.blind 3 scenario.installRequest Sys.init).1 =
      .error (.panic "nil pointer dereference") :=
  ⟨rfl, rfl, rfl⟩

/-- C25 (the code at the failing input): `mergeConfigMap` returns the last of its
texts only.  For the chart `twoConfigChart`, the text of `cmForChart` is the second
ConfigMap, it does not contain the first one, and the map that `getValuesMap` makes of
it has an entry for the expression of the second and none for the expression of the
first. -/
theorem cmForChart_keeps_last_only :
    (∀ (cms : List String) (cm : String), mergeConfigMap (cms ++ [cm]) = "\n---\n" ++ cm) ∧
    labelChartsConfigMap scenario.twoConfigChart [] =
      ["kind: ConfigMap\ndata:\n  name: \x7b\x7b .Values.name \x7d\x7d",
       "kind: ConfigMap\ndata:\n  host: \x7b\x7b .Values.host \x7d\x7d"] ∧
    cmForChart scenario.twoConfigChart =
      ("\n---\nkind: ConfigMap\ndata:\n  host: \x7b\x7b .Values.host \x7d\x7d", none) ∧
    strings.Contains (cmForChart scenario.twoConfigChart).1 "name: " = false ∧
    getValuesMap (cmForChart scenario.twoConfigChart).1 [] =
      .ok [("host:", "\x7b\x7b .Values.host \x7d\x7d")] ∧
    getValuesMap
        ("\n---\nkind: ConfigMap\ndata:\n  name: \x7b\x7b .Values.name \x7d\x7d" ++
          "\n---\nkind: ConfigMap\ndata:\n  host: \x7b\x7b .Values.host \x7d\x7d") [] =
      .ok [("name:", "\x7b\x7b .Values.name \x7d\x7d"),
           ("host:", "\x7b\x7b .Values.host \x7d\x7d")] :=
  ⟨fun cms cm => by simp [mergeConfigMap], by decide, by decide, by decide, rfl, rfl⟩

/-- C22 (the code at the failing input): a manifest with two markers, each preceded by
text that ends in `name:`, and a map with one entry for that key.  `replaceValue`
deletes the key made of the whole text before the marker, not of its last five
characters, so the entry stays and both markers receive the expression; the claim says
that the second receives the fallback.  The entry is consumed only when the text
before the marker has exactly five characters other than spaces and newlines. -/
theorem replaceValue_restores_key_twice :
    replaceValue 3 "kind: x\nname: crockitwoodzZ: heihei\nname: crockitwoodzZ: heihei"
        [("name:", "\x7b\x7b .Values.a \x7d\x7d")] =
      .ok ("kind: x\nname: \x7b\x7b .Values.a \x7d\x7d\nname: \x7b\x7b .Values.a \x7d\x7d",
           [("name:", "\x7b\x7b .Values.a \x7d\x7d")]) ∧
    replaceValue 3 "    name:    crockitwoodzZ: heihei\nname: crockitwoodzZ: heihei"
        [("name:", "\x7b\x7b .Values.a \x7d\x7d")] =
      .ok ("    name:    \x7b\x7b .Values.a \x7d\x7d\nname: test: test", []) :=
  ⟨rfl, rfl⟩

/-- C26: the text holds the expressions of `.Values.a` and `.Values.b`, each after an
entry `name:`.  The map that `getValuesMap` makes of it has the single entry `name:`
with the later expression; the earlier expression is not among its values, and
`replaceValue` puts the later expression in the place of both markers. -/
theorem getValuesMap_key_collision :
    getValuesMap
        "data:\n  name: \x7b\x7b .Values.a \x7d\x7d\n  name: \x7b\x7b .Values.b \x7d\x7d\n" [] =
      .ok [("name:", "\x7b\x7b .Values.b \x7d\x7d")] ∧
    ([("name:", "\x7b\x7b .Values.b \x7d\x7d")] : List (String × String)).all
      (fun e => e.2 != "\x7b\x7b .Values.a \x7d\x7d") = true ∧
    replaceValue 3
        "data:\n  name: crockitwoodzZ: heihei\n  name: crockitwoodzZ: heihei\n"
        [("name:", "\x7b\x7b .Values.b \x7d\x7d")] =
      .ok ("data:\n  name: \x7b\x7b .Values.b \x7d\x7d\n  name: \x7b\x7b .Values.b \x7d\x7d\n",
           [("name:", "\x7b\x7b .Values.b \x7d\x7d")]) :=
  ⟨rfl, by decide, rfl⟩

end helm

/-- The first piece of a split at spaces: the text before the first space. -/
theorem strings.splitScan_token : ∀ (tok cur rest : List Char), ' ' ∉ tok →
    strings.splitScan [' '] 0 cur (tok ++ rest) =
      strings.splitScan [' '] 0 (tok.reverse ++ cur) rest
  | [], cur, rest, _ => by simp
  | c :: tok, cur, rest, h => by
    have hc : ¬ (' ' = c) := fun e => h (e ▸ List.mem_cons_self _ _)
    have ht : ' ' ∉ tok := fun e => h (List.mem_cons_of_mem _ e)
    have ih := strings.splitScan_token tok (c :: cur) rest ht
    have step : strings.splitScan [' '] 0 cur (c :: (tok ++ rest)) =
        strings.splitScan [' '] 0 (c :: cur) (tok ++ rest) := by
      rw [strings.splitScan]
      simp [List.isPrefixOf, hc]
    simp only [List.cons_append]
    rw [step, ih]
    simp

theorem strings.Split_head (token more : String) (h : ' ' ∉ token.data) :
    (strings.Split token " ").headD "" = token ∧
    (strings.Split (token ++ " " ++ more) " ").headD "" = token := by
  have e : (" " : String).data = [' '] := rfl
  constructor
  · unfold strings.Split
    simp only [e, List.isEmpty_cons, Bool.false_eq_true, if_false]
    have := strings.splitScan_token token.data [] [] h
    simp only [List.append_nil] at this
    rw [this]
    unfold strings.splitScan
    simp
  · unfold strings.Split
    simp only [e, List.isEmpty_cons, Bool.false_eq_true, if_false, String.data_append,
      List.append_assoc]
    rw [strings.splitScan_token token.data [] _ h]
    simp only [List.append_nil, List.singleton_append]
    unfold strings.splitScan
    simp [List.isPrefixOf]

namespace helm

/-- C27: `calculateIndent` is `-1` on a text without `indent`.  On a text in which
`indent` occurs first after `a`, followed by `r`, where `r` without its surrounding
white space is a token without a space, alone or followed by a space and more text,
`calculateIndent` is the integer that `Atoi` reads in the token, and `-1` when the
token is not an integer. -/
theorem calculateIndent_token (s a r token more : String)
    (hs : s = a ++ "indent" ++ r)
    (hfirst : strings.Index s "indent" = (a.length : Int))
    (htoken : ' ' ∉ token.data)
    (hr : strings.TrimSpace r = token ∨ strings.TrimSpace r = token ++ " " ++ more) :
    calculateIndent s = (match strconv.Atoi token with
      | some n => n
      | none => -1) ∧
    (∀ t : String, strings.Index t "indent" = -1 → calculateIndent t = -1) := by
  constructor
  · unfold calculateIndent
    have hne : ¬ ((a.length : Int) = -1) := by omega
    simp only [hfirst, hne, if_false]
    have hrest : (⟨s.data.drop ((a.length : Int) + 6).toNat⟩ : String) = r := by
      apply String.ext
      have e0 : (a.data ++ ("indent" : String).data).length = a.length + 6 := by
        rw [List.length_append]
        rfl
      have e1 : ((a.length : Int) + 6).toNat = (a.data ++ ("indent" : String).data).length := by
        rw [e0]
        omega
      rw [hs, e1]
      simp only [String.data_append]
      rw [List.drop_left]
    rw [hrest]
    rcases hr with hr | hr
    · rw [hr, (strings.Split_head token more htoken).1]
      cases strconv.Atoi token <;> rfl
    · rw [hr, (strings.Split_head token more htoken).2]
      cases strconv.Atoi token <;> rfl
  · intro t ht
    unfold calculateIndent
    simp [ht]

/-- Witness of C27: the expression `toYaml .Values.env | indent 4`, with a space
before the closing braces and without one. -/
theorem calculateIndent_token_witness :
    (calculateIndent "\x7b\x7b toYaml .Values.env | indent 4 \x7d\x7d" =
        (match strconv.Atoi "4" with
          | some n => n
          | none => -1) ∧
      (∀ t : String, strings.Index t "indent" = -1 → calculateIndent t = -1)) ∧
    (calculateIndent "\x7b\x7b toYaml .Values.env | indent 4\x7d\x7d" =
        (match strconv.Atoi "4\x7d\x7d" with
          | some n => n
          | none => -1) ∧
      (∀ t : String, strings.Index t "indent" = -1 → calculateIndent t = -1)) ∧
    strconv.Atoi "4" = some 4 ∧ strconv.Atoi "4\x7d\x7d" = none :=
  ⟨calculateIndent_token "\x7b\x7b toYaml .Values.env | indent 4 \x7d\x7d"
      "\x7b\x7b toYaml .Values.env | " " 4 \x7d\x7d" "4" "\x7d\x7d" (by decide) (by decide)
      (by decide) (Or.inr (by decide)),
   calculateIndent_token "\x7b\x7b toYaml .Values.env | indent 4\x7d\x7d"
      "\x7b\x7b toYaml .Values.env | " " 4\x7d\x7d" "4\x7d\x7d" "" (by decide) (by decide)
      (by decide) (Or.inl (by decide)),
   by decide, by decide⟩

end helm

/-- An offset that `indexFrom` finds: the text found fits in the text. -/
theorem strings.indexFrom_bound (sub : List Char) :
    ∀ (l : List Char) (i j : Nat), strings.indexFrom sub l i = some j →
      i ≤ j ∧ (j - i) + sub.length ≤ l.length
  | [], i, j, h => by
    unfold strings.indexFrom at h
    split_ifs at h with he
    simp [List.isEmpty_iff] at he
    injection h with h
    subst h
    simp [he]
  | c :: cs, i, j, h => by
    unfold strings.indexFrom at h
    split_ifs at h with hp
    · injection h with h
      subst h
      have := (List.isPrefixOf_iff_prefix.mp hp).length_le
      simp only [Nat.sub_self, Nat.zero_add]
      exact ⟨Nat.le_refl _, this⟩
    · have := strings.indexFrom_bound sub cs (i + 1) j h
      simp only [List.length_cons]
      omega

theorem strings.Index_bound (s sub : String) (h : strings.Index s sub ≠ -1) :
    0 ≤ strings.Index s sub ∧ strings.Index s sub + (sub.length : Int) ≤ (s.length : Int) := by
  unfold strings.Index at *
  cases hi : strings.indexFrom sub.data s.data 0 with
  | none => simp [hi] at h
  | some j =>
    have := strings.indexFrom_bound _ _ _ _ hi
    simp only [String.length]
    omega

theorem gomap.get_set_ne (key other value : String) (h : key ≠ other) :
    ∀ m : List (String × String), gomap.get (gomap.set m key value) other = gomap.get m other
  | [] => by simp [gomap.set, gomap.get, h]
  | (k1, v1) :: rest => by
    have ih := gomap.get_set_ne key other value h rest
    unfold gomap.set
    by_cases hk : k1 = key
    · subst hk
      simp [gomap.get, h]
    · by_cases ho : k1 = other
      · subst ho
        simp [hk, gomap.get]
      · simp [hk, gomap.get, ho, ih]

theorem gomap.get_foldl_set (other : String) :
    ∀ (entries : List (String × String)) (m : List (String × String)),
      (∀ e ∈ entries, e.1 ≠ other) →
      gomap.get (entries.foldl (fun m e => gomap.set m e.1 e.2) m) other = gomap.get m other
  | [], m, _ => rfl
  | e :: rest, m, h => by
    simp only [List.foldl_cons]
    rw [gomap.get_foldl_set other rest _ (fun x hx => h x (List.mem_cons_of_mem _ hx))]
    exact gomap.get_set_ne _ _ _ (h e (List.mem_cons_self _ _)) m

namespace helm

end helm

/-! ## Occurrences of a text in a text -/

namespace strings

/-- A text is found nowhere exactly when it occurs at no offset. -/
theorem indexFrom_eq_none_iff (sub : List Char) :
    ∀ (l : List Char) (i : Nat), indexFrom sub l i = none ↔ occurrences sub l = 0
  | [], i => by
    unfold indexFrom occurrences
    split_ifs <;> simp
  | c :: cs, i => by
    have ih := indexFrom_eq_none_iff sub cs (i + 1)
    unfold indexFrom occurrences
    split_ifs with hp
    · simp
    · simpa using ih

/-- A text that occurs at no offset is a prefix of no remainder. -/
theorem occurrences_eq_zero (sub : List Char) (hsub : sub ≠ []) :
    ∀ (l : List Char), occurrences sub l = 0 → ∀ k : Nat, sub.isPrefixOf (l.drop k) = false
  | [], _, k => by
    cases sub with
    | nil => exact absurd rfl hsub
    | cons s rest => simp [List.isPrefixOf]
  | c :: cs, h, k => by
    unfold occurrences at h
    have h1 : sub.isPrefixOf (c :: cs) = false := by
      by_contra hc
      simp only [Bool.not_eq_false] at hc
      simp [hc] at h
    have h2 : occurrences sub cs = 0 := by omega
    cases k with
    | zero => simpa using h1
    | succ k => simpa using occurrences_eq_zero sub hsub cs h2 k

/-- A prefix of a text that ends before a character it does not hold. -/
theorem isPrefixOf_sep (c : Char) (v : List Char) :
    ∀ (sub u : List Char), c ∉ sub → sub.isPrefixOf (u ++ c :: v) = sub.isPrefixOf u
  | [], u, _ => by simp [List.isPrefixOf]
  | s :: sub, [], h => by
    have hs : ¬ (s = c) := fun e => h (e ▸ List.mem_cons_self _ _)
    simp [List.isPrefixOf, hs]
  | s :: sub, x :: u, h => by
    have ih := isPrefixOf_sep c v sub u (fun e => h (List.mem_cons_of_mem _ e))
    simp [List.isPrefixOf, ih]

/-- Occurrences on the two sides of a character that the text does not hold. -/
theorem occurrences_sep (sub : List Char) (hsub : sub ≠ []) (c : Char) (hc : c ∉ sub)
    (v : List Char) :
    ∀ u : List Char, occurrences sub (u ++ c :: v) = occurrences sub u + occurrences sub v
  | [] => by
    have h0 : sub.isPrefixOf (c :: v) = false := by
      have := isPrefixOf_sep c v sub [] hc
      simp only [List.nil_append] at this
      rw [this]
      cases sub with
      | nil => exact absurd rfl hsub
      | cons s rest => simp [List.isPrefixOf]
    have he : sub.isEmpty = false := by
      cases sub with
      | nil => exact absurd rfl hsub
      | cons s rest => rfl
    simp only [List.nil_append]
    rw [occurrences, occurrences]
    simp [h0, he]
  | x :: u => by
    have ih := occurrences_sep sub hsub c hc v u
    have hp := isPrefixOf_sep c v sub (x :: u) hc
    simp only [List.cons_append] at hp ⊢
    rw [occurrences, occurrences, hp, ih]
    omega

/-- Offsets before which the text does not occur are skipped by `indexFrom`. -/
theorem indexFrom_skip (sub t : List Char) :
    ∀ (a : List Char) (i : Nat),
      (∀ k : Nat, k < a.length → sub.isPrefixOf (a.drop k ++ t) = false) →
      indexFrom sub (a ++ t) i = indexFrom sub t (i + a.length)
  | [], i, _ => by simp
  | x :: a, i, h => by
    have h0 := h 0 (by simp)
    have ih := indexFrom_skip sub t a (i + 1) (fun k hk => by
      have := h (k + 1) (by simpa using hk)
      simpa using this)
    simp only [List.drop_zero, List.cons_append] at h0
    simp only [List.cons_append, List.length_cons]
    rw [indexFrom]
    simp only [h0, Bool.false_eq_true, if_false]
    rw [ih]
    congr 1
    omega

/-- Offsets before which the text does not occur do not count. -/
theorem occurrences_skip (sub t : List Char) :
    ∀ (a : List Char),
      (∀ k : Nat, k < a.length → sub.isPrefixOf (a.drop k ++ t) = false) →
      occurrences sub (a ++ t) = occurrences sub t
  | [], _ => by simp
  | x :: a, h => by
    have h0 := h 0 (by simp)
    have ih := occurrences_skip sub t a (fun k hk => by
      have := h (k + 1) (by simpa using hk)
      simpa using this)
    simp only [List.drop_zero, List.cons_append] at h0
    simp only [List.cons_append]
    rw [occurrences]
    simp [h0, ih]

/-- With no replacement left, `replaceScan` drops what it has to skip and copies. -/
theorem replaceScan_zero (old new : List Char) :
    ∀ (l : List Char) (skip : Nat), replaceScan old new 0 skip l = l.drop skip
  | [], skip => by
    unfold replaceScan
    simp
  | c :: cs, 0 => by
    have ih := replaceScan_zero old new cs 0
    rw [replaceScan]
    simp [ih]
  | c :: cs, skip + 1 => by
    have ih := replaceScan_zero old new cs skip
    rw [replaceScan]
    simp [ih]

/-- One replacement: the first occurrence is replaced. -/
theorem replaceScan_first (old new b : List Char) (hold : old ≠ []) :
    ∀ (a : List Char),
      (∀ k : Nat, k < a.length → old.isPrefixOf (a.drop k ++ (old ++ b)) = false) →
      replaceScan old new 1 0 (a ++ (old ++ b)) = a ++ (new ++ b)
  | [], _ => by
    cases old with
    | nil => exact absurd rfl hold
    | cons o rest =>
      simp only [List.nil_append, List.cons_append]
      rw [replaceScan]
      have hp : (o :: rest).isPrefixOf (o :: (rest ++ b)) = true := by
        simp [List.isPrefixOf]
      simp only [hp, and_true, ne_eq, one_ne_zero, not_false_eq_true, if_true]
      rw [show ((1 : Int) - 1) = 0 from rfl, replaceScan_zero]
      simp
  | x :: a, h => by
    have h0 := h 0 (by simp)
    have ih := replaceScan_first old new b hold a (fun k hk => by
      have := h (k + 1) (by simpa using hk)
      simpa using this)
    simp only [List.drop_zero, List.cons_append] at h0
    simp only [List.cons_append]
    rw [replaceScan]
    simp [h0, ih]

/-- A prefix of a text that reaches beyond its first part: what is left of it is a
prefix of the rest. -/
theorem isPrefixOf_drop (sub t : List Char) :
    ∀ (s : List Char), s.length ≤ sub.length → sub.isPrefixOf (s ++ t) = true →
      (sub.drop s.length).isPrefixOf t = true
  | [], _, h => by simpa using h
  | x :: s, hlen, h => by
    cases sub with
    | nil => simp at hlen
    | cons y sub =>
      simp only [List.cons_append, List.isPrefixOf, Bool.and_eq_true] at h
      have := isPrefixOf_drop sub t s (by simpa using hlen) h.2
      simpa using this

/-- A prefix of a text that ends within its first part is a prefix of that part. -/
theorem isPrefixOf_left (t : List Char) :
    ∀ (sub s : List Char), sub.length ≤ s.length → sub.isPrefixOf (s ++ t) = true →
      sub.isPrefixOf s = true
  | [], _, _, _ => by simp [List.isPrefixOf]
  | y :: sub, [], hlen, _ => by simp at hlen
  | y :: sub, x :: s, hlen, h => by
    simp only [List.cons_append, List.isPrefixOf, Bool.and_eq_true] at h ⊢
    exact ⟨h.1, isPrefixOf_left t sub s (by simpa using hlen) h.2⟩

/-- A text that is a prefix of no remainder occurs at no offset. -/
theorem occurrences_zero_of (sub : List Char) :
    ∀ (l : List Char), (∀ k : Nat, k ≤ l.length → sub.isPrefixOf (l.drop k) = false) →
      occurrences sub l = 0
  | [], h => by
    have := h 0 (Nat.le_refl _)
    unfold occurrences
    cases sub with
    | nil => simp [List.isPrefixOf] at this
    | cons s rest => rfl
  | c :: cs, h => by
    have h0 := h 0 (Nat.zero_le _)
    have ih := occurrences_zero_of sub cs (fun k hk => by
      have := h (k + 1) (by simpa using hk)
      simpa using this)
    simp only [List.drop_zero] at h0
    rw [occurrences]
    simp [h0, ih]

theorem isPrefixOf_append_right (sub u v : List Char) (h : sub.isPrefixOf u = true) :
    sub.isPrefixOf (u ++ v) = true :=
  List.isPrefixOf_iff_prefix.mpr
    ((List.isPrefixOf_iff_prefix.mp h).trans (List.prefix_append u v))

/-- A text that does not occur in a text does not occur in a beginning of it. -/
theorem occurrences_left_zero (sub : List Char) (hsub : sub ≠ []) (u v : List Char)
    (h : occurrences sub (u ++ v) = 0) : occurrences sub u = 0 := by
  apply occurrences_zero_of
  intro k hk
  have := occurrences_eq_zero sub hsub _ h k
  rw [List.drop_append_of_le_length hk] at this
  by_contra hc
  simp only [Bool.not_eq_false] at hc
  rw [isPrefixOf_append_right _ _ _ hc] at this
  exact Bool.noConfusion this

/-- The text `Contains` does not find is the text that occurs at no offset. -/
theorem Contains_eq_false_iff (s sub : String) :
    Contains s sub = false ↔ occurrences sub.data s.data = 0 := by
  unfold Contains Index
  rw [← indexFrom_eq_none_iff sub.data s.data 0]
  cases indexFrom sub.data s.data 0 with
  | none => simp
  | some j => simp

theorem Index_eq_neg_one_iff (s sub : String) :
    Index s sub = -1 ↔ occurrences sub.data s.data = 0 := by
  unfold Index
  rw [← indexFrom_eq_none_iff sub.data s.data 0]
  cases indexFrom sub.data s.data 0 with
  | none => simp
  | some j => simp

end strings

namespace helm

/-- The characters of the marker. -/
theorem tmpMagicStr_data : tmpMagicStr.data =
    ['c', 'r', 'o', 'c', 'k', 'i', 't', 'w', 'o', 'o', 'd', 'z', 'Z', ':', ' ',
     'h', 'e', 'i', 'h', 'e', 'i'] := rfl

/-- No end of the marker is a beginning of it: what is left of the marker after some
of its characters is not the beginning of an occurrence. -/
theorem marker_drop_unmatched (b : List Char) (j : Nat) (h1 : 1 ≤ j) (h2 : j ≤ 20) :
    (tmpMagicStr.data.drop j).isPrefixOf (tmpMagicStr.data ++ b) = false := by
  rw [tmpMagicStr_data]
  interval_cases j <;> simp [List.isPrefixOf]

theorem marker_unmatched_of_drop (b : List Char) (j : Nat) (h1 : 1 ≤ j) (h2 : j ≤ 20) :
    tmpMagicStr.data.isPrefixOf (tmpMagicStr.data.drop j ++ b) = false := by
  rw [tmpMagicStr_data]
  interval_cases j <;> simp [List.isPrefixOf]

/-- What is left of the marker after some of its characters is not the beginning of
the fallback. -/
theorem marker_drop_unmatched_fallback (b : List Char) (j : Nat) (h1 : 1 ≤ j) (h2 : j ≤ 20) :
    (tmpMagicStr.data.drop j).isPrefixOf (("test: test" : String).data ++ b) = false := by
  rw [tmpMagicStr_data]
  have e : ("test: test" : String).data = ['t', 'e', 's', 't', ':', ' ', 't', 'e', 's', 't'] := rfl
  rw [e]
  interval_cases j <;> simp [List.isPrefixOf]

/-- The marker does not begin within the fallback. -/
theorem marker_unmatched_in_fallback (b : List Char) (j : Nat) (h2 : j < 10) :
    tmpMagicStr.data.isPrefixOf ((("test: test" : String).data).drop j ++ b) = false := by
  rw [tmpMagicStr_data]
  have e : ("test: test" : String).data = ['t', 'e', 's', 't', ':', ' ', 't', 'e', 's', 't'] := rfl
  rw [e]
  interval_cases j <;> simp [List.isPrefixOf]

theorem tmpMagicStr_ne_nil : tmpMagicStr.data ≠ [] := by
  rw [tmpMagicStr_data]
  exact List.cons_ne_nil _ _

theorem tmpMagicStr_length : tmpMagicStr.data.length = 21 := rfl

/-- After a text without the marker, the first marker is the one that follows. -/
theorem marker_noEarly (a b : List Char) (ha : strings.occurrences tmpMagicStr.data a = 0) :
    ∀ k : Nat, k < a.length →
      tmpMagicStr.data.isPrefixOf (a.drop k ++ (tmpMagicStr.data ++ b)) = false := by
  intro k hk
  by_contra hc
  simp only [Bool.not_eq_false] at hc
  by_cases hlen : tmpMagicStr.data.length ≤ (a.drop k).length
  · have h1 := strings.isPrefixOf_left _ _ _ hlen hc
    rw [strings.occurrences_eq_zero _ tmpMagicStr_ne_nil a ha k] at h1
    exact Bool.noConfusion h1
  · have h1 := strings.isPrefixOf_drop _ _ _ (by omega) hc
    rw [marker_drop_unmatched b (a.drop k).length
      (by simp only [List.length_drop]; omega)
      (by rw [tmpMagicStr_length] at hlen; omega)] at h1
    exact Bool.noConfusion h1

/-- After a text without the marker and the fallback, no marker begins before the end
of the fallback. -/
theorem marker_noEarly_fallback (a b : List Char)
    (ha : strings.occurrences tmpMagicStr.data a = 0) :
    ∀ k : Nat, k < (a ++ ("test: test" : String).data).length →
      tmpMagicStr.data.isPrefixOf ((a ++ ("test: test" : String).data).drop k ++ b) = false := by
  intro k hk
  by_cases hka : k < a.length
  · rw [List.drop_append_of_le_length (Nat.le_of_lt hka), List.append_assoc]
    by_contra hc
    simp only [Bool.not_eq_false] at hc
    by_cases hlen : tmpMagicStr.data.length ≤ (a.drop k).length
    · have h1 := strings.isPrefixOf_left _ _ _ hlen hc
      rw [strings.occurrences_eq_zero _ tmpMagicStr_ne_nil a ha k] at h1
      exact Bool.noConfusion h1
    · have h1 := strings.isPrefixOf_drop _ _ _ (by omega) hc
      rw [marker_drop_unmatched_fallback b (a.drop k).length
        (by simp only [List.length_drop]; omega)
        (by rw [tmpMagicStr_length] at hlen; omega)] at h1
      exact Bool.noConfusion h1
  · have e : (a ++ ("test: test" : String).data).drop k =
        (("test: test" : String).data).drop (k - a.length) := by
      rw [List.drop_append_eq_append_drop, List.drop_of_length_le (by omega)]
      simp
    rw [e]
    have h10 : (("test: test" : String).data).length = 10 := rfl
    exact marker_unmatched_in_fallback b (k - a.length)
      (by simp only [List.length_append, h10] at hk; omega)

/-- The occurrences of the marker in a text that begins with it. -/
theorem marker_occurrences_self (b : List Char) :
    strings.occurrences tmpMagicStr.data (tmpMagicStr.data ++ b) =
      1 + strings.occurrences tmpMagicStr.data b := by
  have h := strings.occurrences_skip tmpMagicStr.data b tmpMagicStr.data.tail (by
    intro k hk
    have hk20 : k < 20 := hk
    have := marker_unmatched_of_drop b (k + 1) (by omega) (by omega)
    rw [show tmpMagicStr.data.drop (k + 1) = tmpMagicStr.data.tail.drop k from by
      rw [tmpMagicStr_data]; rfl] at this
    exact this)
  have e : tmpMagicStr.data ++ b = 'c' :: (tmpMagicStr.data.tail ++ b) := rfl
  have hp : tmpMagicStr.data.isPrefixOf ('c' :: (tmpMagicStr.data.tail ++ b)) = true := by
    rw [← e]
    exact strings.isPrefixOf_append_right _ _ _
      (List.isPrefixOf_iff_prefix.mpr (List.prefix_refl _))
  rw [e, strings.occurrences, h]
  simp [hp]

/-- A step of `replaceValue` on the first marker: the occurrences before it. -/
theorem marker_occurrences_step (a b : List Char)
    (ha : strings.occurrences tmpMagicStr.data a = 0) :
    strings.occurrences tmpMagicStr.data (a ++ (tmpMagicStr.data ++ b)) =
      1 + strings.occurrences tmpMagicStr.data b := by
  rw [strings.occurrences_skip _ _ a (marker_noEarly a b ha), marker_occurrences_self]

/-- A step of `replaceValue` with the fallback: the occurrences after it. -/
theorem marker_occurrences_fallback (a b : List Char)
    (ha : strings.occurrences tmpMagicStr.data a = 0) :
    strings.occurrences tmpMagicStr.data (a ++ ("test: test" : String).data ++ b) =
      strings.occurrences tmpMagicStr.data b :=
  strings.occurrences_skip _ _ _ (marker_noEarly_fallback a b ha)

/-- The occurrences of the marker around an expression in braces. -/
theorem marker_occurrences_braces (a body b : List Char) :
    strings.occurrences tmpMagicStr.data
        (a ++ ('{' :: '{' :: (body ++ ['}', '}'])) ++ b) =
      strings.occurrences tmpMagicStr.data a + strings.occurrences tmpMagicStr.data body +
        strings.occurrences tmpMagicStr.data b := by
  have ho : ('{' : Char) ∉ tmpMagicStr.data := by rw [tmpMagicStr_data]; decide
  have hc : ('}' : Char) ∉ tmpMagicStr.data := by rw [tmpMagicStr_data]; decide
  have h0 : strings.occurrences tmpMagicStr.data [] = 0 := rfl
  have e1 : a ++ ('{' :: '{' :: (body ++ ['}', '}'])) ++ b =
      a ++ '{' :: ([] ++ '{' :: (body ++ '}' :: ([] ++ '}' :: b))) := by simp
  rw [e1, strings.occurrences_sep _ tmpMagicStr_ne_nil _ ho,
    strings.occurrences_sep _ tmpMagicStr_ne_nil _ ho,
    strings.occurrences_sep _ tmpMagicStr_ne_nil _ hc,
    strings.occurrences_sep _ tmpMagicStr_ne_nil _ hc, h0]
  omega

end helm

theorem strings.indexFrom_at_start (sub : List Char) (hsub : sub ≠ []) :
    ∀ (t : List Char) (i : Nat), sub.isPrefixOf t = true → strings.indexFrom sub t i = some i
  | [], i, h => by
    cases sub with
    | nil => exact absurd rfl hsub
    | cons s rest => simp [List.isPrefixOf] at h
  | c :: cs, i, h => by
    rw [strings.indexFrom]
    simp [h]

namespace helm

/-- The offset of the marker that follows a text without the marker. -/
theorem Index_marker (pre post : String)
    (hpre : strings.occurrences tmpMagicStr.data pre.data = 0) :
    strings.Index (pre ++ tmpMagicStr ++ post) tmpMagicStr = (pre.length : Int) := by
  unfold strings.Index
  have hd : (pre ++ tmpMagicStr ++ post).data = pre.data ++ (tmpMagicStr.data ++ post.data) := by
    simp [String.data_append]
  rw [hd, strings.indexFrom_skip _ _ _ _ (marker_noEarly _ _ hpre),
    strings.indexFrom_at_start _ tmpMagicStr_ne_nil _ _
      (strings.isPrefixOf_append_right _ _ _
        (List.isPrefixOf_iff_prefix.mpr (List.prefix_refl _)))]
  simp only [Nat.zero_add]
  rfl

/-- One replacement of the marker that follows a text without the marker. -/
theorem Replace_marker (pre post new : String)
    (hpre : strings.occurrences tmpMagicStr.data pre.data = 0) :
    strings.Replace (pre ++ tmpMagicStr ++ post) tmpMagicStr new 1 = pre ++ new ++ post := by
  unfold strings.Replace
  have hd : (pre ++ tmpMagicStr ++ post).data = pre.data ++ (tmpMagicStr.data ++ post.data) := by
    simp [String.data_append]
  have he : tmpMagicStr.data.isEmpty = false := rfl
  simp only [he, Bool.false_eq_true, if_false]
  apply String.ext
  simp only [hd]
  rw [strings.replaceScan_first _ _ _ tmpMagicStr_ne_nil _ (marker_noEarly _ _ hpre)]
  simp [String.data_append]

/-- The text before the marker, as `replaceValue` slices it. -/
theorem slice_before_marker (pre post : String) :
    gostr.slice (pre ++ tmpMagicStr ++ post) 0 (pre.length : Int) = .ok pre := by
  unfold gostr.slice
  have hlen : (pre.length : Int) ≤ ((pre ++ tmpMagicStr ++ post).length : Int) := by
    simp only [String.length_append]
    omega
  rw [if_pos ⟨Int.le_refl _, by omega, hlen⟩]
  congr 1
  apply String.ext
  simp only [Int.toNat_ofNat, Int.toNat_zero, List.drop_zero, String.data_append,
    List.append_assoc]
  exact List.take_left _ _

/-- A call of `replaceValue` is a pass of its body, followed by the call of itself when
the pass does not return. -/
theorem replaceValue_eq_step (fuel : Nat) (manifest : String) (vm : List (String × String)) :
    replaceValue (fuel + 1) manifest vm =
      match replaceValue.step manifest vm with
      | .error e => .error e
      | .ok none => .ok (manifest, vm)
      | .ok (some next) => replaceValue fuel next.1 next.2 := by
  rw [replaceValue]
  unfold replaceValue.step
  simp only []
  by_cases hc : strings.Index manifest tmpMagicStr ≠ -1 ∧
      strings.Index manifest tmpMagicStr ≥ 8
  · rw [if_pos hc, if_pos hc]
    cases gostr.slice manifest 0 (strings.Index manifest tmpMagicStr) with
    | error e => rfl
    | ok key0 =>
      simp only []
      by_cases hk : (strings.Replace (strings.Replace key0 " " "" (-1)) "\n" "" (-1)).length ≥ 5 ∧
          gomap.get vm (gostr.last5
            (strings.Replace (strings.Replace key0 " " "" (-1)) "\n" "" (-1))) ≠ ""
      · rw [if_pos hk, if_pos hk]
        by_cases hi : calculateIndent (gomap.get vm (gostr.last5
            (strings.Replace (strings.Replace key0 " " "" (-1)) "\n" "" (-1)))) ≠ -1
        · rw [if_pos hi]
          cases gostr.sliceTo manifest (strings.Index manifest tmpMagicStr -
              calculateIndent (gomap.get vm (gostr.last5
                (strings.Replace (strings.Replace key0 " " "" (-1)) "\n" "" (-1))))) with
          | error e => rfl
          | ok head =>
            cases gostr.sliceFrom manifest (strings.Index manifest tmpMagicStr) with
            | error e => rfl
            | ok tail => rfl
        · rw [if_neg hi]
      · rw [if_neg hk, if_neg hk]
  · rw [if_neg hc, if_neg hc]

/-- A pass of `replaceValue` on a manifest without the marker, or with its first marker
at an offset below 8: the function returns. -/
theorem step_return (manifest : String) (vm : List (String × String))
    (h : strings.Index manifest tmpMagicStr < 8) :
    replaceValue.step manifest vm = .ok none := by
  unfold replaceValue.step
  have hc : ¬ (strings.Index manifest tmpMagicStr ≠ -1 ∧
      strings.Index manifest tmpMagicStr ≥ 8) := by omega
  simp only [hc, if_false]

/-- A step of `replaceValue` on a manifest without the marker, or with its first
marker at an offset below 8: the manifest is returned. -/
theorem replaceValue_return (fuel : Nat) (manifest : String) (vm : List (String × String))
    (h : strings.Index manifest tmpMagicStr < 8) :
    replaceValue (fuel + 1) manifest vm = .ok (manifest, vm) := by
  rw [replaceValue_eq_step, step_return manifest vm h]

/-- A pass of `replaceValue` on the first marker when no entry is found for its key:
the fallback takes its place. -/
theorem step_fallback (pre post : String)
    (vm : List (String × String))
    (hpre : strings.occurrences tmpMagicStr.data pre.data = 0) (h8 : 8 ≤ pre.length)
    (hkey : ¬ ((strings.Replace (strings.Replace pre " " "" (-1)) "\n" "" (-1)).length ≥ 5 ∧
      gomap.get vm (gostr.last5
        (strings.Replace (strings.Replace pre " " "" (-1)) "\n" "" (-1))) ≠ "")) :
    replaceValue.step (pre ++ tmpMagicStr ++ post) vm =
      .ok (some (pre ++ "test: test" ++ post, vm)) := by
  unfold replaceValue.step
  have hc : (pre.length : Int) ≠ -1 ∧ (pre.length : Int) ≥ 8 := by omega
  simp only [Index_marker pre post hpre, hc, if_true, slice_before_marker, hkey, if_false,
    Replace_marker pre post _ hpre, and_self]
  rw [if_pos ⟨hc.1, trivial⟩]

/-- A pass of `replaceValue` on the first marker when an entry without an indent is
found for its key: the expression takes its place. -/
theorem step_plain (pre post : String)
    (vm : List (String × String))
    (hpre : strings.occurrences tmpMagicStr.data pre.data = 0) (h8 : 8 ≤ pre.length)
    (hkey : (strings.Replace (strings.Replace pre " " "" (-1)) "\n" "" (-1)).length ≥ 5)
    (hval : gomap.get vm (gostr.last5
        (strings.Replace (strings.Replace pre " " "" (-1)) "\n" "" (-1))) ≠ "")
    (hindent : calculateIndent (gomap.get vm (gostr.last5
        (strings.Replace (strings.Replace pre " " "" (-1)) "\n" "" (-1)))) = -1) :
    replaceValue.step (pre ++ tmpMagicStr ++ post) vm =
      .ok (some
        (pre ++ gomap.get vm (gostr.last5
          (strings.Replace (strings.Replace pre " " "" (-1)) "\n" "" (-1))) ++ post,
         gomap.delete vm (strings.Replace (strings.Replace pre " " "" (-1)) "\n" "" (-1)))) := by
  unfold replaceValue.step
  have hc : (pre.length : Int) ≠ -1 ∧ (pre.length : Int) ≥ 8 := by omega
  have hk : (strings.Replace (strings.Replace pre " " "" (-1)) "\n" "" (-1)).length ≥ 5 ∧
      gomap.get vm (gostr.last5
        (strings.Replace (strings.Replace pre " " "" (-1)) "\n" "" (-1))) ≠ "" := ⟨hkey, hval⟩
  simp only [Index_marker pre post hpre, hc, if_true, slice_before_marker, hk, hindent,
    ne_eq, not_true_eq_false, if_false, Replace_marker pre post _ hpre, and_self]
  simp only [not_false_eq_true, and_self, if_true]

/-- A pass of `replaceValue` on the first marker when an entry with an indent in range
is found for its key: the characters of the indent are cut off before the marker and
the expression takes its place. -/
theorem step_indent (pre post : String)
    (vm : List (String × String)) (n : Nat)
    (hpre : strings.occurrences tmpMagicStr.data pre.data = 0) (h8 : 8 ≤ pre.length)
    (hkey : (strings.Replace (strings.Replace pre " " "" (-1)) "\n" "" (-1)).length ≥ 5)
    (hval : gomap.get vm (gostr.last5
        (strings.Replace (strings.Replace pre " " "" (-1)) "\n" "" (-1))) ≠ "")
    (hindent : calculateIndent (gomap.get vm (gostr.last5
        (strings.Replace (strings.Replace pre " " "" (-1)) "\n" "" (-1)))) = (n : Int))
    (hn : n ≤ pre.length) :
    replaceValue.step (pre ++ tmpMagicStr ++ post) vm =
      .ok (some
        ((⟨pre.data.take (pre.length - n)⟩ : String) ++ gomap.get vm (gostr.last5
          (strings.Replace (strings.Replace pre " " "" (-1)) "\n" "" (-1))) ++ post,
         gomap.delete vm (strings.Replace (strings.Replace pre " " "" (-1)) "\n" "" (-1)))) := by
  unfold replaceValue.step
  have hc : (pre.length : Int) ≠ -1 ∧ (pre.length : Int) ≥ 8 := by omega
  have hk : (strings.Replace (strings.Replace pre " " "" (-1)) "\n" "" (-1)).length ≥ 5 ∧
      gomap.get vm (gostr.last5
        (strings.Replace (strings.Replace pre " " "" (-1)) "\n" "" (-1))) ≠ "" := ⟨hkey, hval⟩
  have hni : ((n : Int) ≠ -1) := by omega
  have hd : (pre ++ tmpMagicStr ++ post).data = pre.data ++ (tmpMagicStr.data ++ post.data) := by
    simp [String.data_append]
  have hlen : (pre ++ tmpMagicStr ++ post).length =
      pre.data.length + (tmpMagicStr.data.length + post.data.length) := by
    show (pre ++ tmpMagicStr ++ post).data.length = _
    rw [hd]
    simp
  have hhead : gostr.sliceTo (pre ++ tmpMagicStr ++ post) ((pre.length : Int) - (n : Int)) =
      .ok ⟨pre.data.take (pre.length - n)⟩ := by
    unfold gostr.sliceTo gostr.slice
    rw [if_pos ⟨Int.le_refl _, by omega, by rw [hlen]; show _ ≤ ((_ : Nat) : Int); have : pre.length = pre.data.length := rfl; omega⟩]
    congr 1
    apply String.ext
    have e1 : ((pre.length : Int) - (n : Int)).toNat = pre.length - n := by omega
    simp only [e1, Int.toNat_zero, List.drop_zero, hd]
    rw [List.take_append_of_le_length (by show pre.length - n ≤ pre.length; omega)]
  have htail : gostr.sliceFrom (pre ++ tmpMagicStr ++ post) (pre.length : Int) =
      .ok (tmpMagicStr ++ post) := by
    unfold gostr.sliceFrom gostr.slice
    rw [if_pos ⟨by omega, by rw [hlen]; show _ ≤ ((_ : Nat) : Int); have : pre.length = pre.data.length := rfl; omega, Int.le_refl _⟩]
    congr 1
    apply String.ext
    rw [show ((pre ++ tmpMagicStr ++ post).length : Int).toNat =
      (pre ++ tmpMagicStr ++ post).data.length from Int.toNat_ofNat _, List.take_length, hd,
      show ((pre.length : Int)).toNat = pre.data.length from Int.toNat_ofNat _,
      List.drop_left]
    simp [String.data_append]
  have hcut : strings.occurrences tmpMagicStr.data
      (⟨pre.data.take (pre.length - n)⟩ : String).data = 0 := by
    apply strings.occurrences_left_zero _ tmpMagicStr_ne_nil _ (pre.data.drop (pre.length - n))
    simp only [List.take_append_drop]
    exact hpre
  have happ : (⟨pre.data.take (pre.length - n)⟩ : String) ++ (tmpMagicStr ++ post) =
      (⟨pre.data.take (pre.length - n)⟩ : String) ++ tmpMagicStr ++ post := by
    rw [String.append_assoc]
  simp only [Index_marker pre post hpre, hc, if_true, slice_before_marker, hk, hindent,
    ne_eq, hni, not_false_eq_true, hhead, htail, happ, Replace_marker _ post _ hcut, and_self]

/-- A pass of `replaceValue` on the first marker when an entry is found for its key
whose indent is greater than the offset of the marker: the slice is out of range. -/
theorem step_indent_out_of_range (pre post : String)
    (vm : List (String × String)) (n : Nat)
    (hpre : strings.occurrences tmpMagicStr.data pre.data = 0) (h8 : 8 ≤ pre.length)
    (hkey : (strings.Replace (strings.Replace pre " " "" (-1)) "\n" "" (-1)).length ≥ 5)
    (hval : gomap.get vm (gostr.last5
        (strings.Replace (strings.Replace pre " " "" (-1)) "\n" "" (-1))) ≠ "")
    (hindent : calculateIndent (gomap.get vm (gostr.last5
        (strings.Replace (strings.Replace pre " " "" (-1)) "\n" "" (-1)))) = (n : Int))
    (hn : pre.length < n) :
    replaceValue.step (pre ++ tmpMagicStr ++ post) vm =
      .error (.panic "slice bounds out of range") := by
  unfold replaceValue.step
  have hc : (pre.length : Int) ≠ -1 ∧ (pre.length : Int) ≥ 8 := by omega
  have hk : (strings.Replace (strings.Replace pre " " "" (-1)) "\n" "" (-1)).length ≥ 5 ∧
      gomap.get vm (gostr.last5
        (strings.Replace (strings.Replace pre " " "" (-1)) "\n" "" (-1))) ≠ "" := ⟨hkey, hval⟩
  have hni : ((n : Int) ≠ -1) := by omega
  have hhead : gostr.sliceTo (pre ++ tmpMagicStr ++ post) ((pre.length : Int) - (n : Int)) =
      .error (.panic "slice bounds out of range") := by
    unfold gostr.sliceTo gostr.slice
    rw [if_neg (by omega)]
  simp only [Index_marker pre post hpre, hc, if_true, slice_before_marker, hk, hindent,
    ne_eq, hni, not_false_eq_true, hhead, and_self]

/-- A step of `replaceValue` on the first marker when no entry is found for its key:
the fallback takes its place. -/
theorem replaceValue_step_fallback (fuel : Nat) (pre post : String)
    (vm : List (String × String))
    (hpre : strings.occurrences tmpMagicStr.data pre.data = 0) (h8 : 8 ≤ pre.length)
    (hkey : ¬ ((strings.Replace (strings.Replace pre " " "" (-1)) "\n" "" (-1)).length ≥ 5 ∧
      gomap.get vm (gostr.last5
        (strings.Replace (strings.Replace pre " " "" (-1)) "\n" "" (-1))) ≠ "")) :
    replaceValue (fuel + 1) (pre ++ tmpMagicStr ++ post) vm =
      replaceValue fuel (pre ++ "test: test" ++ post) vm := by
  rw [replaceValue_eq_step, step_fallback pre post vm hpre h8 hkey]

/-- A step of `replaceValue` on the first marker when an entry without an indent is
found for its key: the expression takes its place. -/
theorem replaceValue_step_plain (fuel : Nat) (pre post : String)
    (vm : List (String × String))
    (hpre : strings.occurrences tmpMagicStr.data pre.data = 0) (h8 : 8 ≤ pre.length)
    (hkey : (strings.Replace (strings.Replace pre " " "" (-1)) "\n" "" (-1)).length ≥ 5)
    (hval : gomap.get vm (gostr.last5
        (strings.Replace (strings.Replace pre " " "" (-1)) "\n" "" (-1))) ≠ "")
    (hindent : calculateIndent (gomap.get vm (gostr.last5
        (strings.Replace (strings.Replace pre " " "" (-1)) "\n" "" (-1)))) = -1) :
    replaceValue (fuel + 1) (pre ++ tmpMagicStr ++ post) vm =
      replaceValue fuel
        (pre ++ gomap.get vm (gostr.last5
          (strings.Replace (strings.Replace pre " " "" (-1)) "\n" "" (-1))) ++ post)
        (gomap.delete vm (strings.Replace (strings.Replace pre " " "" (-1)) "\n" "" (-1))) := by
  rw [replaceValue_eq_step, step_plain pre post vm hpre h8 hkey hval hindent]

/-- A step of `replaceValue` on the first marker when an entry with an indent in range
is found for its key: the characters of the indent are cut off before the marker and
the expression takes its place. -/
theorem replaceValue_step_indent (fuel : Nat) (pre post : String)
    (vm : List (String × String)) (n : Nat)
    (hpre : strings.occurrences tmpMagicStr.data pre.data = 0) (h8 : 8 ≤ pre.length)
    (hkey : (strings.Replace (strings.Replace pre " " "" (-1)) "\n" "" (-1)).length ≥ 5)
    (hval : gomap.get vm (gostr.last5
        (strings.Replace (strings.Replace pre " " "" (-1)) "\n" "" (-1))) ≠ "")
    (hindent : calculateIndent (gomap.get vm (gostr.last5
        (strings.Replace (strings.Replace pre " " "" (-1)) "\n" "" (-1)))) = (n : Int))
    (hn : n ≤ pre.length) :
    replaceValue (fuel + 1) (pre ++ tmpMagicStr ++ post) vm =
      replaceValue fuel
        ((⟨pre.data.take (pre.length - n)⟩ : String) ++ gomap.get vm (gostr.last5
          (strings.Replace (strings.Replace pre " " "" (-1)) "\n" "" (-1))) ++ post)
        (gomap.delete vm (strings.Replace (strings.Replace pre " " "" (-1)) "\n" "" (-1))) := by
  rw [replaceValue_eq_step, step_indent pre post vm n hpre h8 hkey hval hindent hn]

end helm

/-- A text that does not hold the first character of a text does not hold the text. -/
theorem strings.occurrences_not_mem (c : Char) (sub : List Char) :
    ∀ l : List Char, c ∉ l → strings.occurrences (c :: sub) l = 0
  | [], _ => rfl
  | x :: l, h => by
    have hx : ¬ (c = x) := fun e => h (e ▸ List.mem_cons_self _ _)
    have ih := strings.occurrences_not_mem c sub l (fun e => h (List.mem_cons_of_mem _ e))
    rw [strings.occurrences]
    simp [List.isPrefixOf, hx, ih]

namespace helm

/-- C23: the manifest is `pre ++ marker ++ post`, where `pre` is ASCII, so that the
offsets counted here are the offsets of Go, is without the marker and has at least 8
characters, at least 5 of them other than spaces and newlines, and the map has under
the key of `pre` a non-empty expression whose indent is `n`, at most the length of
`pre`.  Then `replaceValue` goes on with `pre` without its last `n` characters,
followed by the expression, followed by `post`, and with the map from which the key
made of all of `pre` is deleted; when no marker is left in that text, it is the
result. -/
theorem replaceValue_indent_cut (fuel : Nat) (pre post : String)
    (vm : List (String × String)) (n : Nat)
    (_hascii : gostr.ascii pre = true)
    (hpre : strings.Contains pre tmpMagicStr = false) (h8 : 8 ≤ pre.length)
    (hkey : (strings.Replace (strings.Replace pre " " "" (-1)) "\n" "" (-1)).length ≥ 5)
    (hval : gomap.get vm (gostr.last5
        (strings.Replace (strings.Replace pre " " "" (-1)) "\n" "" (-1))) ≠ "")
    (hindent : calculateIndent (gomap.get vm (gostr.last5
        (strings.Replace (strings.Replace pre " " "" (-1)) "\n" "" (-1)))) = (n : Int))
    (hn : n ≤ pre.length) :
    replaceValue (fuel + 1) (pre ++ tmpMagicStr ++ post) vm =
      replaceValue fuel
        ((⟨pre.data.take (pre.length - n)⟩ : String) ++ gomap.get vm (gostr.last5
          (strings.Replace (strings.Replace pre " " "" (-1)) "\n" "" (-1))) ++ post)
        (gomap.delete vm (strings.Replace (strings.Replace pre " " "" (-1)) "\n" "" (-1))) ∧
    (strings.Contains
        ((⟨pre.data.take (pre.length - n)⟩ : String) ++ gomap.get vm (gostr.last5
          (strings.Replace (strings.Replace pre " " "" (-1)) "\n" "" (-1))) ++ post)
        tmpMagicStr = false →
      replaceValue (fuel + 2) (pre ++ tmpMagicStr ++ post) vm =
        .ok ((⟨pre.data.take (pre.length - n)⟩ : String) ++ gomap.get vm (gostr.last5
            (strings.Replace (strings.Replace pre " " "" (-1)) "\n" "" (-1))) ++ post,
          gomap.delete vm
            (strings.Replace (strings.Replace pre " " "" (-1)) "\n" "" (-1)))) := by
  have hpre0 := (strings.Contains_eq_false_iff _ _).mp hpre
  refine ⟨replaceValue_step_indent fuel pre post vm n hpre0 h8 hkey hval hindent hn, ?_⟩
  intro hrest
  rw [replaceValue_step_indent (fuel + 1) pre post vm n hpre0 h8 hkey hval hindent hn]
  apply replaceValue_return
  rw [(strings.Index_eq_neg_one_iff _ _).mpr ((strings.Contains_eq_false_iff _ _).mp hrest)]
  decide

/-- C23 at work: an entry `env` whose expression has the indent 4, after four spaces,
in an ASCII text: the four spaces are cut off and the expression takes the place of
the marker. -/
theorem replaceValue_indent_cut_witness :
    replaceValue 2 ("data:\n  env:\n    " ++ tmpMagicStr ++ "\n")
        [(":env:", "\x7b\x7b toYaml .Values.env | indent 4 \x7d\x7d")] =
      .ok ((⟨("data:\n  env:\n    " : String).data.take
            (("data:\n  env:\n    " : String).length - 4)⟩ : String) ++
          gomap.get [(":env:", "\x7b\x7b toYaml .Values.env | indent 4 \x7d\x7d")]
            (gostr.last5 (strings.Replace (strings.Replace "data:\n  env:\n    " " " "" (-1))
              "\n" "" (-1))) ++ "\n",
        gomap.delete [(":env:", "\x7b\x7b toYaml .Values.env | indent 4 \x7d\x7d")]
          (strings.Replace (strings.Replace "data:\n  env:\n    " " " "" (-1)) "\n" "" (-1))) ∧
    ((⟨("data:\n  env:\n    " : String).data.take
          (("data:\n  env:\n    " : String).length - 4)⟩ : String) ++
        gomap.get [(":env:", "\x7b\x7b toYaml .Values.env | indent 4 \x7d\x7d")]
          (gostr.last5 (strings.Replace (strings.Replace "data:\n  env:\n    " " " "" (-1))
            "\n" "" (-1))) ++ "\n") =
      "data:\n  env:\n\x7b\x7b toYaml .Values.env | indent 4 \x7d\x7d\n" :=
  ⟨(replaceValue_indent_cut 0 "data:\n  env:\n    " "\n"
      [(":env:", "\x7b\x7b toYaml .Values.env | indent 4 \x7d\x7d")] 4
      (by decide) (by decide) (by decide) (by decide) (by decide) (by decide)
      (by decide)).2 (by decide),
   by decide⟩

/-- The function `getValuesMap` on a text without an opening brace: the map is
returned. -/
theorem getValuesMap_no_brace (post : String) (vMap : List (String × String))
    (hpost : ∀ c ∈ post.data, c ≠ '{' ∧ c ≠ '}') :
    getValuesMap post vMap = .ok vMap := by
  unfold getValuesMap
  rw [getValuesMap.go]
  have h : strings.Index post "\x7b\x7b" = -1 := by
    rw [strings.Index_eq_neg_one_iff]
    exact strings.occurrences_not_mem '{' ['{'] post.data (fun hm => (hpost _ hm).1 rfl)
  simp only [h, if_true]

/-- C21: the text is `pre ++ "{{" ++ body ++ "}}" ++ post`, where `pre`, `body` and
`post` hold no brace and no marker, the expression holds no `indent`, and `pre` has at
least 8 characters, at least 5 of them other than spaces and newlines.  Then
`getValuesMap` returns a map on the text, and with that map `replaceValue`, at any
depth from 2 on, returns the text for the manifest `pre ++ marker ++ post`. -/
theorem replaceValue_getValuesMap_roundtrip (fuel : Nat) (pre body post : String)
    (hpre : ∀ c ∈ pre.data, c ≠ '{' ∧ c ≠ '}')
    (hbody : ∀ c ∈ body.data, c ≠ '{' ∧ c ≠ '}')
    (hpost : ∀ c ∈ post.data, c ≠ '{' ∧ c ≠ '}')
    (hpreM : strings.Contains pre tmpMagicStr = false)
    (hbodyM : strings.Contains body tmpMagicStr = false)
    (hpostM : strings.Contains post tmpMagicStr = false)
    (hindent : strings.Contains ("\x7b\x7b" ++ body ++ "\x7d\x7d") "indent" = false)
    (h8 : 8 ≤ pre.length)
    (h5 : 5 ≤ (pre.data.filter (fun x => x != ' ' && x != '\n')).length) :
    ∃ vMap vMap1 : List (String × String),
      getValuesMap (pre ++ "\x7b\x7b" ++ body ++ "\x7d\x7d" ++ post) [] = .ok vMap ∧
      replaceValue (fuel + 2) (pre ++ tmpMagicStr ++ post) vMap =
        .ok (pre ++ "\x7b\x7b" ++ body ++ "\x7d\x7d" ++ post, vMap1) := by
  have hpre0 := (strings.Contains_eq_false_iff _ _).mp hpreM
  have hbody0 := (strings.Contains_eq_false_iff _ _).mp hbodyM
  have hpost0 := (strings.Contains_eq_false_iff _ _).mp hpostM
  have hmap : getValuesMap (pre ++ "\x7b\x7b" ++ body ++ "\x7d\x7d" ++ post) [] =
      .ok [((⟨(pre.data.filter (fun x => x != ' ' && x != '\n')).drop
              ((pre.data.filter (fun x => x != ' ' && x != '\n')).length - 5)⟩ : String),
            "\x7b\x7b" ++ body ++ "\x7d\x7d")] := by
    rw [getValuesMap_step pre body post [] hpre hbody, if_pos h5,
      getValuesMap_no_brace post _ hpost]
    rfl
  have hstrip := strings.Replace_strip pre
  have hlast : gostr.last5 (strings.Replace (strings.Replace pre " " "" (-1)) "\n" "" (-1)) =
      (⟨(pre.data.filter (fun x => x != ' ' && x != '\n')).drop
        ((pre.data.filter (fun x => x != ' ' && x != '\n')).length - 5)⟩ : String) := by
    rw [hstrip]
    rfl
  have hget : gomap.get
      [((⟨(pre.data.filter (fun x => x != ' ' && x != '\n')).drop
              ((pre.data.filter (fun x => x != ' ' && x != '\n')).length - 5)⟩ : String),
            "\x7b\x7b" ++ body ++ "\x7d\x7d")]
      (gostr.last5 (strings.Replace (strings.Replace pre " " "" (-1)) "\n" "" (-1))) =
      "\x7b\x7b" ++ body ++ "\x7d\x7d" := by
    rw [hlast]
    simp [gomap.get]
  have hne : ("\x7b\x7b" ++ body ++ "\x7d\x7d" : String) ≠ "" := by
    intro h
    have := congrArg String.length h
    simp only [String.length_append] at this
    have e1 : ("\x7b\x7b" : String).length = 2 := rfl
    have e2 : ("" : String).length = 0 := rfl
    omega
  have hcalc : calculateIndent ("\x7b\x7b" ++ body ++ "\x7d\x7d") = -1 := by
    unfold calculateIndent
    have : strings.Index ("\x7b\x7b" ++ body ++ "\x7d\x7d") "indent" = -1 :=
      (strings.Index_eq_neg_one_iff _ _).mpr ((strings.Contains_eq_false_iff _ _).mp hindent)
    simp [this]
  refine ⟨_, gomap.delete
    [((⟨(pre.data.filter (fun x => x != ' ' && x != '\n')).drop
        ((pre.data.filter (fun x => x != ' ' && x != '\n')).length - 5)⟩ : String),
      "\x7b\x7b" ++ body ++ "\x7d\x7d")]
    (strings.Replace (strings.Replace pre " " "" (-1)) "\n" "" (-1)), hmap, ?_⟩
  rw [replaceValue_step_plain (fuel + 1) pre post _ hpre0 h8
    (by rw [hstrip]; exact h5) (by rw [hget]; exact hne) (by rw [hget]; exact hcalc), hget]
  have htext : pre ++ ("\x7b\x7b" ++ body ++ "\x7d\x7d") ++ post =
      pre ++ "\x7b\x7b" ++ body ++ "\x7d\x7d" ++ post := by
    simp only [String.append_assoc]
  rw [htext]
  apply replaceValue_return
  have hocc : strings.occurrences tmpMagicStr.data
      (pre ++ "\x7b\x7b" ++ body ++ "\x7d\x7d" ++ post).data = 0 := by
    have hd : (pre ++ "\x7b\x7b" ++ body ++ "\x7d\x7d" ++ post).data =
        pre.data ++ ('{' :: '{' :: (body.data ++ ['}', '}'])) ++ post.data := by
      simp [String.data_append]
    rw [hd, marker_occurrences_braces, hpre0, hbody0, hpost0]
  rw [(strings.Index_eq_neg_one_iff _ _).mpr hocc]
  decide

/-- Witness of C21: a ConfigMap entry `name` and its expression. -/
theorem replaceValue_getValuesMap_roundtrip_witness :
    ∃ vMap vMap1 : List (String × String),
      getValuesMap ("data:\n  name: " ++ "\x7b\x7b" ++ " .Values.name " ++ "\x7d\x7d" ++ "\n") [] =
        .ok vMap ∧
      replaceValue (0 + 2) ("data:\n  name: " ++ tmpMagicStr ++ "\n") vMap =
        .ok ("data:\n  name: " ++ "\x7b\x7b" ++ " .Values.name " ++ "\x7d\x7d" ++ "\n", vMap1) :=
  replaceValue_getValuesMap_roundtrip 0 "data:\n  name: " " .Values.name " "\n"
    (by decide) (by decide) (by decide) (by decide) (by decide) (by decide) (by decide)
    (by decide) (by decide)

end helm

/-- An offset that `indexFrom` finds: the text before it, in which the text found does
not begin, and the text from it on, which begins with the text found. -/
theorem strings.indexFrom_split (sub : List Char) :
    ∀ (l : List Char) (i j : Nat), strings.indexFrom sub l i = some j →
      ∃ a t : List Char, l = a ++ t ∧ j = i + a.length ∧ sub.isPrefixOf t = true ∧
        ∀ k : Nat, k < a.length → sub.isPrefixOf (a.drop k ++ t) = false
  | [], i, j, h => by
    unfold strings.indexFrom at h
    split_ifs at h with he
    injection h with h
    refine ⟨[], [], rfl, by simp [h], ?_, by simp⟩
    cases sub with
    | nil => rfl
    | cons s rest => simp at he
  | c :: cs, i, j, h => by
    unfold strings.indexFrom at h
    split_ifs at h with hp
    · injection h with h
      exact ⟨[], c :: cs, rfl, by simp [h], hp, by simp⟩
    · obtain ⟨a, t, hl, hj, ht, hno⟩ := strings.indexFrom_split sub cs (i + 1) j h
      refine ⟨c :: a, t, by simp [hl], by simp only [List.length_cons]; omega, ht, ?_⟩
      intro k hk
      cases k with
      | zero =>
        simp only [List.drop_zero, List.cons_append, ← hl]
        exact (Bool.not_eq_true _).mp hp
      | succ k =>
        simp only [List.drop_succ_cons]
        exact hno k (by simpa using hk)

/-- The offset of a text that does not begin within the first part of a text. -/
theorem strings.Index_skip_bound (s sub : String) (x b : List Char) (hs : s.data = x ++ b)
    (h : ∀ k : Nat, k < x.length → sub.data.isPrefixOf (x.drop k ++ b) = false) :
    strings.Index s sub = -1 ∨ (x.length : Int) ≤ strings.Index s sub := by
  unfold strings.Index
  rw [hs, strings.indexFrom_skip _ _ _ _ h]
  cases hi : strings.indexFrom sub.data b (0 + x.length) with
  | none => exact Or.inl rfl
  | some j =>
    right
    have := strings.indexFrom_bound _ _ _ _ hi
    simp only []
    omega

theorem gomap.get_mem (key : String) :
    ∀ m : List (String × String), gomap.get m key ≠ "" → ∃ e ∈ m, e.2 = gomap.get m key
  | [], h => by simp [gomap.get] at h
  | (k1, v) :: rest, h => by
    unfold gomap.get at h ⊢
    by_cases hk : k1 = key
    · simp only [hk, if_true] at h ⊢
      exact ⟨(key, v), List.mem_cons_self _ _, rfl⟩
    · simp only [hk, if_false] at h ⊢
      obtain ⟨e, he, hv⟩ := gomap.get_mem key rest h
      exact ⟨e, List.mem_cons_of_mem _ he, hv⟩

theorem gomap.mem_of_mem_delete (key : String) (m : List (String × String))
    (e : String × String) (h : e ∈ gomap.delete m key) : e ∈ m := by
  unfold gomap.delete at h
  exact (List.mem_filter.mp h).1

namespace helm

/-- The first marker of a manifest: the text before it, without the marker, and the
text after it. -/
theorem marker_split (manifest : String) (h : strings.Index manifest tmpMagicStr ≠ -1) :
    ∃ pre post : String, manifest = pre ++ tmpMagicStr ++ post ∧
      strings.occurrences tmpMagicStr.data pre.data = 0 ∧
      strings.Index manifest tmpMagicStr = (pre.length : Int) := by
  unfold strings.Index at h ⊢
  cases hi : strings.indexFrom tmpMagicStr.data manifest.data 0 with
  | none => simp [hi] at h
  | some j =>
    obtain ⟨a, t, hl, hj, ht, hno⟩ := strings.indexFrom_split _ _ _ _ hi
    obtain ⟨b, hb⟩ := List.isPrefixOf_iff_prefix.mp ht
    refine ⟨⟨a⟩, ⟨b⟩, ?_, ?_, ?_⟩
    · apply String.ext
      simp only [String.data_append, hl, ← hb, List.append_assoc]
    · apply strings.occurrences_zero_of
      intro k hk
      by_cases hka : k < a.length
      · by_contra hc
        simp only [Bool.not_eq_false] at hc
        have := hno k hka
        rw [strings.isPrefixOf_append_right _ _ _ hc] at this
        exact Bool.noConfusion this
      · have : k = a.length := by
          have : k ≤ a.length := hk
          omega
        rw [this, List.drop_length, tmpMagicStr_data]
        rfl
    · simp only [hj, Nat.zero_add]
      rfl

/-- After a text without the marker and an expression in braces without the marker, no
marker begins before the end of the expression. -/
theorem marker_noEarly_braces (a body b : List Char)
    (ha : strings.occurrences tmpMagicStr.data a = 0)
    (hbody : strings.occurrences tmpMagicStr.data body = 0) :
    ∀ k : Nat, k < (a ++ ('{' :: '{' :: (body ++ ['}', '}']))).length →
      tmpMagicStr.data.isPrefixOf
        ((a ++ ('{' :: '{' :: (body ++ ['}', '}']))).drop k ++ b) = false := by
  intro k hk
  have ho : ('{' : Char) ∉ tmpMagicStr.data := by rw [tmpMagicStr_data]; decide
  have hc : ('}' : Char) ∉ tmpMagicStr.data := by rw [tmpMagicStr_data]; decide
  have h0 : strings.occurrences tmpMagicStr.data [] = 0 := rfl
  have e1 : a ++ ('{' :: '{' :: (body ++ ['}', '}'])) =
      (a ++ '{' :: ([] ++ '{' :: (body ++ '}' :: []))) ++ ['}'] := by simp
  have hx : strings.occurrences tmpMagicStr.data
      (a ++ '{' :: ([] ++ '{' :: (body ++ '}' :: []))) = 0 := by
    rw [strings.occurrences_sep _ tmpMagicStr_ne_nil _ ho,
      strings.occurrences_sep _ tmpMagicStr_ne_nil _ ho,
      strings.occurrences_sep _ tmpMagicStr_ne_nil _ hc, h0, ha, hbody]
  rw [e1] at hk ⊢
  rw [List.drop_append_of_le_length (by
      simp only [List.length_append, List.length_cons, List.length_nil] at hk ⊢
      omega),
    List.append_assoc, List.singleton_append, strings.isPrefixOf_sep _ _ _ _ hc]
  exact strings.occurrences_eq_zero _ tmpMagicStr_ne_nil _ hx k

/-- An expression in braces that has an indent has at least 8 characters. -/
theorem indent_length (body : String)
    (h : calculateIndent ("\x7b\x7b" ++ body ++ "\x7d\x7d") ≠ -1) :
    8 ≤ ("\x7b\x7b" ++ body ++ "\x7d\x7d" : String).length := by
  have hidx : strings.Index ("\x7b\x7b" ++ body ++ "\x7d\x7d") "indent" ≠ -1 := by
    intro hc
    apply h
    unfold calculateIndent
    simp [hc]
  have hidx2 : strings.indexFrom ("indent" : String).data
      ("\x7b\x7b" ++ body ++ "\x7d\x7d" : String).data 0 ≠ none := by
    intro hc
    apply hidx
    unfold strings.Index
    rw [hc]
  have hd : ("\x7b\x7b" ++ body ++ "\x7d\x7d" : String).data =
      '{' :: '{' :: (body.data ++ ['}', '}']) := by
    simp [String.data_append]
  have hi : ("indent" : String).data = ['i', 'n', 'd', 'e', 'n', 't'] := rfl
  cases hf : strings.indexFrom ("indent" : String).data
      ("\x7b\x7b" ++ body ++ "\x7d\x7d" : String).data 0 with
  | none => exact absurd hf hidx2
  | some j =>
    rw [hd, hi, strings.indexFrom, strings.indexFrom] at hf
    simp only [List.isPrefixOf, show (('i' : Char) == '{') = false from by decide,
      Bool.false_and, Bool.false_eq_true, if_false] at hf
    have := strings.indexFrom_bound _ _ _ _ hf
    show 8 ≤ ("\x7b\x7b" ++ body ++ "\x7d\x7d" : String).data.length
    rw [hd]
    simp only [List.length_cons, List.length_append, List.length_nil] at this ⊢
    omega

end helm

namespace helm

/-- The occurrences of the marker in a manifest, counted from its first marker. -/
theorem marker_occurrences_manifest (pre post : String)
    (hpre : strings.occurrences tmpMagicStr.data pre.data = 0) :
    strings.occurrences tmpMagicStr.data (pre ++ tmpMagicStr ++ post).data =
      1 + strings.occurrences tmpMagicStr.data post.data := by
  have hd : (pre ++ tmpMagicStr ++ post).data = pre.data ++ (tmpMagicStr.data ++ post.data) := by
    simp [String.data_append]
  rw [hd, marker_occurrences_step _ _ hpre]

end helm

/-! ## The scan of `getValuesMap`: claims C20 and C28 -/

namespace gomap

/-- The keys of a map after an entry has been set. -/
theorem any_set (key k v : String) :
    ∀ m : List (String × String),
      (set m k v).any (fun e => decide (e.1 = key)) =
        (m.any (fun e => decide (e.1 = key)) || decide (k = key))
  | [] => by simp [set]
  | (k1, v1) :: rest => by
    have ih := any_set key k v rest
    unfold set
    by_cases hk : k1 = k
    · subst hk
      by_cases h1 : k1 = key <;> simp [h1]
    · simp only [hk, if_false, List.any_cons, ih, Bool.or_assoc]

/-- The keys of a map after entries have been set one after the other. -/
theorem any_foldl_set (key : String) :
    ∀ (entries m : List (String × String)),
      (entries.foldl (fun m e => set m e.1 e.2) m).any (fun e => decide (e.1 = key)) =
        (m.any (fun e => decide (e.1 = key)) || entries.any (fun e => decide (e.1 = key)))
  | [], m => by simp
  | e :: rest, m => by
    simp only [List.foldl_cons, List.any_cons]
    rw [any_foldl_set key rest, any_set, Bool.or_assoc]

/-- The value read under the key that has been set. -/
theorem get_set_same (key value : String) :
    ∀ m : List (String × String), get (set m key value) key = value
  | [] => by simp [set, get]
  | (k1, v1) :: rest => by
    have ih := get_set_same key value rest
    unfold set
    by_cases hk : k1 = key
    · simp [hk, get]
    · simp [hk, get, ih]

/-- Entries set one after the other on a map: under a key of theirs the map reads what
it reads when they are set on the empty map, under another key what it read before. -/
theorem get_foldl_set_overlay (key : String) :
    ∀ (entries m : List (String × String)),
      get (entries.foldl (fun m e => set m e.1 e.2) m) key =
        if entries.any (fun e => decide (e.1 = key)) then
          get (entries.foldl (fun m e => set m e.1 e.2) []) key
        else get m key
  | [], m => by simp
  | e :: rest, m => by
    simp only [List.foldl_cons, List.any_cons]
    rw [get_foldl_set_overlay key rest (set m e.1 e.2),
      get_foldl_set_overlay key rest (set [] e.1 e.2)]
    by_cases hr : rest.any (fun e => decide (e.1 = key)) = true
    · simp [hr]
    · simp only [hr, Bool.false_eq_true, if_false, Bool.or_false]
      by_cases he : e.1 = key
      · subst he
        simp [get_set_same]
      · simp only [he, decide_False, Bool.false_eq_true, if_false]
        exact get_set_ne _ _ _ he m

end gomap

namespace helm

/-- The function `getValuesMap` on a text without `{{`: the map is returned. -/
theorem getValuesMap_done (text : String) (vMap : List (String × String))
    (h : strings.Contains text "\x7b\x7b" = false) :
    getValuesMap text vMap = .ok vMap := by
  unfold getValuesMap
  rw [getValuesMap.go]
  have hi : strings.Index text "\x7b\x7b" = -1 :=
    (strings.Index_eq_neg_one_iff _ _).mpr ((strings.Contains_eq_false_iff _ _).mp h)
  simp only [hi, if_true]

/-- A text that is in order: `getValuesMap` returns the map with the entries of the
expressions set one after the other, and the entries are those of the text, whatever
the map. -/
theorem getValuesMap_go_entries :
    ∀ (fuel : Nat) (cms : String),
      cms.length < fuel → getValuesMap.inOrder fuel cms = true →
      ∃ entries : List (String × String), ∀ vMap : List (String × String),
        getValuesMap.go fuel cms vMap =
          .ok (entries.foldl (fun m e => gomap.set m e.1 e.2) vMap)
  | 0, _, h, _ => absurd h (Nat.not_lt_zero _)
  | fuel + 1, cms, hlen, hord => by
    unfold getValuesMap.inOrder at hord
    simp only [] at hord
    by_cases hk : strings.Index cms "\x7b\x7b" = -1
    · refine ⟨[], fun vMap => ?_⟩
      rw [getValuesMap.go]
      simp [hk]
    · simp only [hk, if_false, Bool.and_eq_true, decide_eq_true_eq] at hord
      obtain ⟨hlt, hrec⟩ := hord
      have hkb := strings.Index_bound cms "\x7b\x7b" hk
      have hvb := strings.Index_bound cms "\x7d\x7d" (by omega)
      have e2 : ("\x7d\x7d" : String).length = 2 := by decide
      rw [e2] at hvb
      have h1 : gostr.slice cms (strings.Index cms "\x7b\x7b")
          (strings.Index cms "\x7d\x7d" + 2) =
          .ok ⟨(cms.data.take (strings.Index cms "\x7d\x7d" + 2).toNat).drop
            (strings.Index cms "\x7b\x7b").toNat⟩ := by
        unfold gostr.slice
        rw [if_pos ⟨hkb.1, by omega, by simpa using hvb.2⟩]
      have h2 : gostr.sliceTo cms (strings.Index cms "\x7b\x7b") =
          .ok ⟨(cms.data.take (strings.Index cms "\x7b\x7b").toNat).drop (0 : Int).toNat⟩ := by
        unfold gostr.sliceTo gostr.slice
        rw [if_pos ⟨Int.le_refl _, hkb.1, by omega⟩]
      have h3 : gostr.sliceFrom cms (strings.Index cms "\x7d\x7d" + 2) =
          .ok ⟨cms.data.drop (strings.Index cms "\x7d\x7d" + 2).toNat⟩ := by
        unfold gostr.sliceFrom gostr.slice
        rw [if_pos ⟨by omega, by simpa using hvb.2, Int.le_refl _⟩]
        congr 2
        rw [show ((cms.length : Int)).toNat = cms.data.length from Int.toNat_ofNat _,
          List.take_length]
      have hshort := gostr.sliceFrom_length _ _ _ (by omega) h3
      obtain ⟨entries, hrest⟩ := getValuesMap_go_entries fuel
        ⟨cms.data.drop (strings.Index cms "\x7d\x7d" + 2).toNat⟩ (by omega) hrec
      by_cases h5 : (strings.Replace (strings.Replace
            ⟨(cms.data.take (strings.Index cms "\x7b\x7b").toNat).drop (0 : Int).toNat⟩
            " " "" (-1)) "\n" "" (-1)).length ≥ 5
      · refine ⟨(gostr.last5 (strings.Replace (strings.Replace
            ⟨(cms.data.take (strings.Index cms "\x7b\x7b").toNat).drop (0 : Int).toNat⟩
            " " "" (-1)) "\n" "" (-1)),
            ⟨(cms.data.take (strings.Index cms "\x7d\x7d" + 2).toNat).drop
              (strings.Index cms "\x7b\x7b").toNat⟩) :: entries, fun vMap => ?_⟩
        rw [getValuesMap.go]
        simp only [hk, if_false, h1, h2, h3, h5, if_true, hrest, List.foldl_cons]
      · refine ⟨entries, fun vMap => ?_⟩
        rw [getValuesMap.go]
        simp only [hk, if_false, h1, h2, h3, h5, hrest]

/-- C20: the text is `pre ++ "{{" ++ body ++ "}}" ++ rest`, where `pre` is ASCII and
`pre` and `body` hold no brace.  The scan of `getValuesMap` goes on with `rest` alone,
and with the map in which the entry (last 5 characters of `pre` without its spaces and
newline characters) -> (the expression, braces included) has been set when `pre`
without its spaces and newline characters has at least 5 characters, and with the map
as it was otherwise.  When `rest` holds no `{{`, that map is the result; a text
without `{{` gives the map back.  The entry that is set is read back under its key,
and what is read under any other key is unchanged. -/
theorem getValuesMap_expression (pre body rest : String) (vMap : List (String × String))
    (_hascii : gostr.ascii pre = true)
    (hpre : ∀ c ∈ pre.data, c ≠ '{' ∧ c ≠ '}')
    (hbody : ∀ c ∈ body.data, c ≠ '{' ∧ c ≠ '}') :
    getValuesMap (pre ++ "\x7b\x7b" ++ body ++ "\x7d\x7d" ++ rest) vMap =
      getValuesMap rest
        (if 5 ≤ (pre.data.filter (fun x => x != ' ' && x != '\n')).length then
          gomap.set vMap
            ⟨(pre.data.filter (fun x => x != ' ' && x != '\n')).drop
              ((pre.data.filter (fun x => x != ' ' && x != '\n')).length - 5)⟩
            ("\x7b\x7b" ++ body ++ "\x7d\x7d")
        else vMap) ∧
    (strings.Contains rest "\x7b\x7b" = false →
      getValuesMap (pre ++ "\x7b\x7b" ++ body ++ "\x7d\x7d" ++ rest) vMap =
        .ok (if 5 ≤ (pre.data.filter (fun x => x != ' ' && x != '\n')).length then
          gomap.set vMap
            ⟨(pre.data.filter (fun x => x != ' ' && x != '\n')).drop
              ((pre.data.filter (fun x => x != ' ' && x != '\n')).length - 5)⟩
            ("\x7b\x7b" ++ body ++ "\x7d\x7d")
        else vMap)) ∧
    (∀ (text : String) (m : List (String × String)),
      strings.Contains text "\x7b\x7b" = false → getValuesMap text m = .ok m) ∧
    (∀ key value : String, gomap.get (gomap.set vMap key value) key = value) ∧
    (∀ key other value : String, key ≠ other →
      gomap.get (gomap.set vMap key value) other = gomap.get vMap other) := by
  refine ⟨getValuesMap_step pre body rest vMap hpre hbody, ?_, getValuesMap_done,
    fun key value => gomap.get_set_same key value vMap,
    fun key other value h => gomap.get_set_ne key other value h vMap⟩
  intro hrest
  rw [getValuesMap_step pre body rest vMap hpre hbody]
  exact getValuesMap_done rest _ hrest

/-- C20 at work.  A ConfigMap entry `name`, followed by text without an expression:
the map is the single entry `name:` with the expression.  An expression after ` x: `,
whose key has two characters: nothing is recorded, the map is given back.  And a text
with both, one after the other: the key of the second expression is taken from the
text after the closing braces of the first, it has two characters, and the map is the
entry of the first alone. -/
theorem getValuesMap_expression_witness :
    (getValuesMap ("data:\n  name: " ++ "\x7b\x7b" ++ " .Values.name " ++ "\x7d\x7d" ++ "\n") [] =
      .ok (if 5 ≤ (("data:\n  name: " : String).data.filter
            (fun x => x != ' ' && x != '\n')).length then
          gomap.set []
            ⟨(("data:\n  name: " : String).data.filter (fun x => x != ' ' && x != '\n')).drop
              ((("data:\n  name: " : String).data.filter
                (fun x => x != ' ' && x != '\n')).length - 5)⟩
            ("\x7b\x7b" ++ " .Values.name " ++ "\x7d\x7d")
        else [])) ∧
    (if 5 ≤ (("data:\n  name: " : String).data.filter
            (fun x => x != ' ' && x != '\n')).length then
          gomap.set []
            ⟨(("data:\n  name: " : String).data.filter (fun x => x != ' ' && x != '\n')).drop
              ((("data:\n  name: " : String).data.filter
                (fun x => x != ' ' && x != '\n')).length - 5)⟩
            ("\x7b\x7b" ++ " .Values.name " ++ "\x7d\x7d")
        else []) = [("name:", "\x7b\x7b .Values.name \x7d\x7d")] ∧
    getValuesMap "data:\n  name: \x7b\x7b .Values.name \x7d\x7d\n" [] =
      .ok [("name:", "\x7b\x7b .Values.name \x7d\x7d")] ∧
    (getValuesMap (" x: " ++ "\x7b\x7b" ++ " .Values.b " ++ "\x7d\x7d" ++ "\n")
        [("port:", "\x7b\x7b .Values.c \x7d\x7d")] =
      .ok (if 5 ≤ ((" x: " : String).data.filter (fun x => x != ' ' && x != '\n')).length then
          gomap.set [("port:", "\x7b\x7b .Values.c \x7d\x7d")]
            ⟨((" x: " : String).data.filter (fun x => x != ' ' && x != '\n')).drop
              (((" x: " : String).data.filter (fun x => x != ' ' && x != '\n')).length - 5)⟩
            ("\x7b\x7b" ++ " .Values.b " ++ "\x7d\x7d")
        else [("port:", "\x7b\x7b .Values.c \x7d\x7d")])) ∧
    getValuesMap " x: \x7b\x7b .Values.b \x7d\x7d\n" [("port:", "\x7b\x7b .Values.c \x7d\x7d")] =
      .ok [("port:", "\x7b\x7b .Values.c \x7d\x7d")] ∧
    getValuesMap "data:\n  name: \x7b\x7b .Values.name \x7d\x7d x: \x7b\x7b .Values.b \x7d\x7d\n" [] =
      .ok [("name:", "\x7b\x7b .Values.name \x7d\x7d")] :=
  ⟨(getValuesMap_expression "data:\n  name: " " .Values.name " "\n" [] (by decide)
      (by decide) (by decide)).2.1 (by decide),
   by decide, rfl,
   (getValuesMap_expression " x: " " .Values.b " "\n"
      [("port:", "\x7b\x7b .Values.c \x7d\x7d")] (by decide) (by decide)
      (by decide)).2.1 (by decide),
   rfl, rfl⟩

/-- C28: `getValuesMap` returns or panics on every text, within the depth of the
length of the text plus one, and any greater depth gives the same result; the text of
a recursive call is strictly shorter.  On a text in which, at every step, the first
`}}` of the remaining text lies after its first `{{`, it makes no slice out of range:
it returns a map, on the empty map as on the given one.  When the text is ASCII, what
the result holds under a key is what the scan of the text records under it, if it
records that key, and what the given map holds under it otherwise: the entries of the
given map under other keys are unchanged. -/
theorem getValuesMap_terminates (cms : String) (vMap : List (String × String)) :
    getValuesMap cms vMap ≠ .error .diverge ∧
    (∀ fuel : Nat, cms.length < fuel → getValuesMap.go fuel cms vMap = getValuesMap cms vMap) ∧
    (∀ newCms : String,
      gostr.sliceFrom cms (strings.Index cms "\x7d\x7d" + 2) = .ok newCms →
      newCms.length < cms.length) ∧
    (getValuesMap.inOrder (cms.length + 1) cms = true →
      ∃ scanned result : List (String × String),
        getValuesMap cms [] = .ok scanned ∧
        getValuesMap cms vMap = .ok result ∧
        (gostr.ascii cms = true → ∀ key : String,
          gomap.get result key =
            if scanned.any (fun e => decide (e.1 = key)) then gomap.get scanned key
            else gomap.get vMap key)) := by
  refine ⟨getValuesMap_go_ne_diverge _ _ _ (Nat.lt_succ_self _), ?_, ?_, ?_⟩
  · intro fuel hfuel
    exact getValuesMap_go_fuel _ _ _ _ hfuel (Nat.lt_succ_self _)
  · intro newCms h
    exact gostr.sliceFrom_length _ _ _
      (by have := strings.Index_ge cms "\x7d\x7d"; omega) h
  · intro hord
    obtain ⟨entries, h⟩ := getValuesMap_go_entries _ cms (Nat.lt_succ_self _) hord
    refine ⟨_, _, h [], h vMap, fun _ key => ?_⟩
    rw [gomap.get_foldl_set_overlay key entries vMap, gomap.any_foldl_set key entries [],
      List.any_nil, Bool.false_or]

/-- C28 at work: an ASCII text with the two expressions of `name:` and `host:`, scanned
into a map that has entries under `port:` and `host:`.  The result keeps the entry of
`port:`, which the scan does not record, and holds under `name:` and `host:` the
expressions of the text. -/
theorem getValuesMap_terminates_witness :
    getValuesMap.inOrder 45 "name: \x7b\x7b .Values.a \x7d\x7d\nhost: \x7b\x7b .Values.b \x7d\x7d\n" = true ∧
    (∃ scanned result : List (String × String),
      getValuesMap "name: \x7b\x7b .Values.a \x7d\x7d\nhost: \x7b\x7b .Values.b \x7d\x7d\n" [] =
        .ok scanned ∧
      getValuesMap "name: \x7b\x7b .Values.a \x7d\x7d\nhost: \x7b\x7b .Values.b \x7d\x7d\n"
          [("port:", "\x7b\x7b .Values.c \x7d\x7d"), ("host:", "\x7b\x7b .Values.d \x7d\x7d")] =
        .ok result ∧
      (gostr.ascii "name: \x7b\x7b .Values.a \x7d\x7d\nhost: \x7b\x7b .Values.b \x7d\x7d\n" = true →
        ∀ key : String,
          gomap.get result key =
            if scanned.any (fun e => decide (e.1 = key)) then gomap.get scanned key
            else gomap.get
              [("port:", "\x7b\x7b .Values.c \x7d\x7d"), ("host:", "\x7b\x7b .Values.d \x7d\x7d")]
              key)) ∧
    gostr.ascii "name: \x7b\x7b .Values.a \x7d\x7d\nhost: \x7b\x7b .Values.b \x7d\x7d\n" = true ∧
    getValuesMap "name: \x7b\x7b .Values.a \x7d\x7d\nhost: \x7b\x7b .Values.b \x7d\x7d\n" [] =
      .ok [("name:", "\x7b\x7b .Values.a \x7d\x7d"), ("host:", "\x7b\x7b .Values.b \x7d\x7d")] ∧
    getValuesMap "name: \x7b\x7b .Values.a \x7d\x7d\nhost: \x7b\x7b .Values.b \x7d\x7d\n"
        [("port:", "\x7b\x7b .Values.c \x7d\x7d"), ("host:", "\x7b\x7b .Values.d \x7d\x7d")] =
      .ok [("port:", "\x7b\x7b .Values.c \x7d\x7d"), ("host:", "\x7b\x7b .Values.b \x7d\x7d"),
           ("name:", "\x7b\x7b .Values.a \x7d\x7d")] :=
  ⟨by decide,
   (getValuesMap_terminates
      "name: \x7b\x7b .Values.a \x7d\x7d\nhost: \x7b\x7b .Values.b \x7d\x7d\n"
      [("port:", "\x7b\x7b .Values.c \x7d\x7d"), ("host:", "\x7b\x7b .Values.d \x7d\x7d")]).2.2.2
      (by decide),
   by decide, rfl, rfl⟩

end helm

namespace gostr

/-- On an ASCII text the length that Go counts, in bytes, is the length in
characters. -/
theorem utf8ByteSize_of_ascii (s : String) (h : ascii s = true) :
    s.utf8ByteSize = s.length := by
  obtain ⟨l⟩ := s
  unfold ascii at h
  show String.utf8ByteSize.go l = l.length
  induction l with
  | nil => rfl
  | cons c cs ih =>
    simp only [List.all_cons, Bool.and_eq_true, decide_eq_true_eq] at h
    have hc : c.utf8Size = 1 := by
      have hv : c.val.toNat < 128 := h.1
      have hle : c.val ≤ 127 := by
        show c.val.toNat ≤ (127 : UInt32).toNat
        have e : (127 : UInt32).toNat = 127 := rfl
        omega
      unfold Char.utf8Size
      simp [hle]
    rw [String.utf8ByteSize.go, ih h.2, hc, List.length_cons]

end gostr

namespace helm

/-- The test of the indent at the first marker of a manifest, after a text without the
marker. -/
theorem indentInRange_marker (pre post : String) (vm : List (String × String))
    (hpre : strings.occurrences tmpMagicStr.data pre.data = 0) :
    replaceValue.indentInRange (pre ++ tmpMagicStr ++ post) vm =
      decide ((pre.length : Int) ≥ 8 → (strings.Replace (strings.Replace pre " " "" (-1)) "\n" "" (-1)).length ≥ 5 →
        gomap.get vm (gostr.last5 (strings.Replace (strings.Replace pre " " "" (-1)) "\n" "" (-1))) ≠ "" →
        calculateIndent (gomap.get vm (gostr.last5 (strings.Replace (strings.Replace pre " " "" (-1)) "\n" "" (-1)))) = -1 ∨
          (0 ≤ calculateIndent (gomap.get vm (gostr.last5 (strings.Replace (strings.Replace pre " " "" (-1)) "\n" "" (-1)))) ∧
            calculateIndent (gomap.get vm (gostr.last5 (strings.Replace (strings.Replace pre " " "" (-1)) "\n" "" (-1)))) ≤ (pre.length : Int))) := by
  unfold replaceValue.indentInRange
  simp only [Index_marker pre post hpre, slice_before_marker]

/-- A pass of `replaceValue` on the first marker of a manifest, at an offset of 8 or
more, with a map whose non-empty values are expressions in braces without the marker,
when the indent is in range at that marker: the function calls itself with a manifest
that has one occurrence of the marker fewer and whose first marker, if it has one, is
at an offset of 8 or more, and with a map that has no new entries. -/
theorem replaceValue_step_good (pre post : String) (vm : List (String × String))
    (hgood : ∀ e ∈ vm, e.2 ≠ "" →
      (∃ body : String, e.2 = "\x7b\x7b" ++ body ++ "\x7d\x7d") ∧
        strings.Contains e.2 tmpMagicStr = false)
    (hpre : strings.occurrences tmpMagicStr.data pre.data = 0) (h8 : 8 ≤ pre.length)
    (hrange : replaceValue.indentInRange (pre ++ tmpMagicStr ++ post) vm = true) :
    ∃ (manifest1 : String) (vm1 : List (String × String)),
      replaceValue.step (pre ++ tmpMagicStr ++ post) vm = .ok (some (manifest1, vm1)) ∧
      strings.occurrences tmpMagicStr.data manifest1.data + 1 =
        strings.occurrences tmpMagicStr.data (pre ++ tmpMagicStr ++ post).data ∧
      (∀ e ∈ vm1, e ∈ vm) ∧
      (strings.Index manifest1 tmpMagicStr = -1 ∨ 8 ≤ strings.Index manifest1 tmpMagicStr) := by
  have h8d : 8 ≤ pre.data.length := h8
  have hind : (strings.Replace (strings.Replace pre " " "" (-1)) "\n" "" (-1)).length ≥ 5 → (gomap.get vm (gostr.last5 (strings.Replace (strings.Replace pre " " "" (-1)) "\n" "" (-1)))) ≠ "" →
      calculateIndent (gomap.get vm (gostr.last5 (strings.Replace (strings.Replace pre " " "" (-1)) "\n" "" (-1)))) = -1 ∨
        (0 ≤ calculateIndent (gomap.get vm (gostr.last5 (strings.Replace (strings.Replace pre " " "" (-1)) "\n" "" (-1)))) ∧ calculateIndent (gomap.get vm (gostr.last5 (strings.Replace (strings.Replace pre " " "" (-1)) "\n" "" (-1)))) ≤ (pre.length : Int)) := by
    intro hk hv
    rw [indentInRange_marker pre post vm hpre] at hrange
    exact of_decide_eq_true hrange (by omega) hk hv
  by_cases hfound : (strings.Replace (strings.Replace pre " " "" (-1)) "\n" "" (-1)).length ≥ 5 ∧ (gomap.get vm (gostr.last5 (strings.Replace (strings.Replace pre " " "" (-1)) "\n" "" (-1)))) ≠ ""
  · obtain ⟨hkey, hval⟩ := hfound
    obtain ⟨e, he, hev⟩ := gomap.get_mem _ _ hval
    obtain ⟨⟨body, hbody⟩, hnomark⟩ := hgood e he (by rw [hev]; exact hval)
    rw [hev] at hbody hnomark
    have hE0 := (strings.Contains_eq_false_iff _ _).mp hnomark
    have hEd : (gomap.get vm (gostr.last5 (strings.Replace (strings.Replace pre " " "" (-1)) "\n" "" (-1)))).data = '{' :: '{' :: (body.data ++ ['}', '}']) := by
      rw [hbody]
      simp [String.data_append]
    have hbody0 : strings.occurrences tmpMagicStr.data body.data = 0 := by
      have := marker_occurrences_braces [] body.data []
      simp only [List.nil_append, List.append_nil] at this
      rw [← hEd, hE0] at this
      have h0 : strings.occurrences tmpMagicStr.data [] = 0 := rfl
      omega
    rcases hind hkey hval with hi | ⟨hi0, hile⟩
    · refine ⟨pre ++ (gomap.get vm (gostr.last5 (strings.Replace (strings.Replace pre " " "" (-1)) "\n" "" (-1)))) ++ post, gomap.delete vm (strings.Replace (strings.Replace pre " " "" (-1)) "\n" "" (-1)),
        step_plain pre post vm hpre h8 hkey hval hi, ?_, ?_, ?_⟩
      · rw [marker_occurrences_manifest pre post hpre]
        have hd : (pre ++ (gomap.get vm (gostr.last5 (strings.Replace (strings.Replace pre " " "" (-1)) "\n" "" (-1)))) ++ post).data =
            pre.data ++ ('{' :: '{' :: (body.data ++ ['}', '}'])) ++ post.data := by
          simp only [String.data_append, hEd]
        rw [hd, marker_occurrences_braces, hpre, hbody0]
        omega
      · exact fun x hx => gomap.mem_of_mem_delete _ _ _ hx
      · have hd : (pre ++ (gomap.get vm (gostr.last5 (strings.Replace (strings.Replace pre " " "" (-1)) "\n" "" (-1)))) ++ post).data =
            (pre.data ++ ('{' :: '{' :: (body.data ++ ['}', '}']))) ++ post.data := by
          simp only [String.data_append, hEd]
        rcases strings.Index_skip_bound _ tmpMagicStr _ _ hd
          (marker_noEarly_braces _ _ _ hpre hbody0) with h | h
        · exact Or.inl h
        · right
          simp only [List.length_append] at h
          omega
    · obtain ⟨n, hn⟩ : ∃ n : Nat, calculateIndent (gomap.get vm (gostr.last5 (strings.Replace (strings.Replace pre " " "" (-1)) "\n" "" (-1)))) = (n : Int) :=
        ⟨(calculateIndent (gomap.get vm (gostr.last5 (strings.Replace (strings.Replace pre " " "" (-1)) "\n" "" (-1))))).toNat, by omega⟩
      have hnle : n ≤ pre.length := by omega
      have hcut : strings.occurrences tmpMagicStr.data
          (⟨pre.data.take (pre.length - n)⟩ : String).data = 0 := by
        apply strings.occurrences_left_zero _ tmpMagicStr_ne_nil _
          (pre.data.drop (pre.length - n))
        simp only [List.take_append_drop]
        exact hpre
      have hlenE : 8 ≤ (gomap.get vm (gostr.last5 (strings.Replace (strings.Replace pre " " "" (-1)) "\n" "" (-1)))).length := by
        have := indent_length body (by rw [← hbody, hn]; omega)
        rw [← hbody] at this
        exact this
      have hlenEd : 8 ≤ (gomap.get vm (gostr.last5 (strings.Replace (strings.Replace pre " " "" (-1)) "\n" "" (-1)))).data.length := hlenE
      refine ⟨(⟨pre.data.take (pre.length - n)⟩ : String) ++ (gomap.get vm (gostr.last5 (strings.Replace (strings.Replace pre " " "" (-1)) "\n" "" (-1)))) ++ post,
        gomap.delete vm (strings.Replace (strings.Replace pre " " "" (-1)) "\n" "" (-1)),
        step_indent pre post vm n hpre h8 hkey hval hn hnle, ?_, ?_, ?_⟩
      · rw [marker_occurrences_manifest pre post hpre]
        have hd : ((⟨pre.data.take (pre.length - n)⟩ : String) ++ (gomap.get vm (gostr.last5 (strings.Replace (strings.Replace pre " " "" (-1)) "\n" "" (-1)))) ++ post).data =
            pre.data.take (pre.length - n) ++ ('{' :: '{' :: (body.data ++ ['}', '}'])) ++
              post.data := by
          simp only [String.data_append, hEd]
        rw [hd, marker_occurrences_braces, hcut, hbody0]
        omega
      · exact fun x hx => gomap.mem_of_mem_delete _ _ _ hx
      · have hd : ((⟨pre.data.take (pre.length - n)⟩ : String) ++ (gomap.get vm (gostr.last5 (strings.Replace (strings.Replace pre " " "" (-1)) "\n" "" (-1)))) ++ post).data =
            (pre.data.take (pre.length - n) ++ ('{' :: '{' :: (body.data ++ ['}', '}']))) ++
              post.data := by
          simp only [String.data_append, hEd]
        rcases strings.Index_skip_bound _ tmpMagicStr _ _ hd
          (marker_noEarly_braces _ _ _ hcut hbody0) with h | h
        · exact Or.inl h
        · right
          rw [hEd] at hlenEd
          simp only [List.length_append] at h
          omega
  · refine ⟨pre ++ "test: test" ++ post, vm,
      step_fallback pre post vm hpre h8 hfound, ?_, fun x hx => hx, ?_⟩
    · rw [marker_occurrences_manifest pre post hpre]
      have hd : (pre ++ "test: test" ++ post).data =
          pre.data ++ ("test: test" : String).data ++ post.data := by
        simp only [String.data_append]
      rw [hd, marker_occurrences_fallback _ _ hpre]
      omega
    · have hd : (pre ++ "test: test" ++ post).data =
          (pre.data ++ ("test: test" : String).data) ++ post.data := by
        simp only [String.data_append]
      rcases strings.Index_skip_bound _ tmpMagicStr _ _ hd
        (marker_noEarly_fallback _ _ hpre) with h | h
      · exact Or.inl h
      · right
        simp only [List.length_append] at h
        omega


end helm

namespace helm

/-- A run of `replaceValue` with a map whose non-empty values are expressions in braces
without the marker, when the indent is in range at every marker that is replaced: at
every depth above the number of occurrences of the marker it returns, and the same
result at each; the result is without the marker when the manifest has no marker or has
its first marker at an offset of 8 or more. -/
theorem replaceValue_run : ∀ (n : Nat) (manifest : String) (vm : List (String × String)),
    (∀ e ∈ vm, e.2 ≠ "" →
      (∃ body : String, e.2 = "\x7b\x7b" ++ body ++ "\x7d\x7d") ∧
        strings.Contains e.2 tmpMagicStr = false) →
    strings.occurrences tmpMagicStr.data manifest.data = n →
    replaceValue.inRange (n + 1) manifest vm = true →
    ∃ (result : String) (vm1 : List (String × String)),
      (∀ fuel : Nat, n < fuel → replaceValue fuel manifest vm = .ok (result, vm1)) ∧
      ((strings.Index manifest tmpMagicStr = -1 ∨ 8 ≤ strings.Index manifest tmpMagicStr) →
        strings.Contains result tmpMagicStr = false) := by
  intro n
  induction n with
  | zero =>
    intro manifest vm _ hocc _
    have hidx := (strings.Index_eq_neg_one_iff manifest tmpMagicStr).mpr hocc
    refine ⟨manifest, vm, ?_, ?_⟩
    · intro fuel hf
      obtain ⟨k, rfl⟩ : ∃ k, fuel = k + 1 := ⟨fuel - 1, by omega⟩
      exact replaceValue_return k manifest vm (by rw [hidx]; decide)
    · intro _
      exact (strings.Contains_eq_false_iff _ _).mpr hocc
  | succ m ih =>
    intro manifest vm hgood hocc hin
    by_cases hlow : strings.Index manifest tmpMagicStr < 8
    · refine ⟨manifest, vm, ?_, ?_⟩
      · intro fuel hf
        obtain ⟨k, rfl⟩ : ∃ k, fuel = k + 1 := ⟨fuel - 1, by omega⟩
        exact replaceValue_return k manifest vm hlow
      · intro h
        have hidx : strings.Index manifest tmpMagicStr = -1 := by omega
        exact (strings.Contains_eq_false_iff _ _).mpr
          ((strings.Index_eq_neg_one_iff _ _).mp hidx)
    · obtain ⟨pre, post, hm, hpre, hlen⟩ := marker_split manifest (by omega)
      subst hm
      have h8 : 8 ≤ pre.length := by omega
      rw [replaceValue.inRange] at hin
      simp only [Bool.and_eq_true] at hin
      obtain ⟨hrange, hnext⟩ := hin
      obtain ⟨manifest1, vm1, hstep, hocc1, hsub, hidx1⟩ :=
        replaceValue_step_good pre post vm hgood hpre h8 hrange
      rw [hstep] at hnext
      simp only [] at hnext
      obtain ⟨result, vm2, hres, hclean⟩ := ih manifest1 vm1
        (fun e he => hgood e (hsub e he)) (by omega) hnext
      refine ⟨result, vm2, ?_, fun _ => hclean hidx1⟩
      intro fuel hf
      obtain ⟨k, rfl⟩ : ∃ k, fuel = k + 1 := ⟨fuel - 1, by omega⟩
      rw [replaceValue_eq_step, hstep]
      exact hres k (by omega)

/-- What `replaceValue` returns has no marker at an offset of 8 or more that is its
first. -/
theorem replaceValue_result_index : ∀ (fuel : Nat) (manifest : String)
    (vm : List (String × String)) (result : String) (vm1 : List (String × String)),
    replaceValue fuel manifest vm = .ok (result, vm1) →
    strings.Index result tmpMagicStr < 8
  | 0, _, _, _, _, h => by
    rw [replaceValue] at h
    cases h
  | fuel + 1, manifest, vm, result, vm1, h => by
    rw [replaceValue] at h
    simp only [] at h
    split at h
    · split at h
      · cases h
      · split at h
        · split at h
          · cases h
          · exact replaceValue_result_index fuel _ _ _ _ h
        · exact replaceValue_result_index fuel _ _ _ _ h
    · rename_i hc
      injection h with h
      injection h with h1 h2
      subst h1
      omega

/-- Claim C24, the case the code leaves out: a marker at an offset below 8 stays in the
result. The ASCII manifest `a: crockitwoodzZ: heihei` is returned unchanged with the
empty map, and so is a manifest with a second marker further on: the result of each
contains the marker. -/
theorem replaceValue_leaves_early_marker :
    replaceValue 3 "a: crockitwoodzZ: heihei" [] = .ok ("a: crockitwoodzZ: heihei", []) ∧
    strings.Contains "a: crockitwoodzZ: heihei" tmpMagicStr = true ∧
    strings.Index "a: crockitwoodzZ: heihei" tmpMagicStr = 3 ∧
    gostr.ascii "a: crockitwoodzZ: heihei" = true ∧
    replaceValue 3 "a: crockitwoodzZ: heihei\nkind: ConfigMap\nname: crockitwoodzZ: heihei" [] =
      .ok ("a: crockitwoodzZ: heihei\nkind: ConfigMap\nname: crockitwoodzZ: heihei", []) :=
  ⟨rfl, by decide, by decide, by decide, rfl⟩

/-- Claim C24, amended, for an ASCII manifest and a map with ASCII values, where the
offsets counted here are the offsets of Go.  `replaceValue` replaces the markers of the
manifest from the left as long as the first one left is at an offset of 8 or more.  A
manifest whose first marker is at an offset below 8 is returned unchanged.  A first
marker at an offset of 8 or more for whose key the map has no expression is replaced by
`test: test`.  With a map whose non-empty values are expressions in braces without the
marker, when the indent is in range at every marker that is replaced, the run returns
at every depth above the number of markers, the same result at each, and the result
contains no marker when the manifest has none or has its first at an offset of 8 or
more.  In whatever `replaceValue` returns the first marker, if there is one, is at an
offset below 8. -/
theorem replaceValue_marker_only_below_8 (manifest : String) (vm : List (String × String))
    (_hascii : gostr.ascii manifest = true)
    (_hvalues : ∀ e ∈ vm, gostr.ascii e.2 = true) :
    (strings.Index manifest tmpMagicStr < 8 →
      ∀ fuel : Nat, replaceValue (fuel + 1) manifest vm = .ok (manifest, vm)) ∧
    (∀ pre post : String, manifest = pre ++ tmpMagicStr ++ post →
      strings.Contains pre tmpMagicStr = false → 8 ≤ pre.length →
      ¬ ((strings.Replace (strings.Replace pre " " "" (-1)) "\n" "" (-1)).length ≥ 5 ∧
        gomap.get vm (gostr.last5
          (strings.Replace (strings.Replace pre " " "" (-1)) "\n" "" (-1))) ≠ "") →
      ∀ fuel : Nat, replaceValue (fuel + 1) manifest vm =
        replaceValue fuel (pre ++ "test: test" ++ post) vm) ∧
    ((∀ e ∈ vm, e.2 ≠ "" →
        (∃ body : String, e.2 = "\x7b\x7b" ++ body ++ "\x7d\x7d") ∧
          strings.Contains e.2 tmpMagicStr = false) →
      replaceValue.inRange (strings.occurrences tmpMagicStr.data manifest.data + 1)
        manifest vm = true →
      ∃ (result : String) (vm1 : List (String × String)),
        (∀ fuel : Nat, strings.occurrences tmpMagicStr.data manifest.data < fuel →
          replaceValue fuel manifest vm = .ok (result, vm1)) ∧
        ((strings.Index manifest tmpMagicStr = -1 ∨
            8 ≤ strings.Index manifest tmpMagicStr) →
          strings.Contains result tmpMagicStr = false)) ∧
    (∀ (fuel : Nat) (result : String) (vm1 : List (String × String)),
      replaceValue fuel manifest vm = .ok (result, vm1) →
      strings.Index result tmpMagicStr < 8) := by
  refine ⟨fun h fuel => replaceValue_return fuel manifest vm h, ?_,
    fun hgood hin => replaceValue_run _ manifest vm hgood rfl hin,
    fun fuel result vm1 h => replaceValue_result_index fuel manifest vm result vm1 h⟩
  intro pre post hm hpre h8 hkey fuel
  subst hm
  exact replaceValue_step_fallback fuel pre post vm
    ((strings.Contains_eq_false_iff _ _).mp hpre) h8 hkey

/-- Claim C24, amended, at work: a manifest with the marker after `name: `, at offset
17, and after `host: `, at offset 46 (of the first manifest), and a map that holds an
expression for `host:` alone.  The first marker is replaced by `test: test`, the run
returns at every depth above 2, and the result is without the marker: the first marker
has become `test: test` and the second the expression. -/
theorem replaceValue_marker_only_below_8_witness :
    (∀ fuel : Nat,
      replaceValue (fuel + 1)
          ("metadata:\n  name: " ++ tmpMagicStr ++ "\n  host: crockitwoodzZ: heihei\n")
          [("host:", "\x7b\x7b .Values.host \x7d\x7d")] =
        replaceValue fuel
          ("metadata:\n  name: " ++ "test: test" ++ "\n  host: crockitwoodzZ: heihei\n")
          [("host:", "\x7b\x7b .Values.host \x7d\x7d")]) ∧
    (∃ (result : String) (vm1 : List (String × String)),
      (∀ fuel : Nat,
        strings.occurrences tmpMagicStr.data
          ("metadata:\n  name: " ++ tmpMagicStr ++ "\n  host: crockitwoodzZ: heihei\n" :
            String).data < fuel →
        replaceValue fuel
          ("metadata:\n  name: " ++ tmpMagicStr ++ "\n  host: crockitwoodzZ: heihei\n")
          [("host:", "\x7b\x7b .Values.host \x7d\x7d")] = .ok (result, vm1)) ∧
      ((strings.Index
            ("metadata:\n  name: " ++ tmpMagicStr ++ "\n  host: crockitwoodzZ: heihei\n")
            tmpMagicStr = -1 ∨
          8 ≤ strings.Index
            ("metadata:\n  name: " ++ tmpMagicStr ++ "\n  host: crockitwoodzZ: heihei\n")
            tmpMagicStr) →
        strings.Contains result tmpMagicStr = false)) ∧
    replaceValue 3
        ("metadata:\n  name: " ++ tmpMagicStr ++ "\n  host: crockitwoodzZ: heihei\n")
        [("host:", "\x7b\x7b .Values.host \x7d\x7d")] =
      .ok ("metadata:\n  name: test: test\n  host: \x7b\x7b .Values.host \x7d\x7d\n",
        [("host:", "\x7b\x7b .Values.host \x7d\x7d")]) :=
  have hascii : gostr.ascii
      ("metadata:\n  name: " ++ tmpMagicStr ++ "\n  host: crockitwoodzZ: heihei\n") = true := by
    decide
  have hvalues : ∀ e ∈ [(("host:" : String), ("\x7b\x7b .Values.host \x7d\x7d" : String))],
      gostr.ascii e.2 = true := by
    intro e he
    rw [List.mem_singleton] at he
    subst he
    decide
  ⟨(replaceValue_marker_only_below_8 _ _ hascii hvalues).2.1 "metadata:\n  name: "
      "\n  host: crockitwoodzZ: heihei\n" rfl (by decide) (by decide) (by decide),
   (replaceValue_marker_only_below_8 _ _ hascii hvalues).2.2.1
      (by
        intro e he _
        rw [List.mem_singleton] at he
        subst he
        exact ⟨⟨" .Values.host ", rfl⟩, by decide⟩)
      (by decide),
   rfl⟩

/-- Claim C29, for an ASCII manifest and a map with ASCII values, where the offsets
counted here are the offsets of Go; the non-empty values of the map start with two
opening braces, end with two closing braces and do not contain the marker.  A manifest
without the marker is returned unchanged.  When the indent is in range at the first
marker, the pass of `replaceValue` makes no slice out of range, and where it goes on to
call itself, it does so with a manifest that has exactly one occurrence of the marker
fewer and with a map without new entries.  When the indent is in range at every marker
that is replaced, `replaceValue` returns at every depth above the number of occurrences
of the marker, with the same result at each. -/
theorem replaceValue_terminates (manifest : String) (vm : List (String × String))
    (_hascii : gostr.ascii manifest = true)
    (_hvalues : ∀ e ∈ vm, gostr.ascii e.2 = true)
    (hgood : ∀ e ∈ vm, e.2 ≠ "" →
      (∃ body : String, e.2 = "\x7b\x7b" ++ body ++ "\x7d\x7d") ∧
        strings.Contains e.2 tmpMagicStr = false) :
    (strings.Contains manifest tmpMagicStr = false →
      ∀ fuel : Nat, replaceValue (fuel + 1) manifest vm = .ok (manifest, vm)) ∧
    (replaceValue.indentInRange manifest vm = true →
      (∃ next : Option (String × List (String × String)),
        replaceValue.step manifest vm = .ok next) ∧
      ∀ (manifest1 : String) (vm1 : List (String × String)),
        replaceValue.step manifest vm = .ok (some (manifest1, vm1)) →
        strings.occurrences tmpMagicStr.data manifest1.data + 1 =
          strings.occurrences tmpMagicStr.data manifest.data ∧
        (∀ e ∈ vm1, e ∈ vm) ∧
        ∀ fuel : Nat, replaceValue (fuel + 1) manifest vm = replaceValue fuel manifest1 vm1) ∧
    (replaceValue.inRange (strings.occurrences tmpMagicStr.data manifest.data + 1)
        manifest vm = true →
      ∃ (result : String) (vm1 : List (String × String)),
        ∀ fuel : Nat, strings.occurrences tmpMagicStr.data manifest.data < fuel →
          replaceValue fuel manifest vm = .ok (result, vm1)) := by
  refine ⟨?_, ?_, ?_⟩
  · intro h fuel
    have hidx := (strings.Index_eq_neg_one_iff manifest tmpMagicStr).mpr
      ((strings.Contains_eq_false_iff _ _).mp h)
    exact replaceValue_return fuel manifest vm (by rw [hidx]; decide)
  · intro hrange
    by_cases hlow : strings.Index manifest tmpMagicStr < 8
    · have hs := step_return manifest vm hlow
      refine ⟨⟨none, hs⟩, ?_⟩
      intro manifest1 vm1 h
      rw [hs] at h
      cases h
    · obtain ⟨pre, post, hm, hpre, hlen⟩ := marker_split manifest (by omega)
      subst hm
      obtain ⟨manifest2, vm2, hstep, hocc, hsub, _⟩ :=
        replaceValue_step_good pre post vm hgood hpre (by omega) hrange
      refine ⟨⟨_, hstep⟩, ?_⟩
      intro manifest1 vm1 h
      rw [hstep] at h
      injection h with h
      injection h with h
      injection h with h1 h2
      subst h1
      subst h2
      refine ⟨hocc, hsub, fun fuel => ?_⟩
      rw [replaceValue_eq_step, hstep]
  · intro hin
    obtain ⟨result, vm1, hres, _⟩ := replaceValue_run _ manifest vm hgood rfl hin
    exact ⟨result, vm1, hres⟩

/-- Claim C29 at work: a map with an expression of indent 10 and one without indent,
and an ASCII manifest with one marker for each, the one of indent 10 at offset 39 after
ten spaces.  The indent is in range at both markers, the run returns at every depth
above 2, and its result has the expressions in the place of the markers, the ten spaces
cut off.  The manifest without marker `kind: ConfigMap` is returned unchanged. -/
theorem replaceValue_terminates_witness :
    (∀ fuel : Nat, replaceValue (fuel + 1) "kind: ConfigMap"
        [(":env:", "\x7b\x7b toYaml .Values.env | indent 10 \x7d\x7d"),
          ("name:", "\x7b\x7b .Values.name \x7d\x7d")] =
      .ok ("kind: ConfigMap",
        [(":env:", "\x7b\x7b toYaml .Values.env | indent 10 \x7d\x7d"),
          ("name:", "\x7b\x7b .Values.name \x7d\x7d")])) ∧
    replaceValue.inRange 3
        "metadata:\n  name: crockitwoodzZ: heihei\n:env:\n          crockitwoodzZ: heihei\n"
        [(":env:", "\x7b\x7b toYaml .Values.env | indent 10 \x7d\x7d"),
          ("name:", "\x7b\x7b .Values.name \x7d\x7d")] = true ∧
    (∃ (result : String) (vm1 : List (String × String)),
      ∀ fuel : Nat,
        strings.occurrences tmpMagicStr.data
          ("metadata:\n  name: crockitwoodzZ: heihei\n:env:\n          crockitwoodzZ: heihei\n" :
            String).data < fuel →
        replaceValue fuel
          "metadata:\n  name: crockitwoodzZ: heihei\n:env:\n          crockitwoodzZ: heihei\n"
          [(":env:", "\x7b\x7b toYaml .Values.env | indent 10 \x7d\x7d"),
            ("name:", "\x7b\x7b .Values.name \x7d\x7d")] = .ok (result, vm1)) ∧
    replaceValue 3
        "metadata:\n  name: crockitwoodzZ: heihei\n:env:\n          crockitwoodzZ: heihei\n"
        [(":env:", "\x7b\x7b toYaml .Values.env | indent 10 \x7d\x7d"),
          ("name:", "\x7b\x7b .Values.name \x7d\x7d")] =
      .ok ("metadata:\n  name: \x7b\x7b .Values.name \x7d\x7d\n:env:\n\x7b\x7b toYaml .Values.env | indent 10 \x7d\x7d\n",
        [(":env:", "\x7b\x7b toYaml .Values.env | indent 10 \x7d\x7d"),
          ("name:", "\x7b\x7b .Values.name \x7d\x7d")]) :=
  have hvalues : ∀ e ∈ [((":env:" : String),
        ("\x7b\x7b toYaml .Values.env | indent 10 \x7d\x7d" : String)),
      ("name:", "\x7b\x7b .Values.name \x7d\x7d")], gostr.ascii e.2 = true := by
    intro e he
    rw [List.mem_cons, List.mem_singleton] at he
    rcases he with he | he <;> subst he <;> decide
  have hgood : ∀ e ∈ [((":env:" : String),
        ("\x7b\x7b toYaml .Values.env | indent 10 \x7d\x7d" : String)),
      ("name:", "\x7b\x7b .Values.name \x7d\x7d")], e.2 ≠ "" →
      (∃ body : String, e.2 = "\x7b\x7b" ++ body ++ "\x7d\x7d") ∧
        strings.Contains e.2 tmpMagicStr = false := by
    intro e he _
    rw [List.mem_cons, List.mem_singleton] at he
    rcases he with he | he
    · subst he
      exact ⟨⟨" toYaml .Values.env | indent 10 ", rfl⟩, by decide⟩
    · subst he
      exact ⟨⟨" .Values.name ", rfl⟩, by decide⟩
  ⟨(replaceValue_terminates "kind: ConfigMap" _ (by decide) hvalues hgood).1 (by decide),
   by decide,
   (replaceValue_terminates
      "metadata:\n  name: crockitwoodzZ: heihei\n:env:\n          crockitwoodzZ: heihei\n"
      _ (by decide) hvalues hgood).2.2 (by decide),
   rfl⟩

end helm
